import Mathlib

set_option maxRecDepth 8192

/-!
Verification of the python-bps repository (BPS/"blip" binary patch toolkit).

We give a shallow embedding of the two engines described in the spec:

* `src/blip/io.py` — the tuple-based codec and validator (`check_stream`,
  `read_blip`, `write_blip`, `read_blip_asm`, `write_blip_asm`,
  `_read_multiline_text`);
* `src/bps/diff.py` — the diff engine (`iter_blocks`, `measure_op`,
  `op_efficiency`, `diff_bytearrays`).

Byte strings are modelled as `List Nat` (a byte is a `Nat`; where a claim
depends on byte-ness we add the hypothesis `b < 256`).  Python text
(`str`) that exclusively travels next to bytes (patch metadata, the
blip-asm text form) is modelled as its UTF-8 byte sequence, also
`List Nat`; the delimiters the code cares about (`'\n'` = 10, `'.'` = 46,
`':'` = 58) are ASCII, so splitting text on them is the same operation on
the byte form.  Python's arbitrary-precision `int` is `Int` (or `Nat`
where the source value is provably non-negative).  Fallible code returns
`Except String` or `Option`.

Modules of the repository that are imported by the sources but are not
present under `src/` (`bps.operations`, `bps.util`, `bps.apply`,
`blip.constants`, `blip.util`) are modelled from the spec; each such
definition's doc comment starts with `Modelled from the spec:`.
-/

/-! ## Basic byte-string utilities -/

/-- Python slice `xs[a:b]` for `0 ≤ a ≤ b` (the only shape the embedded
code uses; negative indices never arise at the modelled call sites). -/
def pySlice (xs : List Nat) (a b : Nat) : List Nat :=
  (xs.drop a).take (b - a)

/-- UTF-8 bytes of an ASCII string literal (used for the label constants). -/
def strBytes (s : String) : List Nat :=
  s.data.map Char.toNat

/-! ## VarInt codec

`blip.util.read_var_int` / `write_var_int` are not under `src/`.
Modelled from the spec (§4.1), which gives the exact algorithms:

* Encode(n): while `n > 0x7F`: emit `n & 0x7F`; `n = (n >> 7) - 1`.
  Emit `n | 0x80`.
* Decode: `result = 0; shift = 1`; read byte `b`;
  `result += (b & 0x7F) * shift`; if `b & 0x80` stop;
  `shift <<= 7; result += shift`; continue.

`n & 0x7F` is written `n % 128`, `n >> 7` is `n / 128`, and for
`n ≤ 0x7F` the final `n | 0x80` is `n + 128`. -/

/-- Modelled from the spec: the loop of `blip.util.write_var_int` /
`bps.util.encode_var_int` (§4.1 Encode), with explicit fuel so that the
definition is structurally recursive (`n / 128 - 1 < n`, so fuel `n`
suffices; the fuel-0 arm is only reached with `n ≤ 127`, where it agrees
with the algorithm). -/
def encodeVarIntGo : Nat → Nat → List Nat
  | 0, n => [n + 128]
  | fuel + 1, n =>
    if 127 < n then (n % 128) :: encodeVarIntGo fuel (n / 128 - 1)
    else [n + 128]

/-- Modelled from the spec: `blip.util.write_var_int` /
`bps.util.encode_var_int` (§4.1 Encode). -/
def encodeVarInt (n : Nat) : List Nat :=
  encodeVarIntGo n n

/-- Modelled from the spec: the loop body of `blip.util.read_var_int`
(§4.1 Decode).  The high bit test `b & 0x80` is `b.testBit 7`. -/
def readVarIntAux : List Nat → Nat → Nat → Option (Nat × List Nat)
  | [], _, _ => none
  | b :: rest, result, shift =>
    let result := result + (b % 128) * shift
    if b.testBit 7 then some (result, rest)
    else readVarIntAux rest (result + shift * 128) (shift * 128)

/-- Modelled from the spec: `blip.util.read_var_int` (§4.1 Decode).
Returns the decoded value and the unread remainder of the stream;
`none` is the `UnexpectedEof` failure. -/
def readVarInt (l : List Nat) : Option (Nat × List Nat) :=
  readVarIntAux l 0 1

/-! ## Signed offset codec

`write_blip` (src/blip/io.py lines 373-391) encodes a SourceCopy/TargetCopy
offset `o` as the unsigned varint of `(abs(o) << 1) | (o < 0)`;
`read_blip` (lines 299-311) decodes a raw varint `r` as magnitude `r >> 1`
negated iff `r & 1`. -/

/-- The raw unsigned value `(abs(o) << 1) | (o < 0)` that `write_blip`
feeds to the varint encoder (src/blip/io.py lines 378-381, 388-391). -/
def encodeSignedRaw (o : Int) : Nat :=
  2 * o.natAbs + (if o < 0 then 1 else 0)

/-- The sign rule of `read_blip` (src/blip/io.py lines 300-303, 307-310):
`offset = raw_offset >> 1; if raw_offset & 1: offset = -offset`. -/
def decodeSignedRaw (r : Nat) : Int :=
  if r % 2 = 1 then -((r / 2 : Nat) : Int) else ((r / 2 : Nat) : Int)

/-! ## CRC32

`blip.util.CRCIOWrapper` tracks zlib's `crc32` over every byte transferred;
the module is not under `src/`.  Modelled from the spec (§4.2: "standard
IEEE polynomial, same as the widely used crc32 used for ZIP/gzip"): the
reflected algorithm with polynomial `0xEDB88320`. -/

/-- Modelled from the spec: one bit-step of reflected IEEE CRC32,
iterated `k` times. -/
def crcBitSteps : Nat → Nat → Nat
  | c, 0 => c
  | c, k + 1 => crcBitSteps (if c % 2 = 1 then (c / 2) ^^^ 0xEDB88320 else c / 2) k

/-- Modelled from the spec: `zlib.crc32` over a byte sequence (§4.2). -/
def crc32Bytes (data : List Nat) : Nat :=
  (data.foldl (fun c b => crcBitSteps (c ^^^ b % 256) 8) 0xFFFFFFFF) ^^^ 0xFFFFFFFF

/-- `struct.pack("I", v)`: four little-endian bytes of a `u32`. -/
def pack32LE (v : Nat) : List Nat :=
  [v % 256, v / 256 % 256, v / 65536 % 256, v / 16777216 % 256]

/-- `struct.unpack("I", bytes)[0]` on four little-endian bytes. -/
def unpack32LE (b0 b1 b2 b3 : Nat) : Nat :=
  b0 + 256 * b1 + 65536 * b2 + 16777216 * b3

/-! ## The operation-tuple model of `blip.io`

`src/blip/io.py` represents patch events as tuples whose first element is
a label constant from `blip.constants` (not under `src/`): per the spec's
textual layout (§4.4) the labels are `"source-read"`, `"target-read"`,
`"source-copy"`, `"target-copy"`, `"source-crc32"`, `"target-crc32"`, and
the header is a 4-tuple `(magic, sourceSize, targetSize, metadata)`.
We model the tuples as a tagged variant; the dynamic checks of
`check_stream` that test tuple arity and `isinstance` cannot fail on the
typed representation and have no counterpart here.  Sizes, lengths,
offsets and CRC values stay `Int` so that every numeric range check of
`check_stream` is preserved. -/

/-- `C.BLIP_MAGIC = b'blip'` (named in src/blip/io.py line 113). -/
def BLIP_MAGIC : List Nat := strBytes "blip"

inductive BlipItem where
  | header (magic : List Nat) (sourceSize targetSize : Int) (metadata : List Nat)
  | sourceRead (length : Int)
  | targetRead (data : List Nat)
  | sourceCopy (length offset : Int)
  | targetCopy (length offset : Int)
  | sourceCRC32 (value : Int)
  | targetCRC32 (value : Int)
deriving DecidableEq, Repr

/-- Target bytes produced by one item (`bytespan` in the spec's §4.3). -/
def bytespanItem : BlipItem → Int
  | .sourceRead len => len
  | .targetRead data => data.length
  | .sourceCopy len _ => len
  | .targetCopy len _ => len
  | _ => 0

/-- Sum of the bytespans of a list of items. -/
def middleSum (items : List BlipItem) : Int :=
  (items.map bytespanItem).sum

/-- The SourceRead branch of `check_stream` (src/blip/io.py 147-158):
`_check_length`, then the source-file bound, then advance
`targetWriteOffset`. -/
def srStep (sourceSize two len : Int) : Except String Int :=
  if len ≤ 0 then
    .error "bad hunk: length must be greater than zero"
  else if sourceSize < two + len then
    .error "bad hunk: reads past the end of the source file"
  else
    .ok (two + len)

/-- The SourceCopy branch of `check_stream` (src/blip/io.py 174-194):
`_check_length`, `_check_offset`, both cursor bounds, then the cursor and
`targetWriteOffset` updates.  Returns the new
`(targetWriteOffset, sourceRelativeOffset)`. -/
def scStep (sourceSize two sro len off : Int) : Except String (Int × Int) :=
  if len ≤ 0 then
    .error "bad hunk: length must be greater than zero"
  else if sro + off < 0 then
    .error "bad hunk: reads from before the beginning of the source file"
  else if sourceSize < sro + off + len then
    .error "bad hunk: reads past the end of the source file"
  else
    .ok (two + len, sro + (len + off))

/-- The TargetCopy branch of `check_stream` (src/blip/io.py 196-218):
`_check_length`, `_check_offset`, the two cursor bounds, then the cursor
and `targetWriteOffset` updates.  Returns the new
`(targetWriteOffset, targetRelativeOffset)`. -/
def tcStep (two tro len off : Int) : Except String (Int × Int) :=
  if len ≤ 0 then
    .error "bad hunk: length must be greater than zero"
  else if tro + off < 0 then
    .error "bad hunk: reads from before the beginning of the target file"
  else if two ≤ tro + off then
    .error "bad hunk: reads past the end of the written part of the target file"
  else
    .ok (two + len, tro + (len + off))

/-- `_check_crc32(item, C.SOURCECRC32)` (src/blip/io.py 54-77). -/
def checkSourceCrc32 : BlipItem → Except String Unit
  | .sourceCRC32 v =>
    if v < 0 then .error "bad crc32: must be at least zero"
    else if (4294967295 : Int) < v then .error "bad crc32: must be less than 2**32"
    else .ok ()
  | _ => .error "bad hunk: expected sourcecrc32"

/-- `_check_crc32(item, C.TARGETCRC32)` (src/blip/io.py 54-77). -/
def checkTargetCrc32 : BlipItem → Except String Unit
  | .targetCRC32 v =>
    if v < 0 then .error "bad crc32: must be at least zero"
    else if (4294967295 : Int) < v then .error "bad crc32: must be less than 2**32"
    else .ok ()
  | _ => .error "bad hunk: expected targetcrc32"

/-- The main loop of `check_stream` (src/blip/io.py 144-244): while
`targetWriteOffset < targetSize` process one middle item (each branch ends
with the common overflow check of lines 224-226), then demand the two CRC32
trailer items and an exhausted iterator. -/
def checkLoop (sourceSize targetSize : Int) :
    Int → Int → Int → List BlipItem → Except String (List BlipItem)
  | two, sro, tro, items =>
    if two < targetSize then
      match items with
      | [] => .error "truncated patch: expected more opcodes after this."
      | item :: rest =>
        match item with
        | .sourceRead len =>
          match srStep sourceSize two len with
          | .error e => .error e
          | .ok two' =>
            if targetSize < two' then
              .error "bad hunk: writes past the end of the target"
            else
              (checkLoop sourceSize targetSize two' sro tro rest).map (item :: ·)
        | .targetRead data =>
          if data.length = 0 then
            .error "bad hunk: targetread data must not be empty"
          else if targetSize < two + data.length then
            .error "bad hunk: writes past the end of the target"
          else
            (checkLoop sourceSize targetSize (two + data.length) sro tro rest).map (item :: ·)
        | .sourceCopy len off =>
          match scStep sourceSize two sro len off with
          | .error e => .error e
          | .ok st =>
            if targetSize < st.1 then
              .error "bad hunk: writes past the end of the target"
            else
              (checkLoop sourceSize targetSize st.1 st.2 tro rest).map (item :: ·)
        | .targetCopy len off =>
          match tcStep two tro len off with
          | .error e => .error e
          | .ok st =>
            if targetSize < st.1 then
              .error "bad hunk: writes past the end of the target"
            else
              (checkLoop sourceSize targetSize st.1 sro st.2 rest).map (item :: ·)
        | _ => .error "bad hunk: unknown opcode"
    else
      match items with
      | [] => .error "truncated patch: expected more opcodes after this."
      | [c1] =>
        match checkSourceCrc32 c1 with
        | .error e => .error e
        | .ok _ => .error "truncated patch: expected more opcodes after this."
      | c1 :: c2 :: rest =>
        match checkSourceCrc32 c1 with
        | .error e => .error e
        | .ok _ =>
          match checkTargetCrc32 c2 with
          | .error e => .error e
          | .ok _ =>
            match rest with
            | [] => .ok [c1, c2]
            | _ => .error "trailing garbage in stream"

/-- `check_stream` (src/blip/io.py 92-244): header checks (lines 102-136),
then the main loop.  The result is the stream of yielded items. -/
def checkStream (items : List BlipItem) : Except String (List BlipItem) :=
  match items with
  | [] => .error "truncated patch: expected more opcodes after this."
  | h :: rest =>
    match h with
    | .header magic ss ts _md =>
      if magic ≠ BLIP_MAGIC then
        .error "bad magic: magic must be blip"
      else if ss < 0 then
        .error "source size must be at least zero"
      else if ts < 0 then
        .error "target size must be at least zero"
      else
        (checkLoop ss ts 0 0 0 rest).map (h :: ·)
    | _ => .error "bad header: must have exactly 4 items"

/-- A concrete stream whose TargetCopy reads bytes it writes itself
(`cursor + length > targetWriteOffset`): the spec's scenario 5,
`"" → "AAAA"` as one literal byte plus a run-length TargetCopy. -/
def rleStream : List BlipItem :=
  [.header BLIP_MAGIC 0 4 [], .targetRead [65], .targetCopy 3 0,
   .sourceCRC32 0, .targetCRC32 0]

/-! ## The class-operation model of `bps.operations`

`src/bps/diff.py` builds operations from the `bps.operations` classes
(module not under `src/`).  As the spec (§4.3) and the tests in
`src/bps/test/test_diff.py` show, a SourceCopy/TargetCopy instance holds
the *absolute* reference offset (`measure_op` fills in `sourceoffset`;
`diff_bytearrays` sets `lastSourceCopyOffset = op.offset + op.bytespan`);
the delta against the copy cursor is only formed by `encode`.  All fields
are naturally non-negative here, so they are `Nat`. -/

inductive BOp where
  | header (sourceSize targetSize : Nat) (metadata : List Nat)
  | sourceRead (length : Nat)
  | targetRead (data : List Nat)
  | sourceCopy (length : Nat) (offset : Nat)
  | targetCopy (length : Nat) (offset : Nat)
  | sourceCRC32 (value : Nat)
  | targetCRC32 (value : Nat)
deriving DecidableEq, Repr

/-- The class object passed as `measure_op`'s `op` parameter
(`ops.SourceCopy` or `ops.TargetCopy`). -/
inductive CopyKind where
  | sourceCopyK
  | targetCopyK
deriving DecidableEq, Repr

/-- Modelled from the spec: `op.bytespan` (§4.3 — "the number of target
bytes the operation produces: `length` for the four middle variants,
`len(data)` for TargetRead; 0 for header and trailers"). -/
def bytespanB : BOp → Nat
  | .sourceRead n => n
  | .targetRead d => d.length
  | .sourceCopy n _ => n
  | .targetCopy n _ => n
  | _ => 0

/-! ## `measure_op` (src/bps/diff.py 31-86)

The backward scan is `for backspan in range(maxspan): if mismatch: break`
with `maxspan = min(sourceoffset, targetoffset, pendingTargetReadSize+1)`.
A Python `for` that runs off the end of `range(n)` leaves the loop
variable at `n - 1` (and at its prior value, here the initialisation `0`,
when `n = 0`); the forward scan additionally executes the `else:` arm
`forespan += 1` when it never breaks.  Byte accesses are modelled with
`List.getD`; at every index the scans touch, the call sites inside
`diff_bytearrays` keep the index in range, which the measure-lemmas'
hypotheses reflect. -/

/-- First `i` with `start ≤ i < start + n` and `pred i`. -/
def findFirst (pred : Nat → Bool) : Nat → Nat → Option Nat
  | 0, _ => none
  | n + 1, start => if pred start then some start else findFirst pred n (start + 1)

/-- Final value of the loop variable of
`for i in range(n): if pred(i): break` (with the variable initialised
to 0 before the loop, as in `measure_op`). -/
def pyForBreak (pred : Nat → Bool) (n : Nat) : Nat :=
  match findFirst pred n 0 with
  | some k => k
  | none => n - 1

/-- The backward span computed by `measure_op` (src/bps/diff.py 50-56). -/
def backspanOf (p : Nat) (bsrc : List Nat) (so : Nat) (tgt : List Nat) (to_ : Nat) : Nat :=
  pyForBreak
    (fun b => decide (bsrc.getD (so - b - 1) 0 ≠ tgt.getD (to_ - b - 1) 0))
    (min so (min to_ (p + 1)))

/-- The forward span computed by `measure_op` (src/bps/diff.py 67-79),
including the `else: forespan += 1` arm taken when no break occurs. -/
def forespanOf (bsrc : List Nat) (so : Nat) (tgt : List Nat) (to_ : Nat) : Nat :=
  let maxspan := min (bsrc.length - so) (tgt.length - to_)
  match findFirst (fun k => decide (bsrc.getD (so + k) 0 ≠ tgt.getD (to_ + k) 0)) maxspan 0 with
  | some k => k
  | none => maxspan - 1 + 1

/-- `measure_op(pendingTargetReadSize, blocksrc, sourceoffset, target,
targetoffset, op)` (src/bps/diff.py 31-86). -/
def measureOp (pendingTargetReadSize : Nat) (blocksrc : List Nat) (sourceoffset : Nat)
    (target : List Nat) (targetoffset : Nat) (op : CopyKind) : List BOp :=
  let backspan := backspanOf pendingTargetReadSize blocksrc sourceoffset target targetoffset
  let so := sourceoffset - backspan
  let to_ := targetoffset - backspan
  let p := pendingTargetReadSize - backspan
  let tr : List BOp :=
    if p ≠ 0 then [BOp.targetRead (pySlice target (to_ - p) to_)] else []
  let forespan := forespanOf blocksrc so target to_
  let cop : BOp :=
    if op = CopyKind.sourceCopyK ∧ so = to_ then BOp.sourceRead forespan
    else
      match op with
      | CopyKind.sourceCopyK => BOp.sourceCopy forespan so
      | CopyKind.targetCopyK => BOp.targetCopy forespan so
  tr ++ [cop]

/-- The spec's notion for C4: the length of the longest run of positions
`b = 0, 1, …` below `bound` on which the two buffers match walking
backward in lockstep. -/
def longestBackMatch (bsrc : List Nat) (so : Nat) (tgt : List Nat) (to_ : Nat)
    (bound : Nat) : Nat :=
  ((List.range bound).takeWhile
    (fun b => bsrc.getD (so - b - 1) 0 == tgt.getD (to_ - b - 1) 0)).length

/-! ## Line-oriented text primitives

The blip-asm text form is processed line by line.  `readline` models
Python's `io` `readline()` on the (UTF-8 byte form of the) remaining
text: it returns everything up to and including the first `'\n'` (byte
10), the whole remainder when no newline is left, and `""` at EOF. -/

/-- `in_buf.readline()`: the first line (newline included) and the
remaining text. -/
def readline (cs : List Nat) : List Nat × List Nat :=
  let i := cs.findIdx (fun c => c == 10)
  (cs.take (i + 1), cs.drop (i + 1))

/-- `_read_multiline_text(in_buf)` (src/blip/io.py 253-261): collect
lines until one equals `".\n"`, stripping one leading `"."` from every
dot-escaped line.  On a stream that ends with no terminator line, the
Python loop keeps appending the `""` that `readline` returns at EOF and
never terminates; the model returns `none` for that diverging run.
Returns the concatenated text and the unconsumed remainder. -/
def readMultilineText : List Nat → Option (List Nat × List Nat)
  | [] => none
  | c :: cs' =>
    let line := (readline (c :: cs')).1
    let rest := (readline (c :: cs')).2
    if line = [46, 10] then some ([], rest)
    else
      match readMultilineText rest with
      | none => none
      | some (txt, r) =>
        some ((if line.headD 0 = 46 then line.tail else line) ++ txt, r)
termination_by cs => cs.length
decreasing_by
  show ((c :: cs').drop ((c :: cs').findIdx (fun c => c == 10) + 1)).length
      < (c :: cs').length
  rw [List.length_drop]
  simp only [List.length_cons]
  omega

/-- The terminating condition of `_read_multiline_text`: the successive
`readline` decomposition of the remaining input contains a line that is
exactly `".\n"`. -/
def hasDotTerminator : List Nat → Bool
  | [] => false
  | c :: cs' =>
    let line := (readline (c :: cs')).1
    let rest := (readline (c :: cs')).2
    (line == [46, 10]) || hasDotTerminator rest
termination_by cs => cs.length
decreasing_by
  show ((c :: cs').drop ((c :: cs').findIdx (fun c => c == 10) + 1)).length
      < (c :: cs').length
  rw [List.length_drop]
  simp only [List.length_cons]
  omega

/-- Python `str.split("\n")` on the byte form: the segments between
newline bytes (one more segment than there are newlines). -/
def pySplitNl : List Nat → List (List Nat)
  | [] => [[]]
  | c :: rest =>
    if c = 10 then [] :: pySplitNl rest
    else
      match pySplitNl rest with
      | l :: ls => (c :: l) :: ls
      | [] => [[c]]

/-- The metadata block that `write_blip_asm` emits (src/blip/io.py
486-499): split the metadata on `"\n"`, drop a trailing empty line, write
each line dot-escaped and newline-terminated, then the `".\n"`
terminator. -/
def writeMetaBlock (md : List Nat) : List Nat :=
  (((if (pySplitNl md).getLast? = some [] then (pySplitNl md).dropLast
      else pySplitNl md).map
    (fun l => (if l.headD 0 = 46 then [46] else []) ++ l ++ [10])).flatten)
    ++ [46, 10]

/-! ## The diff engine (src/bps/diff.py)

`diff_bytearrays` computes `blocksize = (len(source)+len(target))//1000000
+ 1 ≥ 1`. `iter_blocks(data, 0)` would loop forever in Python;
`iterBlocksGo` returns `[]` for blocksize 0, a case `diff_bytearrays`
never reaches. -/

/-- `iter_blocks(data, blocksize)` (src/bps/diff.py 21-28), with the
running offset made explicit. -/
def iterBlocksGo : Nat → List Nat → Nat → List (List Nat × Nat)
  | _, [], _ => []
  | 0, _ :: _, _ => []
  | bs + 1, x :: rest, off =>
    ((x :: rest).take (bs + 1), off)
      :: iterBlocksGo (bs + 1) ((x :: rest).drop (bs + 1))
          (off + min (bs + 1) (x :: rest).length)
termination_by _ d _ => d.length
decreasing_by
  rw [List.length_drop]
  simp only [List.length_cons]
  omega

/-- `iter_blocks(data, blocksize)` starting at offset 0. -/
def iterBlocks (data : List Nat) (bs : Nat) : List (List Nat × Nat) :=
  iterBlocksGo bs data 0

/-- Modelled from the spec: `BlockMap.add_block` (§3: "the map supports
add(block, offset)"; `bps.util` is not under `src/`).  The map is the
insertion-ordered list of (block, offset) pairs. -/
def addBlock (m : List (List Nat × Nat)) (b : List Nat) (off : Nat) :
    List (List Nat × Nat) :=
  m ++ [(b, off)]

/-- Modelled from the spec: `BlockMap.get(block, [])` (§3:
"lookup(block) → sequence of offsets"): the offsets added for exactly
this block content, in insertion order. -/
def getBlocks (m : List (List Nat × Nat)) (b : List Nat) : List Nat :=
  (m.filter (fun e => e.1 == b)).map (·.2)

/-- The `for block, offset in iter_blocks(...): map.add_block(...)` loop
of `diff_bytearrays` (src/bps/diff.py 117-119). -/
def buildMap (entries : List (List Nat × Nat)) : List (List Nat × Nat) :=
  entries.foldl (fun m e => addBlock m e.1 e.2) []

/-- Modelled from the spec: `op.encode(lastSourceCopyOffset,
lastTargetCopyOffset)` of `bps.operations` (§4.3-§4.5: record header
varint `(length-1) << 2 | opcode`, TargetRead carries its data, copies
append the signed varint of the offset *delta* against the matching copy
cursor — "the signed offset is delta-encoded relative to the
corresponding cursor").  Only its length feeds `op_efficiency`. -/
def encodeBOp (op : BOp) (lastSourceCopyOffset lastTargetCopyOffset : Nat) : List Nat :=
  match op with
  | .header ss ts md =>
    strBytes "BPS1" ++ encodeVarInt ss ++ encodeVarInt ts
      ++ encodeVarInt md.length ++ md
  | .sourceRead n => encodeVarInt ((n - 1) * 4 + 0)
  | .targetRead d => encodeVarInt ((d.length - 1) * 4 + 1) ++ d
  | .sourceCopy n o =>
    encodeVarInt ((n - 1) * 4 + 2)
      ++ encodeVarInt (encodeSignedRaw ((o : Int) - (lastSourceCopyOffset : Int)))
  | .targetCopy n o =>
    encodeVarInt ((n - 1) * 4 + 3)
      ++ encodeVarInt (encodeSignedRaw ((o : Int) - (lastTargetCopyOffset : Int)))
  | .sourceCRC32 v => pack32LE v
  | .targetCRC32 v => pack32LE v

/-- `op_efficiency(oplist, lastSourceCopyOffset, lastTargetCopyOffset)`
(src/bps/diff.py 89-99).  Python divides as floats; the model uses exact
rationals — the claims proved below hold for any scoring, because every
candidate the scan produces is individually correct. -/
def opEfficiency (oplist : List BOp) (lsc ltc : Nat) : ℚ :=
  ((oplist.map bytespanB).sum : ℚ)
    / ((oplist.map (fun op => (encodeBOp op lsc ltc).length)).sum : ℚ)

/-- The `efficiency > bestOpEfficiency` fold of the candidate scan
(src/bps/diff.py 150-186): first candidate wins ties. -/
def pickBest (lsc ltc : Nat) (cands : List (List BOp)) : Option (List BOp) :=
  (cands.foldl
    (fun best cand =>
      if best.2 < opEfficiency cand lsc ltc then (some cand, opEfficiency cand lsc ltc)
      else best)
    ((none : Option (List BOp)), (0 : ℚ))).1

/-- The candidate lists examined by one iteration of the main loop
(src/bps/diff.py 153-186): for each `extraOffset` below the blocksize,
the `measure_op` results for every sourcemap hit and then every
targetmap hit of the block starting at
`targetWriteOffset + pendingTargetReadSize + extraOffset`
(`base = targetWriteOffset + pendingTargetReadSize`). -/
def scanCandidates (bs : Nat) (smap tmap : List (List Nat × Nat)) (s t : List Nat)
    (base pending : Nat) : List (List BOp) :=
  (List.range bs).flatMap (fun eo =>
    ((getBlocks smap (pySlice t (base + eo) (base + eo + bs))).map
      (fun so => measureOp (pending + eo) s so t (base + eo) CopyKind.sourceCopyK)) ++
    ((getBlocks tmap (pySlice t (base + eo) (base + eo + bs))).map
      (fun so => measureOp (pending + eo) t so t (base + eo) CopyKind.targetCopyK)))

/-- The `for op in bestOpList` emission loop (src/bps/diff.py 196-204):
advance `targetWriteOffset` by each bytespan and update
`lastSourceCopyOffset` / `lastTargetCopyOffset` to `op.offset +
op.bytespan` after the matching copy kinds.  Returns the final
`(targetWriteOffset, lastSourceCopyOffset, lastTargetCopyOffset)`. -/
def emitUpdate : List BOp → Nat → Nat → Nat → Nat × Nat × Nat
  | [], tw, lsc, ltc => (tw, lsc, ltc)
  | op :: rest, tw, lsc, ltc =>
    emitUpdate rest (tw + bytespanB op)
      (match op with | .sourceCopy _ o => o + bytespanB op | _ => lsc)
      (match op with | .targetCopy _ o => o + bytespanB op | _ => ltc)

/-- The targetmap catch-up loop (src/bps/diff.py 208-213): while the
emitted output is at least a blocksize ahead of the last indexed block,
pull the next block from the target block iterator into the map.
Returns the new `(targetmap, remaining blocks, nextTargetBlockOffset)`.
(On an exhausted iterator Python's `next` would raise `StopIteration`;
that state is unreachable, and the model returns unchanged.) -/
def catchUp (bs : Nat) :
    List (List Nat × Nat) → List (List Nat × Nat) → Nat → Nat →
      List (List Nat × Nat) × List (List Nat × Nat) × Nat
  | tmap, tblocks, ntb, tw =>
    if bs ≤ tw - ntb then
      match tblocks with
      | [] => (tmap, [], ntb)
      | (b, off) :: rest => catchUp bs (addBlock tmap b off) rest (off + b.length) tw
    else
      (tmap, tblocks, ntb)

/-- The main `while targetWriteOffset + pendingTargetReadSize <
len(target)` loop of `diff_bytearrays` (src/bps/diff.py 148-217),
including the final `TargetRead(target[targetWriteOffset:])` flush after
the loop.  The loop consumes fuel; `diffBytearrays` supplies
`(len(target) + 1)^2`, which the loop-measure argument below shows is
never exhausted: a fruitless scan raises `pendingTargetReadSize` by the
blocksize and an emitting iteration raises `targetWriteOffset` by at
least one (a chosen candidate's copy span is ≥ 1), so
`(len(t) - tw) * (len(t) + 1) + (len(t) - tw - pending)` strictly
decreases every iteration and bounds the iteration count by
`(len(t) + 1)^2`. -/
def diffLoop (bs : Nat) (s t : List Nat) (smap : List (List Nat × Nat)) :
    Nat → Nat → Nat → Nat → List (List Nat × Nat) → List (List Nat × Nat) →
      Nat → Nat → List BOp
  | fuel, tw, lsc, ltc, tmap, tblocks, ntb, pending =>
    if tw + pending < t.length then
      match fuel with
      | 0 => []
      | fuel + 1 =>
        match pickBest lsc ltc (scanCandidates bs smap tmap s t (tw + pending) pending) with
        | none =>
          diffLoop bs s t smap fuel tw lsc ltc tmap tblocks ntb (pending + bs)
        | some l =>
          l ++
            (let st := emitUpdate l tw lsc ltc
             let cu := catchUp bs tmap tblocks ntb st.1
             diffLoop bs s t smap fuel st.1 st.2.1 st.2.2 cu.1 cu.2.1 cu.2.2 0)
    else
      if tw < t.length then [BOp.targetRead (t.drop tw)] else []

/-- `diff_bytearrays(source, target, metadata)` (src/bps/diff.py
102-220): header, the main loop's operations, the flushed TargetRead,
and the two CRC32 trailers. -/
def diffBytearrays (source target metadata : List Nat) : List BOp :=
  BOp.header source.length target.length metadata
    :: (diffLoop ((source.length + target.length) / 1000000 + 1) source target
          (buildMap (iterBlocks source ((source.length + target.length) / 1000000 + 1)))
          ((target.length + 1) * (target.length + 1)) 0 0 0 []
          (iterBlocks target ((source.length + target.length) / 1000000 + 1)) 0 0
        ++ [BOp.sourceCRC32 (crc32Bytes source), BOp.targetCRC32 (crc32Bytes target)])

/-! ## The patch applier

`bps.apply.apply_to_bytearrays` is not under `src/`. -/

/-- Modelled from the spec: the TargetCopy byte-by-byte copy with
run-length semantics (§3: "Reading bytes that will be written later by
the same operation … is permitted").  Copies `n` bytes starting at
absolute offset `o` of the growing output. -/
def rleCopy : List Nat → Nat → Nat → List Nat
  | out, _, 0 => out
  | out, o, n + 1 => rleCopy (out ++ [out.getD o 0]) (o + 1) n

/-- Modelled from the spec: one step of `bps.apply.apply_to_bytearrays`
(§3's operation semantics on the class-operation model, whose copy
offsets are absolute): SourceRead copies from the source at the current
write offset, TargetRead appends its data, SourceCopy copies from the
absolute source offset, TargetCopy run-length-copies from the absolute
target offset; Header and the CRC32 trailers write nothing
(`testIgnoresHeader` in src/bps/test/test_apply.py).  `none` models the
applier reading out of bounds. -/
def applyOp (src out : List Nat) : BOp → Option (List Nat)
  | .header _ _ _ => some out
  | .sourceRead n =>
    if out.length + n ≤ src.length then
      some (out ++ pySlice src out.length (out.length + n))
    else none
  | .targetRead d => some (out ++ d)
  | .sourceCopy n o =>
    if o + n ≤ src.length then some (out ++ pySlice src o (o + n)) else none
  | .targetCopy n o =>
    if o < out.length then some (rleCopy out o n) else none
  | .sourceCRC32 _ => some out
  | .targetCRC32 _ => some out

/-- Modelled from the spec: `apply(patch, source)` — apply the
operation stream to a source buffer, building the target. -/
def applyOps (l : List BOp) (src : List Nat) : Option (List Nat) :=
  l.foldlM (fun out op => applyOp src out op) []

/-! ## Number formatting and parsing for the blip-asm text form

`write_blip_asm` renders with `str.format` (`{:d}`, `{:+d}`, `{:08X}`);
`read_blip_asm` parses with Python `int(s)` / `int(s, 16)`.  Digits are
produced most-significant-first; the writer uses fuel `n`, which is
ample since the remaining value shrinks by a factor of the base each
step (the fuel-0 arm is only reached for a one-digit value, where it
agrees). -/

/-- Digits of `n` in the given base (as bytes via `digitChar`),
most-significant first, prepended to `acc`. -/
def natBaseAux (base : Nat) (digitChar : Nat → Nat) : Nat → Nat → List Nat → List Nat
  | 0, n, acc => digitChar (n % base) :: acc
  | fuel + 1, n, acc =>
    if n < base then digitChar n :: acc
    else natBaseAux base digitChar fuel (n / base) (digitChar (n % base) :: acc)

/-- Python `str(n)` for `n ≥ 0` (decimal ASCII digits). -/
def natDec (n : Nat) : List Nat :=
  natBaseAux 10 (· + 48) n n []

/-- An uppercase hexadecimal digit (`0-9A-F`). -/
def hexDigU (d : Nat) : Nat :=
  if d < 10 then d + 48 else d + 55

/-- A lowercase hexadecimal digit (`0-9a-f`), as produced by
`binascii.b2a_hex`. -/
def hexDigL (d : Nat) : Nat :=
  if d < 10 then d + 48 else d + 87

/-- Python `"{0:X}".format(n)`: uppercase hexadecimal digits. -/
def natHexU (n : Nat) : List Nat :=
  natBaseAux 16 hexDigU n n []

/-- Python `"{0:08X}".format(n)`: eight zero-padded uppercase hex
digits (for `n < 2^32`). -/
def natHex8U (n : Nat) : List Nat :=
  List.replicate (8 - (natHexU n).length) 48 ++ natHexU n

/-- Python `str(o)` for an `int` (`"{0}".format` in `write_blip_asm`'s
source-read line). -/
def intDec (o : Int) : List Nat :=
  (if o < 0 then [45] else []) ++ natDec o.natAbs

/-- Python `"{0:+d}".format(o)`: always-signed decimal, as in the
copy-operation lines of `write_blip_asm`. -/
def intSignedDec (o : Int) : List Nat :=
  (if o < 0 then [45] else [43]) ++ natDec o.natAbs

/-- `binascii.b2a_hex` of one byte: two lowercase hex digits. -/
def byteHexL (b : Nat) : List Nat :=
  [hexDigL (b / 16), hexDigL (b % 16)]

/-- The value of an ASCII digit in the given base (Python accepts
`0-9`, `a-z`, `A-Z` up to the base). -/
def digitVal (base c : Nat) : Option Nat :=
  if 48 ≤ c ∧ c ≤ 57 ∧ c - 48 < base then some (c - 48)
  else if 97 ≤ c ∧ c ≤ 122 ∧ c - 87 < base then some (c - 87)
  else if 65 ≤ c ∧ c ≤ 90 ∧ c - 55 < base then some (c - 55)
  else none

def digitsValGo (base : Nat) : List Nat → Nat → Option Nat
  | [], a => some a
  | c :: r, a =>
    match digitVal base c with
    | none => none
    | some d => digitsValGo base r (a * base + d)

/-- The value of a non-empty all-digit string in the given base. -/
def digitsVal (base : Nat) (l : List Nat) : Option Nat :=
  if l = [] then none else digitsValGo base l 0

/-- The ASCII whitespace that Python `int(s)` strips. -/
def isPyWs (c : Nat) : Bool :=
  c == 32 || c == 9 || c == 10 || c == 13 || c == 11 || c == 12

/-- For base 16 Python `int` also accepts an optional `0x`/`0X` prefix. -/
def strip0x (base : Nat) (r : List Nat) : List Nat :=
  match r with
  | c1 :: c2 :: rest =>
    if base = 16 ∧ c1 = 48 ∧ (c2 = 120 ∨ c2 = 88) then rest else r
  | _ => r

/-- Python `int(s)` / `int(s, base)`: strip surrounding whitespace, an
optional sign, an optional `0x` prefix (base 16), then a non-empty digit
string.  (`none` is Python's `ValueError`.  Underscored literals, which
the writer never produces, are not modelled.) -/
def pyInt (base : Nat) (s : List Nat) : Option Int :=
  match (s.dropWhile isPyWs).rdropWhile isPyWs with
  | c :: r =>
    if c = 45 then (digitsVal base (strip0x base r)).map (fun v => -(v : Int))
    else if c = 43 then (digitsVal base (strip0x base r)).map (fun v => (v : Int))
    else (digitsVal base (strip0x base (c :: r))).map (fun v => (v : Int))
  | [] => none

/-- Python `s.split()` (no argument): maximal runs of non-whitespace. -/
def pyWsSplit : List Nat → List (List Nat)
  | [] => []
  | c :: rest =>
    if isPyWs c then pyWsSplit rest
    else
      match pyWsSplit rest with
      | [] => [[c]]
      | w :: ws =>
        match rest with
        | [] => [[c]]
        | r0 :: _ => if isPyWs r0 then [c] :: w :: ws else (c :: w) :: ws

/-! ## The binary codec (`read_blip` / `write_blip`, src/blip/io.py) -/

/-- UTF-8 validity of a byte sequence (the `decode('utf-8')` step of
`read_blip`, src/blip/io.py 283; decoding failure is an error). -/
def utf8Valid : List Nat → Bool
  | [] => true
  | b :: rest =>
    if b < 128 then utf8Valid rest
    else if 194 ≤ b && b ≤ 223 then
      match rest with
      | c1 :: r => (128 ≤ c1 && c1 ≤ 191) && utf8Valid r
      | [] => false
    else if b = 224 then
      match rest with
      | c1 :: c2 :: r =>
        (160 ≤ c1 && c1 ≤ 191) && (128 ≤ c2 && c2 ≤ 191) && utf8Valid r
      | _ => false
    else if (225 ≤ b && b ≤ 236) || b = 238 || b = 239 then
      match rest with
      | c1 :: c2 :: r =>
        (128 ≤ c1 && c1 ≤ 191) && (128 ≤ c2 && c2 ≤ 191) && utf8Valid r
      | _ => false
    else if b = 237 then
      match rest with
      | c1 :: c2 :: r =>
        (128 ≤ c1 && c1 ≤ 159) && (128 ≤ c2 && c2 ≤ 191) && utf8Valid r
      | _ => false
    else if b = 240 then
      match rest with
      | c1 :: c2 :: c3 :: r =>
        (144 ≤ c1 && c1 ≤ 191) && (128 ≤ c2 && c2 ≤ 191)
          && (128 ≤ c3 && c3 ≤ 191) && utf8Valid r
      | _ => false
    else if 241 ≤ b && b ≤ 243 then
      match rest with
      | c1 :: c2 :: c3 :: r =>
        (128 ≤ c1 && c1 ≤ 191) && (128 ≤ c2 && c2 ≤ 191)
          && (128 ≤ c3 && c3 ≤ 191) && utf8Valid r
      | _ => false
    else if b = 244 then
      match rest with
      | c1 :: c2 :: c3 :: r =>
        (128 ≤ c1 && c1 ≤ 143) && (128 ≤ c2 && c2 ≤ 191)
          && (128 ≤ c3 && c3 ≤ 191) && utf8Valid r
      | _ => false
    else false

/-- The middle-operation loop of `read_blip` (src/blip/io.py 287-318):
while `targetoffset < targetsize`, read the record varint, split it into
opcode (`value & 3`) and length (`(value >> 2) + 1`), read the payload,
and advance `targetoffset` by the stated length.  Fuel is consumed once
per record; every record consumes at least one input byte, so the
caller's `length + 1` fuel cannot run out. -/
def readBlipLoop (ts : Nat) : Nat → Nat → List Nat → Except String (List BlipItem × List Nat)
  | fuel, to_, rest =>
    if to_ < ts then
      match fuel with
      | 0 => .error "internal: out of fuel"
      | fuel + 1 =>
        match readVarInt rest with
        | none => .error "unexpected end of file while reading a varint"
        | some (value, r1) =>
          if value % 4 = 0 then
            (readBlipLoop ts fuel (to_ + (value / 4 + 1)) r1).map
              (fun pr => (BlipItem.sourceRead ((value / 4 + 1 : Nat) : Int) :: pr.1, pr.2))
          else if value % 4 = 1 then
            (readBlipLoop ts fuel (to_ + (value / 4 + 1)) (r1.drop (value / 4 + 1))).map
              (fun pr => (BlipItem.targetRead (r1.take (value / 4 + 1)) :: pr.1, pr.2))
          else if value % 4 = 2 then
            match readVarInt r1 with
            | none => .error "unexpected end of file while reading a varint"
            | some (raw, r2) =>
              (readBlipLoop ts fuel (to_ + (value / 4 + 1)) r2).map
                (fun pr =>
                  (BlipItem.sourceCopy ((value / 4 + 1 : Nat) : Int) (decodeSignedRaw raw)
                    :: pr.1, pr.2))
          else if value % 4 = 3 then
            match readVarInt r1 with
            | none => .error "unexpected end of file while reading a varint"
            | some (raw, r2) =>
              (readBlipLoop ts fuel (to_ + (value / 4 + 1)) r2).map
                (fun pr =>
                  (BlipItem.targetCopy ((value / 4 + 1 : Nat) : Int) (decodeSignedRaw raw)
                    :: pr.1, pr.2))
          else
            .error "Unknown opcode"
    else
      .ok ([], rest)

/-- `read_blip(in_buf)` (src/blip/io.py 264-332): magic, the three size
varints, the UTF-8 metadata, the middle operations, the two CRC32
trailer fields, and the patch's own trailing CRC32, which must equal the
CRC32 of every preceding byte.  Returns the yielded items and the bytes
left unread after the patch CRC32 field. -/
def readBlip (p : List Nat) : Except String (List BlipItem × List Nat) :=
  if p.take 4 ≠ BLIP_MAGIC then .error "bad file magic"
  else
    match readVarInt (p.drop 4) with
    | none => .error "unexpected end of file while reading a varint"
    | some (ss, r1) =>
      match readVarInt r1 with
      | none => .error "unexpected end of file while reading a varint"
      | some (ts, r2) =>
        match readVarInt r2 with
        | none => .error "unexpected end of file while reading a varint"
        | some (msize, r3) =>
          if ¬ utf8Valid (r3.take msize) then .error "metadata is not valid UTF-8"
          else
            match readBlipLoop ts ((r3.drop msize).length + 1) 0 (r3.drop msize) with
            | .error e => .error e
            | .ok (mids, r4) =>
              if r4.length < 4 then .error "unexpected end of file in source crc32"
              else if (r4.drop 4).length < 4 then
                .error "unexpected end of file in target crc32"
              else if (r4.drop 8).length < 4 then
                .error "unexpected end of file in patch crc32"
              else if unpack32LE (r4.getD 8 0) (r4.getD 9 0) (r4.getD 10 0) (r4.getD 11 0)
                  ≠ crc32Bytes (p.take (p.length - (r4.drop 8).length)) then
                .error "patch checksum mismatch"
              else
                .ok (BlipItem.header BLIP_MAGIC ((ss : Nat) : Int) ((ts : Nat) : Int)
                      (r3.take msize)
                    :: (mids
                      ++ [BlipItem.sourceCRC32
                            ((unpack32LE (r4.getD 0 0) (r4.getD 1 0) (r4.getD 2 0)
                              (r4.getD 3 0) : Nat) : Int),
                          BlipItem.targetCRC32
                            ((unpack32LE (r4.getD 4 0) (r4.getD 5 0) (r4.getD 6 0)
                              (r4.getD 7 0) : Nat) : Int)]),
                  r4.drop 12)

/-- The per-item encoder of `write_blip` (src/blip/io.py 359-402):
record varint `(length - 1) << 2 | opcode` (the opcode occupies the two
bits the shift cleared, so `|` is `+`), then the payload: literal data
for TargetRead, the signed-varint offset for the copies, the packed
`u32` for the CRC32 trailers.  Unreachable for a header item inside a
checked stream. -/
def encodeBinItem : BlipItem → List Nat
  | .sourceRead len => encodeVarInt ((len.toNat - 1) * 4 + 0)
  | .targetRead data => encodeVarInt ((data.length - 1) * 4 + 1) ++ data
  | .sourceCopy len off =>
    encodeVarInt ((len.toNat - 1) * 4 + 2) ++ encodeVarInt (encodeSignedRaw off)
  | .targetCopy len off =>
    encodeVarInt ((len.toNat - 1) * 4 + 3) ++ encodeVarInt (encodeSignedRaw off)
  | .sourceCRC32 v => pack32LE v.toNat
  | .targetCRC32 v => pack32LE v.toNat
  | .header _ _ _ _ => []

/-- `write_blip(iterable, out_buf)` (src/blip/io.py 335-405): validate
with `check_stream`, write the header (magic, size varints, metadata),
every middle and trailer item, then the CRC32 of everything written so
far. -/
def writeBlip (items : List BlipItem) : Except String (List Nat) :=
  match checkStream items with
  | .error e => .error e
  | .ok _ =>
    match items with
    | .header magic ss ts md :: rest =>
      .ok ((magic ++ encodeVarInt ss.toNat ++ encodeVarInt ts.toNat
          ++ encodeVarInt md.length ++ md ++ (rest.map encodeBinItem).flatten)
        ++ pack32LE (crc32Bytes (magic ++ encodeVarInt ss.toNat ++ encodeVarInt ts.toNat
          ++ encodeVarInt md.length ++ md ++ (rest.map encodeBinItem).flatten)))
    | _ => .error "bad header"

/-! ## The textual codec (`read_blip_asm` / `write_blip_asm`, src/blip/io.py) -/

/-- Modelled from the spec: `C.BLIPASM_MAGIC`, the textual magic line
(§4.4 "First line: the textual magic string"; `blip.constants` is not
under `src/`, so the exact string is a fixed representative — both codec
directions use the same constant, which is all the claims need). -/
def BLIPASM_MAGIC : List Nat := strBytes "blip-asm\n"

/-- Python `label, value = line.split(":")`: succeeds exactly when the
line holds exactly one colon (byte 58); `none` is the `ValueError` of a
mismatched unpacking. -/
def splitColon (l : List Nat) : Option (List Nat × List Nat) :=
  if l.count 58 = 1 then
    some (l.take (l.findIdx (fun c => c == 58)),
      l.drop (l.findIdx (fun c => c == 58) + 1))
  else none

/-- A hexadecimal-digit byte (the complement of `NON_HEX_DIGIT_RE`,
src/blip/io.py 10). -/
def isHexDigit (c : Nat) : Bool :=
  (48 ≤ c && c ≤ 57) || (97 ≤ c && c ≤ 102) || (65 ≤ c && c ≤ 70)

/-- `binascii.a2b_hex`: pairs of hex digits to bytes; `none` for an odd
digit count or a non-digit. -/
def a2bHex : List Nat → Option (List Nat)
  | [] => some []
  | [_] => none
  | c1 :: c2 :: r =>
    match digitVal 16 c1, digitVal 16 c2 with
    | some d1, some d2 => (a2bHex r).map (fun bs => (d1 * 16 + d2) :: bs)
    | _, _ => none

/-- The operation-line loop of `read_blip_asm` (src/blip/io.py 436-457):
while `targetoffset < targetsize`, read a line, split it at the colon,
and dispatch on the label.  Fuel is consumed once per line. -/
def readBlipAsmLoop (ts : Int) : Nat → Int → List Nat → Except String (List BlipItem × List Nat)
  | fuel, to_, text =>
    if to_ < ts then
      match fuel with
      | 0 => .error "internal: out of fuel"
      | fuel + 1 =>
        match splitColon (readline text).1 with
        | none => .error "ValueError: unpacking split"
        | some (label, value) =>
          if label = strBytes "source-read" then
            match pyInt 10 value with
            | none => .error "ValueError: invalid literal for int"
            | some n =>
              (readBlipAsmLoop ts fuel (to_ + n) (readline text).2).map
                (fun pr => (BlipItem.sourceRead n :: pr.1, pr.2))
          else if label = strBytes "target-read" then
            match readMultilineText (readline text).2 with
            | none => .error "_read_multiline_text does not terminate"
            | some (txt, rest2) =>
              match a2bHex (txt.filter isHexDigit) with
              | none => .error "binascii.Error"
              | some data =>
                (readBlipAsmLoop ts fuel (to_ + data.length) rest2).map
                  (fun pr => (BlipItem.targetRead data :: pr.1, pr.2))
          else if label = strBytes "source-copy" then
            match pyWsSplit value with
            | [a, b] =>
              match pyInt 10 a, pyInt 10 b with
              | some n, some o =>
                (readBlipAsmLoop ts fuel (to_ + n) (readline text).2).map
                  (fun pr => (BlipItem.sourceCopy n o :: pr.1, pr.2))
              | _, _ => .error "ValueError: invalid literal for int"
            | _ => .error "ValueError: unpacking the value"
          else if label = strBytes "target-copy" then
            match pyWsSplit value with
            | [a, b] =>
              match pyInt 10 a, pyInt 10 b with
              | some n, some o =>
                (readBlipAsmLoop ts fuel (to_ + n) (readline text).2).map
                  (fun pr => (BlipItem.targetCopy n o :: pr.1, pr.2))
              | _, _ => .error "ValueError: invalid literal for int"
            | _ => .error "ValueError: unpacking the value"
          else
            .error "Unknown label"
    else
      .ok ([], text)

/-- `read_blip_asm(in_buf)` (src/blip/io.py 408-465): the magic line,
the two size lines, the metadata block, the operation lines, and the two
CRC32 lines (parsed with `int(_, 16)`). -/
def readBlipAsm (text : List Nat) : Except String (List BlipItem) :=
  if (readline text).1 ≠ BLIPASM_MAGIC then .error "bad asm magic"
  else
    match splitColon (readline (readline text).2).1 with
    | none => .error "ValueError: unpacking split"
    | some (lab2, val2) =>
      if lab2 ≠ strBytes "source-size" then .error "expected source-size"
      else
        match pyInt 10 val2 with
        | none => .error "ValueError: invalid literal for int"
        | some ss =>
          match splitColon (readline (readline (readline text).2).2).1 with
          | none => .error "ValueError: unpacking split"
          | some (lab3, val3) =>
            if lab3 ≠ strBytes "target-size" then .error "expected target-size"
            else
              match pyInt 10 val3 with
              | none => .error "ValueError: invalid literal for int"
              | some ts =>
                match splitColon
                    (readline (readline (readline (readline text).2).2).2).1 with
                | none => .error "ValueError: unpacking split"
                | some (lab4, _) =>
                  if lab4 ≠ strBytes "metadata" then .error "expected metadata"
                  else
                    match readMultilineText
                        (readline (readline (readline (readline text).2).2).2).2 with
                    | none => .error "_read_multiline_text does not terminate"
                    | some (md, r4) =>
                      match readBlipAsmLoop ts (r4.length + 1) 0 r4 with
                      | .error e => .error e
                      | .ok (mids, r5) =>
                        match splitColon (readline r5).1 with
                        | none => .error "ValueError: unpacking split"
                        | some (lab5, val5) =>
                          if lab5 ≠ strBytes "source-crc32" then
                            .error "expected source-crc32"
                          else
                            match pyInt 16 val5 with
                            | none => .error "ValueError: invalid literal for int"
                            | some c1 =>
                              match splitColon (readline (readline r5).2).1 with
                              | none => .error "ValueError: unpacking split"
                              | some (lab6, val6) =>
                                if lab6 ≠ strBytes "target-crc32" then
                                  .error "expected target-crc32"
                                else
                                  match pyInt 16 val6 with
                                  | none => .error "ValueError: invalid literal for int"
                                  | some c2 =>
                                    .ok (BlipItem.header BLIP_MAGIC ss ts md
                                      :: (mids ++ [BlipItem.sourceCRC32 c1,
                                          BlipItem.targetCRC32 c2]))

/-- The hexadecimal dump of a TargetRead payload in `write_blip_asm`
(src/blip/io.py 506-513): lines of 40 bytes (80 hex digits), then the
final short line and the `".\n"` terminator. -/
def hexChunksB (data : List Nat) : List Nat :=
  if h : 40 < data.length then
    (data.take 40).flatMap byteHexL ++ [10] ++ hexChunksB (data.drop 40)
  else
    data.flatMap byteHexL ++ [10, 46, 10]
termination_by data.length
decreasing_by
  rw [List.length_drop]
  omega

/-- The per-item renderer of the `write_blip_asm` operation loop
(src/blip/io.py 501-528).  Unreachable for a header item inside a
checked stream. -/
def renderAsmItem : BlipItem → List Nat
  | .sourceRead n => strBytes "source-read" ++ [58, 32] ++ intDec n ++ [10]
  | .targetRead data => strBytes "target-read" ++ [58, 10] ++ hexChunksB data
  | .sourceCopy n o =>
    strBytes "source-copy" ++ [58, 32] ++ intDec n ++ [32] ++ intSignedDec o ++ [10]
  | .targetCopy n o =>
    strBytes "target-copy" ++ [58, 32] ++ intDec n ++ [32] ++ intSignedDec o ++ [10]
  | .sourceCRC32 v => strBytes "source-crc32" ++ [58, 32] ++ natHex8U v.toNat ++ [10]
  | .targetCRC32 v => strBytes "target-crc32" ++ [58, 32] ++ natHex8U v.toNat ++ [10]
  | .header _ _ _ _ => []

/-- `write_blip_asm(iterable, out_buf)` (src/blip/io.py 468-528):
validate with `check_stream`, write the magic line, the size lines, the
metadata block, and every operation and trailer line. -/
def writeBlipAsm (items : List BlipItem) : Except String (List Nat) :=
  match checkStream items with
  | .error e => .error e
  | .ok _ =>
    match items with
    | .header _magic ss ts md :: rest =>
      .ok (BLIPASM_MAGIC
        ++ strBytes "source-size" ++ [58, 32] ++ intDec ss ++ [10]
        ++ strBytes "target-size" ++ [58, 32] ++ intDec ts ++ [10]
        ++ strBytes "metadata" ++ [58, 10]
        ++ writeMetaBlock md
        ++ (rest.map renderAsmItem).flatten)
    | _ => .error "bad header"

/-- `binaryToText` of the spec's §6: decode a binary patch and render it
as blip-asm text. -/
def binaryToText (p : List Nat) : Except String (List Nat) :=
  match readBlip p with
  | .error e => .error e
  | .ok (items, _) => writeBlipAsm items

/-- `textToBinary` of the spec's §6: parse blip-asm text and encode the
binary patch. -/
def textToBinary (t : List Nat) : Except String (List Nat) :=
  match readBlipAsm t with
  | .error e => .error e
  | .ok items => writeBlip items

/-- The shape a middle item must have after `check_stream` has passed
it: one of the four middle opcodes, with positive length (`_check_length`,
src/blip/io.py 32-43) and, for TargetRead, non-empty data
(src/blip/io.py 161-164). -/
def validMid : BlipItem → Prop
  | .sourceRead n => 1 ≤ n
  | .targetRead d => d ≠ []
  | .sourceCopy n _ => 1 ≤ n
  | .targetCopy n _ => 1 ≤ n
  | _ => False

/-- The metadata field of the leading header item of a stream. -/
def metadataOf : List BlipItem → List Nat
  | .header _ _ _ md :: _ => md
  | _ => []

/-- The per-operation part of C2: a TargetRead carries non-empty data and
every SourceRead, SourceCopy and TargetCopy has length at least one. -/
def validBOp : BOp → Prop
  | .targetRead d => d ≠ []
  | .sourceRead n => 1 ≤ n
  | .sourceCopy n _ => 1 ≤ n
  | .targetCopy n _ => 1 ≤ n
  | _ => True

/-! ## Theorems and supporting lemmas -/

theorem encodeVarInt_of_le (n : Nat) (h : n ≤ 127) : encodeVarInt n = [n + 128] := by
  cases n with
  | zero => rfl
  | succ m =>
    rw [encodeVarInt, encodeVarIntGo]
    simp [Nat.not_lt.mpr h]

theorem encodeVarIntGo_congr :
    ∀ fuel n, n ≤ fuel → encodeVarIntGo fuel n = encodeVarInt n := by
  intro fuel
  induction fuel using Nat.strong_induction_on with
  | _ fuel ih =>
    intro n hn
    cases fuel with
    | zero =>
      interval_cases n
      rfl
    | succ f =>
      by_cases h : 127 < n
      · have hlt : n / 128 - 1 < n := by
          have h1 : n / 128 ≤ n / 2 := Nat.div_le_div_left (by omega) (by omega)
          have h2 : n / 2 < n := Nat.div_lt_self (by omega) (by omega)
          omega
        obtain ⟨m, hm⟩ : ∃ m, n = m + 1 := ⟨n - 1, by omega⟩
        rw [encodeVarIntGo, if_pos h]
        conv_rhs => rw [encodeVarInt, hm, encodeVarIntGo]
        rw [← hm, if_pos h]
        congr 1
        rw [ih f (by omega) _ (by omega)]
        rw [ih m (by omega) _ (by omega)]
      · rw [encodeVarIntGo, if_neg h]
        rw [encodeVarInt_of_le n (by omega)]

theorem encodeVarInt_of_gt (n : Nat) (h : 127 < n) :
    encodeVarInt n = (n % 128) :: encodeVarInt (n / 128 - 1) := by
  obtain ⟨m, hm⟩ : ∃ m, n = m + 1 := ⟨n - 1, by omega⟩
  conv_lhs => rw [encodeVarInt, hm, encodeVarIntGo]
  rw [← hm, if_pos h]
  congr 1
  apply encodeVarIntGo_congr
  have h1 : n / 128 ≤ n / 2 := Nat.div_le_div_left (by omega) (by omega)
  have h2 : n / 2 < n := Nat.div_lt_self (by omega) (by omega)
  omega

theorem testBit7_eq (b : Nat) : b.testBit 7 = decide (b / 128 % 2 = 1) := by
  rw [Nat.testBit_to_div_mod]

theorem readVarIntAux_encode (n : Nat) :
    ∀ rest acc shift, readVarIntAux (encodeVarInt n ++ rest) acc shift
      = some (acc + n * shift, rest) := by
  induction n using Nat.strong_induction_on with
  | _ n ih =>
    intro rest acc shift
    by_cases h : 127 < n
    · rw [encodeVarInt_of_gt n h]
      have hbit : (n % 128).testBit 7 = false := by
        rw [testBit7_eq]
        have : n % 128 < 128 := Nat.mod_lt _ (by omega)
        simp [Nat.div_eq_of_lt this]
      have hlt : n / 128 - 1 < n := by
        have h1 : n / 128 ≤ n / 2 := Nat.div_le_div_left (by omega) (by omega)
        have h2 : n / 2 < n := Nat.div_lt_self (by omega) (by omega)
        omega
      simp only [List.cons_append, readVarIntAux, hbit, if_neg, Bool.false_eq_true,
        not_false_eq_true, if_false, List.append_eq]
      rw [ih _ hlt]
      have key : acc + n % 128 % 128 * shift + shift * 128 + (n / 128 - 1) * (shift * 128)
          = acc + n * shift := by
        obtain ⟨q, hq⟩ : ∃ q, n / 128 - 1 = q := ⟨_, rfl⟩
        have h2 : n % 128 % 128 = n % 128 := by omega
        rw [hq, h2]
        obtain ⟨r, hrr⟩ : ∃ r, n % 128 = r := ⟨_, rfl⟩
        have h1 : n = 128 * q + 128 + r := by omega
        rw [hrr]
        subst h1
        ring
      rw [key]
    · rw [encodeVarInt_of_le n (by omega)]
      have hbit : (n + 128).testBit 7 = true := by
        rw [testBit7_eq]
        have : (n + 128) / 128 = 1 := by omega
        simp [this]
      simp only [List.cons_append, List.nil_append, readVarIntAux, hbit, if_pos]
      have hmm2 : (n + 128) % 128 = n := by omega
      rw [hmm2]
      simp

theorem readVarInt_encode (n : Nat) (rest : List Nat) :
    readVarInt (encodeVarInt n ++ rest) = some (n, rest) := by
  rw [readVarInt, readVarIntAux_encode]
  simp

/-- C8: read_blip's signed-offset rule inverts write_blip's.  For every
integer `o`, the raw value `(abs o << 1) | (o < 0)` written by `write_blip`
(src/blip/io.py 373-391), decoded with `read_blip`'s rule `r >> 1` negated
iff `r & 1` (src/blip/io.py 299-311), gives back `o` — both at the level of
the raw value and through the varint byte encoding — and any raw value of
magnitude zero (`r >> 1 = 0`) decodes to the non-negative 0, so `-0`
cannot be produced. -/
theorem c8_signed_varint_roundtrip :
    (∀ o : Int, decodeSignedRaw (encodeSignedRaw o) = o) ∧
    (∀ o : Int, (readVarInt (encodeVarInt (encodeSignedRaw o))).map
        (fun vr => (decodeSignedRaw vr.1, vr.2)) = some (o, [])) ∧
    (∀ r : Nat, r / 2 = 0 → decodeSignedRaw r = 0) := by
  have hdec : ∀ o : Int, decodeSignedRaw (encodeSignedRaw o) = o := by
    intro o
    by_cases h : o < 0
    · have he : encodeSignedRaw o = 2 * o.natAbs + 1 := by simp [encodeSignedRaw, h]
      have h2 : (2 * o.natAbs + 1) % 2 = 1 := by omega
      have h3 : (2 * o.natAbs + 1) / 2 = o.natAbs := by omega
      rw [he, decodeSignedRaw, if_pos h2, h3]
      omega
    · have he : encodeSignedRaw o = 2 * o.natAbs := by simp [encodeSignedRaw, h]
      have h2 : ¬((2 * o.natAbs) % 2 = 1) := by omega
      have h3 : (2 * o.natAbs) / 2 = o.natAbs := by omega
      rw [he, decodeSignedRaw, if_neg h2, h3]
      omega
  refine ⟨hdec, ?_, ?_⟩
  · intro o
    have := readVarInt_encode (encodeSignedRaw o) []
    rw [List.append_nil] at this
    rw [this, Option.map_some']
    rw [hdec o]
  · intro r hr
    unfold decodeSignedRaw
    by_cases h : r % 2 = 1 <;> simp [h, hr]

/-- Witness for C8 at a concrete input. -/
theorem c8_signed_varint_roundtrip_witness :
    decodeSignedRaw (encodeSignedRaw (-3)) = -3 ∧
    ((1 : Nat) / 2 = 0 ∧ decodeSignedRaw 1 = 0) :=
  ⟨c8_signed_varint_roundtrip.1 (-3),
    by decide, c8_signed_varint_roundtrip.2.2 1 (by decide)⟩


/-- C6: `check_stream` accepts a TargetCopy item (the branch at
src/blip/io.py 196-218) exactly when the shifted cursor satisfies
`0 ≤ targetRelativeOffset + offset < targetWriteOffset`; the item's
length never enters those bounds, so a self-overlapping run-length copy
with `cursor + length > targetWriteOffset` passes, as the concrete
stream `rleStream` (one literal byte then `TargetCopy(3, 0)` writing a
4-byte target) demonstrates end to end. -/
theorem c6_targetcopy_acceptance :
    (∀ two tro len off : Int, 1 ≤ len →
      ((∃ st, tcStep two tro len off = .ok st) ↔
        (0 ≤ tro + off ∧ tro + off < two))) ∧
    checkStream rleStream = .ok rleStream := by
  constructor
  · intro two tro len off hlen
    constructor
    · rintro ⟨st, hst⟩
      unfold tcStep at hst
      split_ifs at hst with hA hB hC
      all_goals first
        | exact Except.noConfusion hst
        | omega
    · rintro ⟨h1, h2⟩
      unfold tcStep
      rw [if_neg (by omega : ¬(len ≤ 0)), if_neg (by omega : ¬(tro + off < 0)),
        if_neg (by omega : ¬(two ≤ tro + off))]
      exact ⟨_, rfl⟩
  · rfl

/-- Witness for C6: the acceptance criterion evaluated at the `rleStream`
TargetCopy, whose `cursor + length = 3` exceeds `targetWriteOffset = 1`. -/
theorem c6_targetcopy_acceptance_witness :
    (∃ st, tcStep 1 0 3 0 = .ok st) ↔ (0 ≤ (0 : Int) + 0 ∧ (0 : Int) + 0 < 1) :=
  c6_targetcopy_acceptance.1 1 0 3 0 (by decide)

theorem exceptMap_ok {ε α β : Type} (f : α → β) (e : Except ε α) (b : β)
    (h : e.map f = .ok b) : ∃ a, e = .ok a ∧ f a = b := by
  cases e with
  | error _ => exact Except.noConfusion h
  | ok a => exact ⟨a, rfl, by injection h⟩

theorem srStep_ok {ss two len two' : Int} (h : srStep ss two len = .ok two') :
    1 ≤ len ∧ two' = two + len := by
  unfold srStep at h
  split_ifs at h with h1 h2
  injection h with h3
  omega

theorem scStep_ok {ss two sro len off : Int} {st : Int × Int}
    (h : scStep ss two sro len off = .ok st) : 1 ≤ len ∧ st.1 = two + len := by
  unfold scStep at h
  split_ifs at h with h1 h2 h3
  injection h with h4
  rw [← h4]
  exact ⟨by omega, rfl⟩

theorem tcStep_ok {two tro len off : Int} {st : Int × Int}
    (h : tcStep two tro len off = .ok st) : 1 ≤ len ∧ st.1 = two + len := by
  unfold tcStep at h
  split_ifs at h with h1 h2 h3
  injection h with h4
  rw [← h4]
  exact ⟨by omega, rfl⟩

theorem checkSourceCrc32_bytespan {item : BlipItem} {u : Unit}
    (h : checkSourceCrc32 item = .ok u) : bytespanItem item = 0 := by
  unfold checkSourceCrc32 at h
  cases item <;> first | rfl | exact Except.noConfusion h

theorem checkTargetCrc32_bytespan {item : BlipItem} {u : Unit}
    (h : checkTargetCrc32 item = .ok u) : bytespanItem item = 0 := by
  unfold checkTargetCrc32 at h
  cases item <;> first | rfl | exact Except.noConfusion h

theorem checkLoop_sum (ss ts : Int) :
    ∀ items two sro tro out, checkLoop ss ts two sro tro items = .ok out →
      two ≤ ts → middleSum items = ts - two := by
  intro items
  induction items with
  | nil =>
    intro two sro tro out h _
    rw [checkLoop.eq_def] at h
    dsimp only at h
    split_ifs at h
  | cons item rest ih =>
    intro two sro tro out h hle
    rw [checkLoop.eq_def] at h
    dsimp only at h
    by_cases htw : two < ts
    · rw [if_pos htw] at h
      have hspan : middleSum (item :: rest) = bytespanItem item + middleSum rest := by
        simp [middleSum]
      cases item with
      | sourceRead len =>
        dsimp only at h
        cases hsr : srStep ss two len with
        | error e => rw [hsr] at h; exact Except.noConfusion h
        | ok two' =>
          rw [hsr] at h
          obtain ⟨hlen, htwo'⟩ := srStep_ok hsr
          dsimp only at h
          split_ifs at h with hov
          obtain ⟨out', hout', -⟩ := exceptMap_ok _ _ _ h
          have := ih _ _ _ _ hout' (by omega)
          rw [hspan, this]
          simp only [bytespanItem]
          omega
      | targetRead data =>
        dsimp only at h
        split_ifs at h with h1 h2
        obtain ⟨out', hout', -⟩ := exceptMap_ok _ _ _ h
        have := ih _ _ _ _ hout' (by omega)
        rw [hspan, this]
        simp only [bytespanItem]
        omega
      | sourceCopy len off =>
        dsimp only at h
        cases hsc : scStep ss two sro len off with
        | error e => rw [hsc] at h; exact Except.noConfusion h
        | ok st =>
          rw [hsc] at h
          obtain ⟨hlen, hst1⟩ := scStep_ok hsc
          dsimp only at h
          split_ifs at h with hov
          obtain ⟨out', hout', -⟩ := exceptMap_ok _ _ _ h
          have := ih _ _ _ _ hout' (by omega)
          rw [hspan, this]
          simp only [bytespanItem]
          omega
      | targetCopy len off =>
        dsimp only at h
        cases htc : tcStep two tro len off with
        | error e => rw [htc] at h; exact Except.noConfusion h
        | ok st =>
          rw [htc] at h
          obtain ⟨hlen, hst1⟩ := tcStep_ok htc
          dsimp only at h
          split_ifs at h with hov
          obtain ⟨out', hout', -⟩ := exceptMap_ok _ _ _ h
          have := ih _ _ _ _ hout' (by omega)
          rw [hspan, this]
          simp only [bytespanItem]
          omega
      | header magic hss hts md => exact Except.noConfusion h
      | sourceCRC32 v => exact Except.noConfusion h
      | targetCRC32 v => exact Except.noConfusion h
    · rw [if_neg htw] at h
      cases rest with
      | nil =>
        dsimp only at h
        cases hc : checkSourceCrc32 item with
        | error e => rw [hc] at h; exact Except.noConfusion h
        | ok u => rw [hc] at h; exact Except.noConfusion h
      | cons c2 rest2 =>
        dsimp only at h
        cases hc : checkSourceCrc32 item with
        | error e => rw [hc] at h; exact Except.noConfusion h
        | ok u =>
          rw [hc] at h
          dsimp only at h
          cases hc2 : checkTargetCrc32 c2 with
          | error e => rw [hc2] at h; exact Except.noConfusion h
          | ok u2 =>
            rw [hc2] at h
            dsimp only at h
            cases rest2 with
            | cons c3 rest3 => exact Except.noConfusion h
            | nil =>
              have h1 := checkSourceCrc32_bytespan hc
              have h2 := checkTargetCrc32_bytespan hc2
              simp only [middleSum, List.map_cons, List.map_nil, List.sum_cons,
                List.sum_nil, h1, h2]
              omega

/-- C7: a stream that `check_stream` yields completely without raising has
middle bytespans summing exactly to the header's `targetSize` (the loop at
src/blip/io.py 144-228 exits only once `targetWriteOffset = targetSize`),
and any middle item that would advance `targetWriteOffset` beyond
`targetSize` makes the loop raise `CorruptFile` at that item. -/
theorem c7_bytespan_sum :
    (∀ magic : List Nat, ∀ ss ts : Int, ∀ md rest out,
        checkStream (.header magic ss ts md :: rest) = .ok out →
        middleSum rest = ts) ∧
    (∀ ss ts two sro tro : Int, ∀ item rest, two < ts →
        ts < two + bytespanItem item →
        ∃ e, checkLoop ss ts two sro tro (item :: rest) = .error e) := by
  constructor
  · intro magic ss ts md rest out h
    unfold checkStream at h
    dsimp only at h
    split_ifs at h with h1 h2 h3
    obtain ⟨out', hout', -⟩ := exceptMap_ok _ _ _ h
    have := checkLoop_sum ss ts rest 0 0 0 out' hout' (by omega)
    omega
  · intro ss ts two sro tro item rest h1 hsp
    rw [checkLoop.eq_def]
    dsimp only
    rw [if_pos h1]
    cases item with
    | sourceRead len =>
      dsimp only
      cases hsr : srStep ss two len with
      | error e => exact ⟨e, rfl⟩
      | ok two' =>
        obtain ⟨hlen, htwo'⟩ := srStep_ok hsr
        refine ⟨"bad hunk: writes past the end of the target", ?_⟩
        dsimp only
        rw [if_pos (by simp only [bytespanItem] at hsp; omega)]
    | targetRead data =>
      dsimp only
      by_cases hd : data.length = 0
      · exact ⟨_, by rw [if_pos hd]⟩
      · refine ⟨"bad hunk: writes past the end of the target", ?_⟩
        rw [if_neg hd, if_pos (by simp only [bytespanItem] at hsp; omega)]
    | sourceCopy len off =>
      dsimp only
      cases hsc : scStep ss two sro len off with
      | error e => exact ⟨e, rfl⟩
      | ok st =>
        obtain ⟨hlen, hst1⟩ := scStep_ok hsc
        refine ⟨"bad hunk: writes past the end of the target", ?_⟩
        dsimp only
        rw [if_pos (by simp only [bytespanItem] at hsp; omega)]
    | targetCopy len off =>
      dsimp only
      cases htc : tcStep two tro len off with
      | error e => exact ⟨e, rfl⟩
      | ok st =>
        obtain ⟨hlen, hst1⟩ := tcStep_ok htc
        refine ⟨"bad hunk: writes past the end of the target", ?_⟩
        dsimp only
        rw [if_pos (by simp only [bytespanItem] at hsp; omega)]
    | header magic hss hts md =>
      exfalso
      simp only [bytespanItem] at hsp
      omega
    | sourceCRC32 v =>
      exfalso
      simp only [bytespanItem] at hsp
      omega
    | targetCRC32 v =>
      exfalso
      simp only [bytespanItem] at hsp
      omega

/-- Witness for C7: the sum property on the concrete `rleStream` (target
size 4) and the overflow rejection on a 2-byte TargetRead against a 1-byte
target. -/
theorem c7_bytespan_sum_witness :
    middleSum [BlipItem.targetRead [65], BlipItem.targetCopy 3 0,
      BlipItem.sourceCRC32 0, BlipItem.targetCRC32 0] = 4 ∧
    ∃ e, checkLoop 0 1 0 0 0 [BlipItem.targetRead [65, 66]] = .error e :=
  ⟨c7_bytespan_sum.1 BLIP_MAGIC 0 4 [] _ _ rfl,
   c7_bytespan_sum.2 0 1 0 0 0 (BlipItem.targetRead [65, 66]) [] (by decide) (by decide)⟩

theorem findFirst_bounds (pred : Nat → Bool) :
    ∀ n start k, findFirst pred n start = some k →
      start ≤ k ∧ k < start + n ∧ pred k = true ∧ ∀ j, start ≤ j → j < k → pred j = false := by
  intro n
  induction n with
  | zero => intro start k h; exact Option.noConfusion h
  | succ n ih =>
    intro start k h
    rw [findFirst] at h
    by_cases hp : pred start
    · rw [if_pos hp] at h
      injection h with h
      subst h
      exact ⟨le_refl _, by omega, hp, fun j h1 h2 => absurd h1 (by omega)⟩
    · rw [if_neg hp] at h
      obtain ⟨h1, h2, h3, h4⟩ := ih (start + 1) k h
      refine ⟨by omega, by omega, h3, fun j hj1 hj2 => ?_⟩
      by_cases hj : j = start
      · subst hj; exact Bool.eq_false_iff.mpr hp
      · exact h4 j (by omega) hj2

theorem findFirst_none (pred : Nat → Bool) :
    ∀ n start, findFirst pred n start = none →
      ∀ j, start ≤ j → j < start + n → pred j = false := by
  intro n
  induction n with
  | zero => intro start _ j h1 h2; omega
  | succ n ih =>
    intro start h j h1 h2
    rw [findFirst] at h
    by_cases hp : pred start
    · rw [if_pos hp] at h; exact Option.noConfusion h
    · rw [if_neg hp] at h
      by_cases hj : j = start
      · subst hj; exact Bool.eq_false_iff.mpr hp
      · exact ih (start + 1) h j (by omega) (by omega)

theorem takeWhile_range'_findFirst (pred : Nat → Bool) :
    ∀ n start,
      ((List.range' start n).takeWhile (fun b => !pred b)).length =
        match findFirst pred n start with
        | some k => k - start
        | none => n := by
  intro n
  induction n with
  | zero => intro start; simp [findFirst]
  | succ n ih =>
    intro start
    rw [List.range'_succ]
    by_cases hp : pred start
    · simp [List.takeWhile, hp, findFirst]
    · rw [findFirst, if_neg hp]
      simp only [List.takeWhile, hp, Bool.not_false, List.length_cons]
      rw [ih (start + 1)]
      cases hff : findFirst pred n (start + 1) with
      | some k =>
        have := (findFirst_bounds pred n (start + 1) k hff).1
        show k - (start + 1) + 1 = k - start
        omega
      | none => simp

theorem decideEqBeq (x y : Nat) : decide (x = y) = (x == y) := by
  by_cases h : x = y <;> simp [h]

theorem pyForBreak_min (pred : Nat → Bool) (n : Nat) :
    pyForBreak pred n =
      min (((List.range n).takeWhile (fun b => !pred b)).length) (n - 1) := by
  rw [List.range_eq_range', takeWhile_range'_findFirst]
  unfold pyForBreak
  cases hff : findFirst pred n 0 with
  | some k =>
    have h := (findFirst_bounds pred n 0 k hff).2.1
    show k = min (k - 0) (n - 1)
    omega
  | none => simp

/-- C4 counterexample: at `measure_op(1, [0,0], 1, [0,0], 1, SourceCopy)`
(both buffers `b"\x00\x00"`, both offsets 1, pending-read size 1) the
backward bytes match for the claim's full bound
`min(sourceoffset, targetoffset, p) = 1`, so the claim predicts
backspan 1, but the code computes 0: `for backspan in range(maxspan)`
leaves the loop variable at `maxspan - 1` when no break occurs. -/
theorem c4_backspan_counterexample :
    backspanOf 1 [0, 0] 1 [0, 0] 1 = 0 ∧
    longestBackMatch [0, 0] 1 [0, 0] 1 (min 1 (min 1 1)) = 1 := by
  constructor
  · rfl
  · rfl

/-- C4 amended: the backward scan walks both buffers backward in lockstep
while bytes match, but the window it examines is
`B = min(sourceoffset, targetoffset, p + 1)` (not `min(…, p)`), and the
computed backspan is the length of the longest matching suffix within
that window *capped at `B - 1`*: when every position of the window
matches, the loop variable of `for backspan in range(B)` is left at
`B - 1`.  The hypotheses keep every byte access of the scan inside the
buffers, where `List.getD` agrees with the Python indexing. -/
theorem c4_backspan_amended (p : Nat) (bsrc : List Nat) (so : Nat)
    (tgt : List Nat) (to_ : Nat)
    (h1 : so ≤ bsrc.length) (h2 : to_ ≤ tgt.length) :
    backspanOf p bsrc so tgt to_ =
      min (longestBackMatch bsrc so tgt to_ (min so (min to_ (p + 1))))
        (min so (min to_ (p + 1)) - 1) := by
  unfold backspanOf longestBackMatch
  have hfun : (fun b => !decide (bsrc.getD (so - b - 1) 0 ≠ tgt.getD (to_ - b - 1) 0))
      = (fun b => bsrc.getD (so - b - 1) 0 == tgt.getD (to_ - b - 1) 0) := by
    funext b
    simp only [ne_eq, decide_not, Bool.not_not]
    exact decideEqBeq _ _
  rw [pyForBreak_min, hfun]

/-- Witness for C4's amended theorem at the counterexample input. -/
theorem c4_backspan_amended_witness :
    backspanOf 1 [0, 0] 1 [0, 0] 1 =
      min (longestBackMatch [0, 0] 1 [0, 0] 1 (min 1 (min 1 2)))
        (min 1 (min 1 2) - 1) :=
  c4_backspan_amended 1 [0, 0] 1 [0, 0] 1 (by decide) (by decide)

/-- C5 (code bug): `measure_op` in src/bps/diff.py never returns an empty
list — lines 81-84 append the copy operation unconditionally, with no
`if forespan == 0: return []` guard.  At the exact input of the
repository's own test `testNoMatch` (src/bps/test/test_diff.py 168-184),
where the spec and the test demand `[]`, the code returns
`[SourceRead(0)]` (the offsets are equal and the variant is SourceCopy,
so the zero-length forward span becomes a zero-length SourceRead). -/
theorem c5_measure_op_zero_forespan :
    measureOp 0 (strBytes "AAAAAA") 0 (strBytes "BBBBBB") 0 CopyKind.sourceCopyK
      = [BOp.sourceRead 0] := by
  rfl

theorem readline_append (w r : List Nat) (hw : ∀ c ∈ w, c ≠ 10) :
    readline (w ++ 10 :: r) = (w ++ [10], r) := by
  induction w with
  | nil => simp [readline, List.findIdx_cons]
  | cons c w ih =>
    have hc : (c == 10) = false := by
      have := hw c (by simp)
      simp [this]
    have ih' := ih (fun x hx => hw x (by simp [hx]))
    simp only [readline] at ih'
    have h1 := congrArg Prod.fst ih'
    have h2 := congrArg Prod.snd ih'
    dsimp only at h1 h2
    simp only [List.cons_append, readline, List.findIdx_cons, hc, cond_false]
    rw [List.take_succ_cons, List.drop_succ_cons, h1, h2]

theorem readMulti_step (w rest : List Nat) (hw : ∀ c ∈ w, c ≠ 10)
    (hne : w ++ [10] ≠ [46, 10]) :
    readMultilineText (w ++ 10 :: rest) =
      match readMultilineText rest with
      | none => none
      | some (txt, r) =>
        some ((if (w ++ [10]).headD 0 = 46 then (w ++ [10]).tail else w ++ [10]) ++ txt, r) := by
  have hrl : readline (w ++ 10 :: rest) = (w ++ [10], rest) := readline_append w rest hw
  cases w with
  | nil =>
    simp only [List.nil_append] at hrl ⊢
    rw [readMultilineText]
    rw [hrl]
    rw [if_neg (by simpa using hne)]
  | cons c w' =>
    have hcs : (c :: w') ++ 10 :: rest = c :: (w' ++ 10 :: rest) := rfl
    rw [hcs]
    rw [readMultilineText]
    rw [hcs] at hrl
    rw [hrl]
    simp only []
    rw [if_neg (by simpa using hne)]

theorem pySplitNl_ne_nil (md : List Nat) : pySplitNl md ≠ [] := by
  induction md with
  | nil => simp [pySplitNl]
  | cons c rest ih =>
    rw [pySplitNl]
    by_cases hc : c = 10
    · simp [hc]
    · rw [if_neg hc]
      cases h : pySplitNl rest with
      | nil => simp
      | cons l ls => simp

theorem pySplitNl_flat (md : List Nat) :
    ((pySplitNl md).map (· ++ [10])).flatten = md ++ [10] := by
  induction md with
  | nil => simp [pySplitNl]
  | cons c rest ih =>
    rw [pySplitNl]
    by_cases hc : c = 10
    · rw [if_pos hc]
      simp only [List.map_cons, List.flatten_cons, List.nil_append, hc]
      rw [ih]
      rfl
    · rw [if_neg hc]
      cases h : pySplitNl rest with
      | nil => exact absurd h (pySplitNl_ne_nil rest)
      | cons l ls =>
        rw [h] at ih
        simp only [List.map_cons, List.flatten_cons] at ih ⊢
        simp only [List.cons_append]
        rw [ih]

theorem pySplitNl_free (md : List Nat) :
    ∀ l ∈ pySplitNl md, ∀ c ∈ l, c ≠ 10 := by
  induction md with
  | nil =>
    intro l hl
    simp [pySplitNl] at hl
    simp [hl]
  | cons c rest ih =>
    intro l hl
    rw [pySplitNl] at hl
    by_cases hc : c = 10
    · rw [if_pos hc] at hl
      rcases List.mem_cons.mp hl with h | h
      · simp [h]
      · exact ih l h
    · rw [if_neg hc] at hl
      cases h : pySplitNl rest with
      | nil => exact absurd h (pySplitNl_ne_nil rest)
      | cons l0 ls =>
        rw [h] at hl
        rcases List.mem_cons.mp hl with h1 | h1
        · subst h1
          intro x hx
          rcases List.mem_cons.mp hx with h2 | h2
          · rw [h2]; exact hc
          · exact ih l0 (by rw [h]; exact List.mem_cons_self _ _) x h2
        · exact ih l (by rw [h]; exact List.mem_cons_of_mem _ h1)

theorem pySplitNl_last (md : List Nat) :
    ((pySplitNl md).getLast? = some []) ↔ (md = [] ∨ md.getLast? = some 10) := by
  induction md with
  | nil => simp [pySplitNl]
  | cons c rest ih =>
    by_cases hc : c = 10
    · subst hc
      cases rest with
      | nil => simp [pySplitNl]
      | cons c2 rest2 =>
        rw [pySplitNl, if_pos rfl]
        cases hL : pySplitNl (c2 :: rest2) with
        | nil => exact absurd hL (pySplitNl_ne_nil _)
        | cons l0 ls =>
          rw [List.getLast?_cons_cons, ← hL, ih, List.getLast?_cons_cons]
          simp
    · rw [pySplitNl, if_neg hc]
      cases hL : pySplitNl rest with
      | nil => exact absurd hL (pySplitNl_ne_nil _)
      | cons l0 ls =>
        cases ls with
        | nil =>
          have hrest : rest = l0 := by
            have hf := pySplitNl_flat rest
            rw [hL] at hf
            simp only [List.map_cons, List.map_nil, List.flatten_cons,
              List.flatten_nil, List.append_nil] at hf
            exact (List.append_cancel_right hf).symm
          have hfree : ∀ x ∈ rest, x ≠ 10 := by
            intro x hx
            exact pySplitNl_free rest l0 (by rw [hL]; exact List.mem_cons_self _ _) x
              (by rw [← hrest]; exact hx)
          apply iff_of_false
          · simp
          · rintro (h | h)
            · exact List.noConfusion h
            · have hmem := List.mem_of_mem_getLast? h
              rcases List.mem_cons.mp hmem with h2 | h2
              · exact hc h2.symm
              · exact hfree 10 h2 rfl
        | cons l1 ls2 =>
          have hne : rest ≠ [] := by
            intro h
            rw [h] at hL
            rw [pySplitNl] at hL
            injection hL with hA hB
            exact List.noConfusion hB
          rw [List.getLast?_cons_cons]
          rw [hL, List.getLast?_cons_cons] at ih
          rw [ih]
          cases rest with
          | nil => exact absurd rfl hne
          | cons r0 r' =>
            rw [List.getLast?_cons_cons]
            simp

theorem readMulti_writeLines (lines : List (List Nat)) :
    ∀ rest, (∀ l ∈ lines, ∀ c ∈ l, c ≠ 10) →
    readMultilineText
      ((lines.map (fun l => (if l.headD 0 = 46 then [46] else []) ++ l ++ [10])).flatten
        ++ (46 :: 10 :: rest))
      = some (((lines.map (· ++ [10])).flatten), rest) := by
  induction lines with
  | nil =>
    intro rest _
    simp only [List.map_nil, List.flatten_nil, List.nil_append]
    rw [readMultilineText]
    have hrl : readline (46 :: 10 :: rest) = ([46, 10], rest) := by
      have := readline_append [46] rest (by intro c hc; simp at hc; omega)
      simpa using this
    rw [hrl]
    simp
  | cons l ls ih =>
    intro rest hfree
    have hl : ∀ c ∈ l, c ≠ 10 := hfree l (List.mem_cons_self _ _)
    have hls : ∀ x ∈ ls, ∀ c ∈ x, c ≠ 10 := fun x hx => hfree x (List.mem_cons_of_mem _ hx)
    set pre : List Nat := if l.headD 0 = 46 then [46] else [] with hpre
    set w : List Nat := pre ++ l with hwdef
    have hwfree : ∀ c ∈ w, c ≠ 10 := by
      intro c hc
      rcases List.mem_append.mp hc with h | h
      · rw [hpre] at h
        split_ifs at h with h46
        · simp at h; omega
        · simp at h
      · exact hl c h
    have hne : w ++ [10] ≠ [46, 10] := by
      intro h
      rw [hwdef, hpre] at h
      split_ifs at h with h46
      · -- [46] ++ l ++ [10] = [46, 10] forces l = []
        simp only [List.cons_append, List.nil_append, List.cons.injEq] at h
        have : l = [] := by
          have := h.2
          cases l with
          | nil => rfl
          | cons a l' =>
            simp only [List.cons_append, List.cons.injEq] at this
            obtain ⟨h1, h2⟩ := this
            cases l' with
            | nil => simp at h2
            | cons b l'' => simp at h2
        rw [this] at h46
        simp at h46
      · simp only [List.nil_append] at h
        have : l = [46] := by
          cases l with
          | nil => simp at h
          | cons a l' =>
            simp only [List.cons_append, List.cons.injEq] at h
            obtain ⟨h1, h2⟩ := h
            cases l' with
            | nil => rw [h1]
            | cons b l'' =>
              simp only [List.cons_append, List.cons.injEq] at h2
              obtain ⟨h3, h4⟩ := h2
              cases l'' with
              | nil => simp at h4
              | cons e l3 => simp at h4
        rw [this] at h46
        simp at h46
    have hshape :
        ((l :: ls).map (fun l => (if l.headD 0 = 46 then [46] else []) ++ l ++ [10])).flatten
          ++ (46 :: 10 :: rest)
        = w ++ 10 :: ((ls.map (fun l => (if l.headD 0 = 46 then [46] else []) ++ l ++ [10])).flatten
            ++ (46 :: 10 :: rest)) := by
      simp only [List.map_cons, List.flatten_cons, hwdef, hpre]
      simp [List.append_assoc]
    rw [hshape]
    rw [readMulti_step w _ hwfree hne]
    rw [ih rest hls]
    have hstrip :
        (if (w ++ [10]).headD 0 = 46 then (w ++ [10]).tail else w ++ [10]) = l ++ [10] := by
      rw [hwdef, hpre]
      by_cases h46 : l.headD 0 = 46
      · rw [if_pos h46]
        simp
      · rw [if_neg h46]
        have hcond : ¬ ((l ++ [10]).headD 0 = 46) := by
          cases l with
          | nil => simp
          | cons a l' =>
            simp only [List.cons_append, List.headD_cons]
            simpa using h46
        simp only [List.nil_append]
        rw [if_neg hcond]
    rw [hstrip]
    simp

theorem readMulti_writeMetaBlock (md rest : List Nat) :
    readMultilineText (writeMetaBlock md ++ rest) =
      some ((if md = [] ∨ md.getLast? = some 10 then md else md ++ [10]), rest) := by
  have hshape : writeMetaBlock md ++ rest =
      ((if (pySplitNl md).getLast? = some [] then (pySplitNl md).dropLast
          else pySplitNl md).map
        (fun l => (if l.headD 0 = 46 then [46] else []) ++ l ++ [10])).flatten
        ++ (46 :: 10 :: rest) := by
    unfold writeMetaBlock
    simp [List.append_assoc]
  rw [hshape]
  by_cases hlast : (pySplitNl md).getLast? = some []
  · rw [if_pos hlast]
    have hfree : ∀ l ∈ (pySplitNl md).dropLast, ∀ c ∈ l, c ≠ 10 := by
      intro l hl
      exact pySplitNl_free md l (List.dropLast_subset _ hl)
    rw [readMulti_writeLines _ rest hfree]
    have hnn := pySplitNl_ne_nil md
    have hdec := List.dropLast_append_getLast hnn
    have hgl : (pySplitNl md).getLast hnn = [] := by
      have := List.getLast?_eq_getLast (pySplitNl md) hnn
      rw [this] at hlast
      injection hlast
    have hflat := pySplitNl_flat md
    rw [← hdec, hgl] at hflat
    simp only [List.map_append, List.map_cons, List.map_nil, List.flatten_append,
      List.flatten_cons, List.flatten_nil, List.nil_append, List.append_nil] at hflat
    have hmd : ((pySplitNl md).dropLast.map (· ++ [10])).flatten = md :=
      List.append_cancel_right hflat
    rw [hmd]
    rw [if_pos ((pySplitNl_last md).mp hlast)]
  · rw [if_neg hlast]
    rw [readMulti_writeLines _ rest (pySplitNl_free md)]
    rw [pySplitNl_flat md]
    rw [if_neg (fun h => hlast ((pySplitNl_last md).mpr h))]

/-- C9: writing the patch header metadata with `write_blip_asm`
(src/blip/io.py 486-499) and reading it back with `_read_multiline_text`
(lines 253-261) returns the metadata unchanged exactly when it is empty
or newline-terminated, and otherwise appends one `"\n"`; lines whose
first byte is `'.'` survive unchanged through the dot-escaping.
(Metadata is modelled as its UTF-8 bytes; `'\n'` is byte 10.) -/
theorem c9_metadata_roundtrip (md : List Nat) :
    readMultilineText (writeMetaBlock md) =
      some ((if md = [] ∨ md.getLast? = some 10 then md else md ++ [10]), []) ∧
    (¬(md = [] ∨ md.getLast? = some 10) → md ++ [10] ≠ md) := by
  constructor
  · have := readMulti_writeMetaBlock md []
    simpa using this
  · intro _ h
    have := congrArg List.length h
    simp at this

/-- Witness for C9 at a dot-escaped line: metadata `".a"` (bytes
`[46, 97]`) does not end in a newline, so it round-trips to
`".a\n"` (`[46, 97, 10]`). -/
theorem c9_metadata_roundtrip_witness :
    readMultilineText (writeMetaBlock [46, 97]) =
      some ((if ([46, 97] : List Nat) = [] ∨ ([46, 97] : List Nat).getLast? = some 10
        then [46, 97] else [46, 97] ++ [10]), []) :=
  (c9_metadata_roundtrip [46, 97]).1

/-- C10: `_read_multiline_text` (src/blip/io.py 253-261) terminates
exactly when the successive-`readline` decomposition of the remaining
input contains a line that is exactly `".\n"`; a stream that ends before
such a line makes `readline` return `""` forever and the loop never
exits — the model renders that diverging run as `none`, so
`read_blip_asm` does not terminate on a metadata or target-read block
missing its `"."` terminator. -/
theorem c10_multiline_termination (cs : List Nat) :
    (readMultilineText cs).isSome = hasDotTerminator cs := by
  induction cs using readMultilineText.induct with
  | case1 => simp [readMultilineText, hasDotTerminator]
  | case2 c cs' line hline =>
    have hl : (readline (c :: cs')).1 = [46, 10] := hline
    rw [readMultilineText, hasDotTerminator]
    simp [hl]
  | case3 c cs' line rest hne hnone ih =>
    have hl : ¬ (readline (c :: cs')).1 = [46, 10] := hne
    have hn : readMultilineText (readline (c :: cs')).2 = none := hnone
    have ih' : (readMultilineText (readline (c :: cs')).2).isSome
        = hasDotTerminator (readline (c :: cs')).2 := ih
    rw [readMultilineText, hasDotTerminator]
    rw [hn] at ih'
    simp only [Option.isSome_none] at ih'
    simp [hl, hn, ← ih']
  | case4 c cs' line rest hne txt r hsome ih =>
    have hl : ¬ (readline (c :: cs')).1 = [46, 10] := hne
    have hs : readMultilineText (readline (c :: cs')).2 = some (txt, r) := hsome
    have ih' : (readMultilineText (readline (c :: cs')).2).isSome
        = hasDotTerminator (readline (c :: cs')).2 := ih
    rw [readMultilineText, hasDotTerminator]
    rw [hs] at ih'
    simp only [Option.isSome_some] at ih'
    simp [hl, hs, ← ih']

/-! ### Decimal and hexadecimal rendering invert the blip-asm parsers -/

theorem natBaseAux_append (base : Nat) (dc : Nat → Nat) :
    ∀ fuel n acc, natBaseAux base dc fuel n acc = natBaseAux base dc fuel n [] ++ acc := by
  intro fuel
  induction fuel with
  | zero => intro n acc; rfl
  | succ f ih =>
    intro n acc
    rw [natBaseAux, natBaseAux]
    by_cases h : n < base
    · simp [h]
    · rw [if_neg h, if_neg h, ih (n / base) (dc (n % base) :: acc),
        ih (n / base) [dc (n % base)]]
      simp

theorem natBaseAux_congr (base : Nat) (dc : Nat → Nat) (hb : 2 ≤ base) :
    ∀ n f, n ≤ f → natBaseAux base dc f n [] = natBaseAux base dc n n [] := by
  intro n
  induction n using Nat.strong_induction_on with
  | _ n ih =>
    intro f hf
    cases f with
    | zero =>
      interval_cases n
      rfl
    | succ f =>
      by_cases h : n < base
      · rw [natBaseAux, if_pos h]
        cases n with
        | zero => rfl
        | succ m => rw [natBaseAux, if_pos h]
      · rw [natBaseAux, if_neg h]
        obtain ⟨m, hm⟩ : ∃ m, n = m + 1 := ⟨n - 1, by omega⟩
        conv_rhs => rw [hm, natBaseAux]
        rw [← hm, if_neg h]
        rw [natBaseAux_append base dc f, natBaseAux_append base dc m]
        have hdiv : n / base < n := Nat.div_lt_self (by omega) (by omega)
        have hdivle : n / base ≤ n / 2 := Nat.div_le_div_left (by omega) (by omega)
        have h2 : n / 2 < n := Nat.div_lt_self (by omega) (by omega)
        rw [ih _ hdiv f (by omega), ih _ hdiv m (by omega)]

theorem natBase_eq (base : Nat) (dc : Nat → Nat) (hb : 2 ≤ base) (n : Nat) :
    natBaseAux base dc n n [] =
      if n < base then [dc n]
      else natBaseAux base dc (n / base) (n / base) [] ++ [dc (n % base)] := by
  by_cases h : n < base
  · rw [if_pos h]
    cases n with
    | zero => show [dc (0 % base)] = [dc 0]; rw [Nat.zero_mod]
    | succ m => rw [natBaseAux, if_pos h]
  · rw [if_neg h]
    obtain ⟨m, hm⟩ : ∃ m, n = m + 1 := ⟨n - 1, by omega⟩
    conv_lhs => rw [hm, natBaseAux]
    rw [← hm, if_neg h]
    rw [natBaseAux_append base dc m]
    have hdiv : n / base < n := Nat.div_lt_self (by omega) (by omega)
    have hdivle : n / base ≤ n / 2 := Nat.div_le_div_left (by omega) (by omega)
    have h2 : n / 2 < n := Nat.div_lt_self (by omega) (by omega)
    rw [natBaseAux_congr base dc hb _ m (by omega)]

theorem natBase_ne_nil (base : Nat) (dc : Nat → Nat) (hb : 2 ≤ base) (n : Nat) :
    natBaseAux base dc n n [] ≠ [] := by
  rw [natBase_eq base dc hb]
  by_cases h : n < base
  · simp [h]
  · simp [h]

theorem mem_natBase (base : Nat) (dc : Nat → Nat) (hb : 2 ≤ base) :
    ∀ n c, c ∈ natBaseAux base dc n n [] → ∃ d, d < base ∧ c = dc d := by
  intro n
  induction n using Nat.strong_induction_on with
  | _ n ih =>
    intro c hc
    rw [natBase_eq base dc hb] at hc
    by_cases h : n < base
    · rw [if_pos h] at hc
      simp at hc
      exact ⟨n, h, hc⟩
    · rw [if_neg h] at hc
      rcases List.mem_append.mp hc with h1 | h1
      · have hdiv : n / base < n := Nat.div_lt_self (by omega) (by omega)
        exact ih _ hdiv c h1
      · simp at h1
        exact ⟨n % base, Nat.mod_lt _ (by omega), h1⟩

theorem digitsValGo_append (base : Nat) :
    ∀ l1 l2 a, digitsValGo base (l1 ++ l2) a =
      match digitsValGo base l1 a with
      | none => none
      | some a' => digitsValGo base l2 a' := by
  intro l1
  induction l1 with
  | nil => intro l2 a; rfl
  | cons c r ih =>
    intro l2 a
    rw [List.cons_append, digitsValGo, digitsValGo]
    cases digitVal base c with
    | none => rfl
    | some d => exact ih l2 (a * base + d)

theorem natBase_val (base : Nat) (dc : Nat → Nat) (hb : 2 ≤ base)
    (hdc : ∀ d, d < base → digitVal base (dc d) = some d) :
    ∀ n a, digitsValGo base (natBaseAux base dc n n []) a
      = some (a * base ^ (natBaseAux base dc n n []).length + n) := by
  intro n
  induction n using Nat.strong_induction_on with
  | _ n ih =>
    intro a
    rw [natBase_eq base dc hb]
    by_cases h : n < base
    · rw [if_pos h]
      simp only [digitsValGo, hdc n h]
      rw [List.length_singleton, pow_one]
    · rw [if_neg h]
      rw [digitsValGo_append]
      have hdiv : n / base < n := Nat.div_lt_self (by omega) (by omega)
      rw [ih _ hdiv a]
      simp only [digitsValGo, hdc (n % base) (Nat.mod_lt _ (by omega))]
      congr 1
      rw [List.length_append, List.length_singleton]
      rw [pow_succ]
      have hdm := Nat.div_add_mod n base
      ring_nf
      nlinarith [hdm]

theorem digitVal_dec (d : Nat) (h : d < 10) : digitVal 10 (d + 48) = some d := by
  unfold digitVal
  rw [if_pos (by omega)]
  congr 1

theorem digitVal_hexU (d : Nat) (h : d < 16) : digitVal 16 (hexDigU d) = some d := by
  unfold digitVal hexDigU
  by_cases h10 : d < 10
  · rw [if_pos h10, if_pos (by omega)]
    congr 1
  · rw [if_neg h10, if_neg (by omega), if_neg (by omega), if_pos (by omega)]
    congr 1

theorem natDec_val (n : Nat) : digitsVal 10 (natDec n) = some n := by
  unfold digitsVal natDec
  rw [if_neg (natBase_ne_nil 10 (· + 48) (by omega) n)]
  have := natBase_val 10 (· + 48) (by omega) digitVal_dec n 0
  rw [this, Nat.zero_mul, Nat.zero_add]

theorem natHexU_val (n : Nat) : digitsVal 16 (natHexU n) = some n := by
  unfold digitsVal natHexU
  rw [if_neg (natBase_ne_nil 16 hexDigU (by omega) n)]
  have := natBase_val 16 hexDigU (by omega) digitVal_hexU n 0
  rw [this, Nat.zero_mul, Nat.zero_add]

theorem mem_natDec (n c : Nat) (h : c ∈ natDec n) : 48 ≤ c ∧ c ≤ 57 := by
  obtain ⟨d, hd, hc⟩ := mem_natBase 10 (· + 48) (by omega) n c h
  subst hc
  show 48 ≤ d + 48 ∧ d + 48 ≤ 57
  omega

theorem mem_natHexU (n c : Nat) (h : c ∈ natHexU n) :
    (48 ≤ c ∧ c ≤ 57) ∨ (65 ≤ c ∧ c ≤ 70) := by
  obtain ⟨d, hd, hc⟩ := mem_natBase 16 hexDigU (by omega) n c h
  subst hc
  unfold hexDigU
  by_cases h10 : d < 10
  · rw [if_pos h10]; omega
  · rw [if_neg h10]; omega

theorem isPyWs_false (c : Nat) (h : 33 ≤ c) : isPyWs c = false := by
  unfold isPyWs
  simp only [Bool.or_eq_false_iff, beq_eq_false_iff_ne, ne_eq]
  omega

theorem dropWhile_sp (l : List Nat) :
    List.dropWhile isPyWs (32 :: l) = List.dropWhile isPyWs l := by
  rw [List.dropWhile_cons, if_pos (show isPyWs 32 = true from rfl)]

theorem dropWhile_nonWs (c : Nat) (r : List Nat) (h : isPyWs c = false) :
    List.dropWhile isPyWs (c :: r) = c :: r := by
  rw [List.dropWhile_cons, if_neg (by rw [h]; exact Bool.false_ne_true)]

theorem rdropWhile_nonWs (l : List Nat) (h : ∀ c ∈ l, isPyWs c = false) :
    List.rdropWhile isPyWs l = l := by
  rw [List.rdropWhile_eq_self_iff]
  intro hl
  rw [h _ (List.getLast_mem hl)]
  exact Bool.false_ne_true

theorem strip0x_dec (r : List Nat) : strip0x 10 r = r := by
  unfold strip0x
  cases r with
  | nil => rfl
  | cons c1 rest =>
    cases rest with
    | nil => rfl
    | cons c2 rest2 =>
      show (if (10 : Nat) = 16 ∧ c1 = 48 ∧ (c2 = 120 ∨ c2 = 88) then rest2
        else c1 :: c2 :: rest2) = c1 :: c2 :: rest2
      rw [if_neg (by omega)]

theorem pyInt_trimmed (base : Nat) (s : List Nat) (c : Nat) (r : List Nat)
    (h : (s.dropWhile isPyWs).rdropWhile isPyWs = c :: r) :
    pyInt base s =
      (if c = 45 then (digitsVal base (strip0x base r)).map (fun v => -(v : Int))
       else if c = 43 then (digitsVal base (strip0x base r)).map (fun v => (v : Int))
       else (digitsVal base (strip0x base (c :: r))).map (fun v => (v : Int))) := by
  unfold pyInt
  rw [h]

/-- The whole trimmed string is a digit string starting with a digit (or
sign handled separately): parsing the rendered decimal of `n` framed as
`" <digits>\n"` gives back `n`. -/
theorem pyInt_dec_line (n : Nat) :
    pyInt 10 (32 :: (natDec n ++ [10])) = some (n : Int) := by
  obtain ⟨c, r, hcr⟩ : ∃ c r, natDec n = c :: r := by
    cases hnd : natDec n with
    | nil => exact absurd hnd (natBase_ne_nil 10 (· + 48) (by omega) n)
    | cons c r => exact ⟨c, r, rfl⟩
  have hdig : ∀ x ∈ natDec n, isPyWs x = false := by
    intro x hx
    exact isPyWs_false x (by have := (mem_natDec n x hx).1; omega)
  have hdrop : List.dropWhile isPyWs (32 :: (natDec n ++ [10])) = natDec n ++ [10] := by
    rw [dropWhile_sp, hcr, List.cons_append]
    exact dropWhile_nonWs c (r ++ [10]) (hdig c (by rw [hcr]; exact List.mem_cons_self _ _))
  have hrd : List.rdropWhile isPyWs (natDec n ++ [10]) = natDec n := by
    rw [List.rdropWhile_concat, if_pos (show isPyWs 10 = true from rfl)]
    exact rdropWhile_nonWs _ hdig
  rw [pyInt_trimmed 10 _ c r (by rw [hdrop, hrd, hcr])]
  have hc48 := (mem_natDec n c (by rw [hcr]; exact List.mem_cons_self _ _))
  rw [if_neg (by omega), if_neg (by omega)]
  rw [← hcr, strip0x_dec, natDec_val]
  rfl

/-- Parsing the rendered always-signed decimal of an integer `o`
(a bare token, as produced inside a copy line) gives back `o`. -/
theorem pyInt_signed_token (o : Int) :
    pyInt 10 (intSignedDec o) = some o := by
  have hdig : ∀ x ∈ natDec o.natAbs, isPyWs x = false := by
    intro x hx
    exact isPyWs_false x (by have := (mem_natDec _ x hx).1; omega)
  by_cases h : o < 0
  · have hsd : intSignedDec o = 45 :: natDec o.natAbs := by
      unfold intSignedDec
      rw [if_pos h, List.singleton_append]
    have hdrop : List.dropWhile isPyWs (45 :: natDec o.natAbs)
        = 45 :: natDec o.natAbs := dropWhile_nonWs _ _ (by unfold isPyWs; rfl)
    have hrd : List.rdropWhile isPyWs (45 :: natDec o.natAbs) = 45 :: natDec o.natAbs := by
      apply rdropWhile_nonWs
      intro x hx
      rcases List.mem_cons.mp hx with h1 | h1
      · subst h1; rfl
      · exact hdig x h1
    rw [hsd, pyInt_trimmed 10 _ 45 (natDec o.natAbs) (by rw [hdrop, hrd])]
    rw [if_pos rfl, strip0x_dec, natDec_val]
    show some (-(o.natAbs : Int)) = some o
    congr 1
    omega
  · have hsd : intSignedDec o = 43 :: natDec o.natAbs := by
      unfold intSignedDec
      rw [if_neg h, List.singleton_append]
    have hdrop : List.dropWhile isPyWs (43 :: natDec o.natAbs)
        = 43 :: natDec o.natAbs := dropWhile_nonWs _ _ (by unfold isPyWs; rfl)
    have hrd : List.rdropWhile isPyWs (43 :: natDec o.natAbs) = 43 :: natDec o.natAbs := by
      apply rdropWhile_nonWs
      intro x hx
      rcases List.mem_cons.mp hx with h1 | h1
      · subst h1; rfl
      · exact hdig x h1
    rw [hsd, pyInt_trimmed 10 _ 43 (natDec o.natAbs) (by rw [hdrop, hrd])]
    rw [if_neg (by omega), if_pos rfl, strip0x_dec, natDec_val]
    show some ((o.natAbs : Int)) = some o
    congr 1
    omega

/-- Parsing the rendered bare decimal of an `int ≥ 0` gives it back. -/
theorem pyInt_dec_token (o : Int) (ho : 0 ≤ o) :
    pyInt 10 (intDec o) = some o := by
  obtain ⟨c, r, hcr⟩ : ∃ c r, natDec o.natAbs = c :: r := by
    cases hnd : natDec o.natAbs with
    | nil => exact absurd hnd (natBase_ne_nil 10 (· + 48) (by omega) _)
    | cons c r => exact ⟨c, r, rfl⟩
  have hdig : ∀ x ∈ natDec o.natAbs, isPyWs x = false := by
    intro x hx
    exact isPyWs_false x (by have := (mem_natDec _ x hx).1; omega)
  have hc48 := mem_natDec _ c (by rw [hcr]; exact List.mem_cons_self _ _)
  have hid : intDec o = c :: r := by
    unfold intDec
    rw [if_neg (by omega), hcr, List.nil_append]
  rw [hid, pyInt_trimmed 10 _ c r
    (by rw [dropWhile_nonWs c r (hdig c (by rw [hcr]; exact List.mem_cons_self _ _)),
      rdropWhile_nonWs _ (by rw [← hcr] at *; exact fun x hx => hdig x hx)])]
  rw [if_neg (by omega), if_neg (by omega)]
  rw [← hcr, strip0x_dec, natDec_val]
  show some ((o.natAbs : Int)) = some o
  congr 1
  omega

theorem findIdx58_append (a b : List Nat) (ha : ∀ c ∈ a, c ≠ 58) :
    (a ++ 58 :: b).findIdx (fun c => c == 58) = a.length := by
  induction a with
  | nil => simp [List.findIdx_cons]
  | cons c a' ih =>
    rw [List.cons_append, List.findIdx_cons]
    have hc : (c == 58) = false := by
      have := ha c (List.mem_cons_self _ _)
      simp [this]
    rw [hc]
    simp only [cond_false]
    rw [ih (fun x hx => ha x (List.mem_cons_of_mem _ hx))]
    simp

theorem splitColon_append (a b : List Nat) (ha : ∀ c ∈ a, c ≠ 58)
    (hb : ∀ c ∈ b, c ≠ 58) :
    splitColon (a ++ 58 :: b) = some (a, b) := by
  have h1 : a.count 58 = 0 := List.count_eq_zero.mpr (fun h => ha 58 h rfl)
  have h2 : b.count 58 = 0 := List.count_eq_zero.mpr (fun h => hb 58 h rfl)
  unfold splitColon
  rw [if_pos (by rw [List.count_append, List.count_cons]; simp [h1, h2])]
  rw [findIdx58_append a b ha]
  have ht : (a ++ 58 :: b).take a.length = a := by
    rw [List.take_left]
  have hd : (a ++ 58 :: b).drop (a.length + 1) = b := by
    have : a ++ 58 :: b = (a ++ [58]) ++ b := by simp
    rw [this, show a.length + 1 = (a ++ [58]).length by simp, List.drop_left]
  rw [ht, hd]

theorem digitsValGo_zeros (k : Nat) (l : List Nat) :
    digitsValGo 16 (List.replicate k 48 ++ l) 0 = digitsValGo 16 l 0 := by
  induction k with
  | zero => rfl
  | succ k ih =>
    rw [List.replicate_succ, List.cons_append]
    exact ih

theorem mem_natHex8U (v c : Nat) (h : c ∈ natHex8U v) :
    (48 ≤ c ∧ c ≤ 57) ∨ (65 ≤ c ∧ c ≤ 70) := by
  unfold natHex8U at h
  rcases List.mem_append.mp h with h1 | h1
  · left
    have := List.eq_of_mem_replicate h1
    omega
  · exact mem_natHexU v c h1

theorem natHex8U_val (v : Nat) : digitsVal 16 (natHex8U v) = some v := by
  have hne : natHexU v ≠ [] := natBase_ne_nil 16 hexDigU (by omega) v
  unfold digitsVal
  rw [if_neg (by unfold natHex8U; intro h; exact hne (List.append_eq_nil.mp h).2)]
  show digitsValGo 16 (List.replicate (8 - (natHexU v).length) 48 ++ natHexU v) 0 = some v
  rw [digitsValGo_zeros]
  have h2 := natHexU_val v
  unfold digitsVal at h2
  rw [if_neg hne] at h2
  exact h2

theorem strip0x_hex8 (v : Nat) : strip0x 16 (natHex8U v) = natHex8U v := by
  unfold strip0x
  cases hl : natHex8U v with
  | nil => rfl
  | cons c1 rest =>
    cases rest with
    | nil => rfl
    | cons c2 rest2 =>
      have hc2 : (48 ≤ c2 ∧ c2 ≤ 57) ∨ (65 ≤ c2 ∧ c2 ≤ 70) :=
        mem_natHex8U v c2 (by rw [hl]; exact List.mem_cons_of_mem _ (List.mem_cons_self _ _))
      show (if (16 : Nat) = 16 ∧ c1 = 48 ∧ (c2 = 120 ∨ c2 = 88) then rest2
        else c1 :: c2 :: rest2) = c1 :: c2 :: rest2
      rw [if_neg (by omega)]

theorem pyInt_hex_line (v : Nat) :
    pyInt 16 (32 :: (natHex8U v ++ [10])) = some (v : Int) := by
  obtain ⟨c, r, hcr⟩ : ∃ c r, natHex8U v = c :: r := by
    cases h : natHex8U v with
    | nil =>
      have h2 : List.replicate (8 - (natHexU v).length) 48 ++ natHexU v = [] := h
      exact absurd (List.append_eq_nil.mp h2).2
        (natBase_ne_nil 16 hexDigU (by omega) v)
    | cons c r => exact ⟨c, r, rfl⟩
  have hdig : ∀ x ∈ natHex8U v, isPyWs x = false := fun x hx =>
    isPyWs_false x (by rcases mem_natHex8U v x hx with h | h <;> omega)
  have hdrop : List.dropWhile isPyWs (32 :: (natHex8U v ++ [10])) = natHex8U v ++ [10] := by
    rw [dropWhile_sp, hcr, List.cons_append]
    exact dropWhile_nonWs c (r ++ [10]) (hdig c (by rw [hcr]; exact List.mem_cons_self _ _))
  have hrd : List.rdropWhile isPyWs (natHex8U v ++ [10]) = natHex8U v := by
    rw [List.rdropWhile_concat, if_pos (show isPyWs 10 = true from rfl)]
    exact rdropWhile_nonWs _ hdig
  have hcbound := mem_natHex8U v c (by rw [hcr]; exact List.mem_cons_self _ _)
  rw [pyInt_trimmed 16 _ c r (by rw [hdrop, hrd, hcr])]
  rw [if_neg (by omega), if_neg (by omega), ← hcr, strip0x_hex8, natHex8U_val]
  rfl

theorem pyWsSplit_ws (c : Nat) (rest : List Nat) (h : isPyWs c = true) :
    pyWsSplit (c :: rest) = pyWsSplit rest := by
  rw [pyWsSplit, if_pos h]

theorem pyWsSplit_token (a : List Nat) (d : Nat) (rest : List Nat)
    (hane : a ≠ []) (ha : ∀ c ∈ a, isPyWs c = false) (hd : isPyWs d = true) :
    pyWsSplit (a ++ d :: rest) = a :: pyWsSplit (d :: rest) := by
  induction a with
  | nil => exact absurd rfl hane
  | cons c a' ih =>
    rw [List.cons_append, pyWsSplit,
      if_neg (by rw [ha c (List.mem_cons_self _ _)]; exact Bool.false_ne_true)]
    cases a' with
    | nil =>
      simp only [List.nil_append]
      cases hps : pyWsSplit (d :: rest) with
      | nil => rfl
      | cons w ws =>
        show (if isPyWs d then [c] :: w :: ws else (c :: w) :: ws) = [c] :: w :: ws
        rw [if_pos hd]
    | cons c2 a'' =>
      rw [ih (by simp) (fun x hx => ha x (List.mem_cons_of_mem _ hx))]
      show (if isPyWs c2 then [c] :: (c2 :: a'') :: pyWsSplit (d :: rest)
          else (c :: c2 :: a'') :: pyWsSplit (d :: rest))
        = (c :: c2 :: a'') :: pyWsSplit (d :: rest)
      rw [if_neg (by rw [ha c2 (by simp)]; exact Bool.false_ne_true)]

theorem pyWsSplit_lastTok (b : List Nat) (hbne : b ≠ [])
    (hb : ∀ c ∈ b, isPyWs c = false) :
    pyWsSplit (b ++ [10]) = [b] := by
  rw [show b ++ [10] = b ++ 10 :: ([] : List Nat) from rfl,
    pyWsSplit_token b 10 [] hbne hb rfl, pyWsSplit_ws 10 [] rfl]
  rfl

theorem pyWsSplit_two (a b : List Nat) (hane : a ≠ []) (hbne : b ≠ [])
    (ha : ∀ c ∈ a, isPyWs c = false) (hb : ∀ c ∈ b, isPyWs c = false) :
    pyWsSplit (32 :: (a ++ 32 :: (b ++ [10]))) = [a, b] := by
  rw [pyWsSplit_ws 32 _ rfl, pyWsSplit_token a 32 (b ++ [10]) hane ha rfl,
    pyWsSplit_ws 32 _ rfl, pyWsSplit_lastTok b hbne hb]

theorem readMulti_term (rest : List Nat) :
    readMultilineText (46 :: 10 :: rest) = some ([], rest) := by
  rw [readMultilineText]
  rw [show readline (46 :: 10 :: rest) = ([46, 10], rest) from
    readline_append [46] rest (by decide)]
  rfl

theorem hexDigL_range (d : Nat) (h : d < 16) :
    (48 ≤ hexDigL d ∧ hexDigL d ≤ 57) ∨ (97 ≤ hexDigL d ∧ hexDigL d ≤ 102) := by
  unfold hexDigL
  by_cases h10 : d < 10
  · rw [if_pos h10]; left; omega
  · rw [if_neg h10]; right; omega

theorem mem_byteHexL_props (b c : Nat) (hb : b < 256) (h : c ∈ byteHexL b) :
    c ≠ 10 ∧ c ≠ 46 ∧ isHexDigit c = true := by
  have hrange : (48 ≤ c ∧ c ≤ 57) ∨ (97 ≤ c ∧ c ≤ 102) := by
    rcases List.mem_cons.mp h with h1 | h1
    · subst h1; exact hexDigL_range _ (by omega)
    · rcases List.mem_cons.mp h1 with h2 | h2
      · subst h2; exact hexDigL_range _ (by omega)
      · simp at h2
  refine ⟨by omega, by omega, ?_⟩
  simp only [isHexDigit, Bool.or_eq_true, Bool.and_eq_true, decide_eq_true_eq]
  omega

theorem flatMap_byteHexL_mem (data : List Nat) (hb : ∀ b ∈ data, b < 256) :
    ∀ c ∈ data.flatMap byteHexL, c ≠ 10 ∧ c ≠ 46 ∧ isHexDigit c = true := by
  intro c hc
  obtain ⟨b, hbmem, hcb⟩ := List.mem_flatMap.mp hc
  exact mem_byteHexL_props b c (hb b hbmem) hcb

theorem hexline_facts (w : List Nat)
    (hw : ∀ c ∈ w, c ≠ 10 ∧ c ≠ 46 ∧ isHexDigit c = true) :
    (w ++ [10] ≠ [46, 10]) ∧ ((w ++ [10]).headD 0 ≠ 46) ∧
      List.filter isHexDigit (w ++ [10]) = w := by
  refine ⟨?_, ?_, ?_⟩
  · intro heq
    cases w with
    | nil => exact absurd heq (by decide)
    | cons c t =>
      rw [List.cons_append] at heq
      injection heq with h1 h2
      exact (hw c (List.mem_cons_self _ _)).2.1 h1
  · cases w with
    | nil => decide
    | cons c t => exact (hw c (List.mem_cons_self _ _)).2.1
  · rw [List.filter_append, List.filter_eq_self.mpr (fun a ha => (hw a ha).2.2),
      show List.filter isHexDigit [10] = [] from rfl, List.append_nil]

theorem digitVal_hexL (d : Nat) (h : d < 16) : digitVal 16 (hexDigL d) = some d := by
  unfold digitVal hexDigL
  by_cases h10 : d < 10
  · rw [if_pos h10, if_pos (by omega)]
    congr 1
  · rw [if_neg h10, if_neg (by omega), if_pos (by omega)]
    congr 1

theorem a2bHex_flatMap (data : List Nat) (hb : ∀ b ∈ data, b < 256) :
    a2bHex (data.flatMap byteHexL) = some data := by
  induction data with
  | nil => rfl
  | cons b l ih =>
    have hb256 := hb b (List.mem_cons_self _ _)
    rw [List.flatMap_cons,
      show byteHexL b = [hexDigL (b / 16), hexDigL (b % 16)] from rfl,
      List.cons_append, List.cons_append, List.nil_append]
    rw [a2bHex]
    rw [digitVal_hexL _ (by omega), digitVal_hexL _ (by omega)]
    show (a2bHex (l.flatMap byteHexL)).map (fun bs => (b / 16 * 16 + b % 16) :: bs)
      = some (b :: l)
    rw [ih (fun x hx => hb x (List.mem_cons_of_mem _ hx))]
    show some ((b / 16 * 16 + b % 16) :: l) = some (b :: l)
    have hdm : b / 16 * 16 + b % 16 = b := by omega
    rw [hdm]

theorem readMulti_hexChunks (data : List Nat) :
    ∀ rest, (∀ b ∈ data, b < 256) →
    ∃ txt, readMultilineText (hexChunksB data ++ rest) = some (txt, rest) ∧
      txt.filter isHexDigit = data.flatMap byteHexL := by
  induction data using hexChunksB.induct with
  | case1 data h ih =>
    intro rest hb
    rw [hexChunksB, dif_pos h]
    have hbdrop : ∀ b ∈ data.drop 40, b < 256 := fun b hbm => hb b (List.mem_of_mem_drop hbm)
    have hbtake : ∀ b ∈ data.take 40, b < 256 := fun b hbm => hb b (List.mem_of_mem_take hbm)
    obtain ⟨txt', htxt', hfil'⟩ := ih rest hbdrop
    have hwp := flatMap_byteHexL_mem (data.take 40) hbtake
    obtain ⟨hne, hhd, hfil⟩ := hexline_facts _ hwp
    have hassoc : ((data.take 40).flatMap byteHexL ++ [10] ++ hexChunksB (data.drop 40)) ++ rest
        = (data.take 40).flatMap byteHexL ++ 10 :: (hexChunksB (data.drop 40) ++ rest) := by
      simp
    rw [hassoc, readMulti_step _ _ (fun c hc => (hwp c hc).1) hne, htxt']
    refine ⟨_, rfl, ?_⟩
    rw [if_neg hhd, List.filter_append, hfil, hfil']
    conv_rhs => rw [← List.take_append_drop 40 data]
    rw [List.flatMap_append]
  | case2 data h =>
    intro rest hb
    rw [hexChunksB, dif_neg h]
    have hwp := flatMap_byteHexL_mem data hb
    obtain ⟨hne, hhd, hfil⟩ := hexline_facts _ hwp
    have hassoc : (data.flatMap byteHexL ++ [10, 46, 10]) ++ rest
        = data.flatMap byteHexL ++ 10 :: (46 :: 10 :: rest) := by simp
    rw [hassoc, readMulti_step _ _ (fun c hc => (hwp c hc).1) hne, readMulti_term]
    refine ⟨_, rfl, ?_⟩
    rw [List.append_nil, if_neg hhd, hfil]

theorem checkSourceCrc32_ok {item : BlipItem} {u : Unit}
    (h : checkSourceCrc32 item = .ok u) :
    ∃ v, item = .sourceCRC32 v ∧ 0 ≤ v ∧ v ≤ 4294967295 := by
  unfold checkSourceCrc32 at h
  cases item with
  | sourceCRC32 v =>
    dsimp only at h
    split_ifs at h with h1 h2
    exact ⟨v, rfl, by omega, by omega⟩
  | header a b c d => exact Except.noConfusion h
  | sourceRead n => exact Except.noConfusion h
  | targetRead d => exact Except.noConfusion h
  | sourceCopy n o => exact Except.noConfusion h
  | targetCopy n o => exact Except.noConfusion h
  | targetCRC32 v => exact Except.noConfusion h

theorem checkTargetCrc32_ok {item : BlipItem} {u : Unit}
    (h : checkTargetCrc32 item = .ok u) :
    ∃ v, item = .targetCRC32 v ∧ 0 ≤ v ∧ v ≤ 4294967295 := by
  unfold checkTargetCrc32 at h
  cases item with
  | targetCRC32 v =>
    dsimp only at h
    split_ifs at h with h1 h2
    exact ⟨v, rfl, by omega, by omega⟩
  | header a b c d => exact Except.noConfusion h
  | sourceRead n => exact Except.noConfusion h
  | targetRead d => exact Except.noConfusion h
  | sourceCopy n o => exact Except.noConfusion h
  | targetCopy n o => exact Except.noConfusion h
  | sourceCRC32 v => exact Except.noConfusion h

theorem checkLoop_shape (ss ts : Int) :
    ∀ items two sro tro out, checkLoop ss ts two sro tro items = .ok out →
      ∃ mids c1 c2, items = mids ++ [.sourceCRC32 c1, .targetCRC32 c2] ∧
        (∀ m ∈ mids, validMid m) ∧
        0 ≤ c1 ∧ c1 ≤ 4294967295 ∧ 0 ≤ c2 ∧ c2 ≤ 4294967295 := by
  intro items
  induction items with
  | nil =>
    intro two sro tro out h
    rw [checkLoop.eq_def] at h
    dsimp only at h
    split_ifs at h
  | cons item rest ih =>
    intro two sro tro out h
    rw [checkLoop.eq_def] at h
    dsimp only at h
    by_cases htw : two < ts
    · rw [if_pos htw] at h
      cases item with
      | sourceRead len =>
        dsimp only at h
        cases hsr : srStep ss two len with
        | error e => rw [hsr] at h; exact Except.noConfusion h
        | ok two' =>
          rw [hsr] at h
          obtain ⟨hlen, htwo'⟩ := srStep_ok hsr
          dsimp only at h
          split_ifs at h with hov
          obtain ⟨out', hout', -⟩ := exceptMap_ok _ _ _ h
          obtain ⟨mids, c1, c2, hfrm, hval, hb⟩ := ih _ _ _ _ hout'
          refine ⟨.sourceRead len :: mids, c1, c2, by rw [hfrm, List.cons_append],
            ?_, hb⟩
          intro m hm
          rcases List.mem_cons.mp hm with h1 | h1
          · subst h1; exact hlen
          · exact hval m h1
      | targetRead data =>
        dsimp only at h
        split_ifs at h with h1 h2
        obtain ⟨out', hout', -⟩ := exceptMap_ok _ _ _ h
        obtain ⟨mids, c1, c2, hfrm, hval, hb⟩ := ih _ _ _ _ hout'
        refine ⟨.targetRead data :: mids, c1, c2, by rw [hfrm, List.cons_append],
          ?_, hb⟩
        intro m hm
        rcases List.mem_cons.mp hm with hm1 | hm1
        · subst hm1
          exact fun hnil => h1 (by rw [hnil]; rfl)
        · exact hval m hm1
      | sourceCopy len off =>
        dsimp only at h
        cases hsc : scStep ss two sro len off with
        | error e => rw [hsc] at h; exact Except.noConfusion h
        | ok st =>
          rw [hsc] at h
          obtain ⟨hlen, hst1⟩ := scStep_ok hsc
          dsimp only at h
          split_ifs at h with hov
          obtain ⟨out', hout', -⟩ := exceptMap_ok _ _ _ h
          obtain ⟨mids, c1, c2, hfrm, hval, hb⟩ := ih _ _ _ _ hout'
          refine ⟨.sourceCopy len off :: mids, c1, c2, by rw [hfrm, List.cons_append],
            ?_, hb⟩
          intro m hm
          rcases List.mem_cons.mp hm with h1 | h1
          · subst h1; exact hlen
          · exact hval m h1
      | targetCopy len off =>
        dsimp only at h
        cases htc : tcStep two tro len off with
        | error e => rw [htc] at h; exact Except.noConfusion h
        | ok st =>
          rw [htc] at h
          obtain ⟨hlen, hst1⟩ := tcStep_ok htc
          dsimp only at h
          split_ifs at h with hov
          obtain ⟨out', hout', -⟩ := exceptMap_ok _ _ _ h
          obtain ⟨mids, c1, c2, hfrm, hval, hb⟩ := ih _ _ _ _ hout'
          refine ⟨.targetCopy len off :: mids, c1, c2, by rw [hfrm, List.cons_append],
            ?_, hb⟩
          intro m hm
          rcases List.mem_cons.mp hm with h1 | h1
          · subst h1; exact hlen
          · exact hval m h1
      | header magic hss hts md => exact Except.noConfusion h
      | sourceCRC32 v => exact Except.noConfusion h
      | targetCRC32 v => exact Except.noConfusion h
    · rw [if_neg htw] at h
      cases rest with
      | nil =>
        dsimp only at h
        cases hc : checkSourceCrc32 item with
        | error e => rw [hc] at h; exact Except.noConfusion h
        | ok u => rw [hc] at h; exact Except.noConfusion h
      | cons c2i rest2 =>
        dsimp only at h
        cases hc : checkSourceCrc32 item with
        | error e => rw [hc] at h; exact Except.noConfusion h
        | ok u =>
          rw [hc] at h
          dsimp only at h
          cases hc2 : checkTargetCrc32 c2i with
          | error e => rw [hc2] at h; exact Except.noConfusion h
          | ok u2 =>
            rw [hc2] at h
            dsimp only at h
            cases rest2 with
            | cons c3 rest3 => exact Except.noConfusion h
            | nil =>
              obtain ⟨v1, hv1, hb1, hb1'⟩ := checkSourceCrc32_ok hc
              obtain ⟨v2, hv2, hb2, hb2'⟩ := checkTargetCrc32_ok hc2
              refine ⟨[], v1, v2, by rw [hv1, hv2]; rfl, ?_, hb1, hb1', hb2, hb2'⟩
              intro m hm
              simp at hm

theorem checkStream_ok_inv {items : List BlipItem} {out : List BlipItem}
    (h : checkStream items = .ok out) :
    ∃ ss ts md rest, items = .header BLIP_MAGIC ss ts md :: rest ∧
      0 ≤ ss ∧ 0 ≤ ts ∧ ∃ out', checkLoop ss ts 0 0 0 rest = .ok out' := by
  unfold checkStream at h
  cases items with
  | nil => exact Except.noConfusion h
  | cons hd rest =>
    cases hd with
    | header magic ss ts md =>
      dsimp only at h
      split_ifs at h with h1 h2 h3
      obtain ⟨out', hout', -⟩ := exceptMap_ok _ _ _ h
      exact ⟨ss, ts, md, rest, by rw [not_not.mp h1], by omega, by omega, out', hout'⟩
    | sourceRead n => exact Except.noConfusion h
    | targetRead d => exact Except.noConfusion h
    | sourceCopy n o => exact Except.noConfusion h
    | targetCopy n o => exact Except.noConfusion h
    | sourceCRC32 v => exact Except.noConfusion h
    | targetCRC32 v => exact Except.noConfusion h

theorem writeBlip_ok_inv {items : List BlipItem} {p : List Nat}
    (h : writeBlip items = .ok p) :
    ∃ chk, checkStream items = .ok chk := by
  unfold writeBlip at h
  cases hc : checkStream items with
  | error e => rw [hc] at h; exact Except.noConfusion h
  | ok chk => exact ⟨chk, rfl⟩

theorem validMid_bytespan {m : BlipItem} (h : validMid m) : 1 ≤ bytespanItem m := by
  cases m with
  | sourceRead n => exact h
  | targetRead d =>
    have hlen : d.length ≠ 0 := fun h0 => h (List.length_eq_zero.mp h0)
    show 1 ≤ (d.length : Int)
    omega
  | sourceCopy n o => exact h
  | targetCopy n o => exact h
  | header a b c d => exact False.elim h
  | sourceCRC32 v => exact False.elim h
  | targetCRC32 v => exact False.elim h

theorem middleSum_nonneg (mids : List BlipItem) (h : ∀ m ∈ mids, validMid m) :
    0 ≤ middleSum mids := by
  induction mids with
  | nil => simp [middleSum]
  | cons m rest ih =>
    have h1 := validMid_bytespan (h m (List.mem_cons_self _ _))
    have h2 : 0 ≤ middleSum rest := ih (fun x hx => h x (List.mem_cons_of_mem _ hx))
    show 0 ≤ ((m :: rest).map bytespanItem).sum
    rw [List.map_cons, List.sum_cons]
    have h2' : 0 ≤ (rest.map bytespanItem).sum := h2
    omega

theorem middleSum_append_crcs (mids : List BlipItem) (c1 c2 : Int) :
    middleSum (mids ++ [.sourceCRC32 c1, .targetCRC32 c2]) = middleSum mids := by
  unfold middleSum
  rw [List.map_append, List.sum_append]
  simp [bytespanItem]

theorem renderLen (mids : List BlipItem) (h : ∀ m ∈ mids, validMid m) :
    mids.length ≤ ((mids.map renderAsmItem).flatten).length := by
  induction mids with
  | nil => simp
  | cons m rest ih =>
    have hm := h m (List.mem_cons_self _ _)
    have h1 : 1 ≤ (renderAsmItem m).length := by
      cases m with
      | header a b c d => exact False.elim hm
      | sourceRead n => simp [renderAsmItem]; omega
      | targetRead d => simp [renderAsmItem]; omega
      | sourceCopy n o => simp [renderAsmItem]; omega
      | targetCopy n o => simp [renderAsmItem]; omega
      | sourceCRC32 v => simp [renderAsmItem]; omega
      | targetCRC32 v => simp [renderAsmItem]; omega
    have h2 := ih (fun x hx => h x (List.mem_cons_of_mem _ hx))
    rw [List.map_cons, List.flatten_cons, List.length_append]
    simp only [List.length_cons]
    omega

theorem intDec_of_nonneg (n : Int) (hn : 0 ≤ n) : intDec n = natDec n.natAbs := by
  unfold intDec
  rw [if_neg (by omega), List.nil_append]

theorem mem_intDec (n : Int) (hn : 0 ≤ n) (c : Nat) (hc : c ∈ intDec n) :
    48 ≤ c ∧ c ≤ 57 := by
  rw [intDec_of_nonneg n hn] at hc
  exact mem_natDec _ c hc

theorem mem_intSignedDec (o : Int) (c : Nat) (hc : c ∈ intSignedDec o) :
    c = 45 ∨ c = 43 ∨ (48 ≤ c ∧ c ≤ 57) := by
  unfold intSignedDec at hc
  rcases List.mem_append.mp hc with h1 | h1
  · split_ifs at h1 <;> simp at h1 <;> omega
  · right; right; exact mem_natDec _ c h1

theorem pyInt_intDec_line (n : Int) (hn : 0 ≤ n) :
    pyInt 10 (32 :: (intDec n ++ [10])) = some n := by
  rw [intDec_of_nonneg n hn, pyInt_dec_line, Int.natAbs_of_nonneg hn]

theorem asmLoop_step_sr (ts : Int) (f : Nat) (to_ n : Int) (hn : 1 ≤ n)
    (hlt : to_ < ts) (rest : List Nat) :
    readBlipAsmLoop ts (f + 1) to_ (renderAsmItem (.sourceRead n) ++ rest) =
      (readBlipAsmLoop ts f (to_ + n) rest).map
        (fun pr => (BlipItem.sourceRead n :: pr.1, pr.2)) := by
  have hw : ∀ c ∈ strBytes "source-read" ++ [58, 32] ++ intDec n, c ≠ 10 := by
    intro c hc
    rcases List.mem_append.mp hc with h1 | h1
    · rcases List.mem_append.mp h1 with h2 | h2
      · have hall : ∀ c ∈ strBytes "source-read", c ≠ 10 := by decide
        exact hall c h2
      · have hall : ∀ c ∈ ([58, 32] : List Nat), c ≠ 10 := by decide
        exact hall c h2
    · have := mem_intDec n (by omega) c h1
      omega
  have hv58 : ∀ c ∈ 32 :: (intDec n ++ [10]), c ≠ 58 := by
    intro c hc
    rcases List.mem_cons.mp hc with h1 | h1
    · omega
    · rcases List.mem_append.mp h1 with h2 | h2
      · have := mem_intDec n (by omega) c h2
        omega
      · simp at h2
        omega
  have hassoc : renderAsmItem (.sourceRead n) ++ rest
      = (strBytes "source-read" ++ [58, 32] ++ intDec n) ++ 10 :: rest := by
    show (strBytes "source-read" ++ [58, 32] ++ intDec n ++ [10]) ++ rest = _
    simp
  have hline := readline_append _ rest hw
  have hsplit : splitColon ((strBytes "source-read" ++ [58, 32] ++ intDec n) ++ [10])
      = some (strBytes "source-read", 32 :: (intDec n ++ [10])) := by
    rw [show (strBytes "source-read" ++ [58, 32] ++ intDec n) ++ [10]
        = strBytes "source-read" ++ 58 :: (32 :: (intDec n ++ [10])) by simp]
    exact splitColon_append _ _ (by decide) hv58
  rw [hassoc, readBlipAsmLoop.eq_def]
  dsimp only
  rw [if_pos hlt, hline]
  dsimp only
  rw [hsplit]
  dsimp only
  rw [if_pos rfl, pyInt_intDec_line n (by omega)]

theorem intSignedDec_ne_nil (o : Int) : intSignedDec o ≠ [] := by
  unfold intSignedDec
  split_ifs <;> simp

theorem intDec_ne_nil (n : Int) (hn : 0 ≤ n) : intDec n ≠ [] := by
  rw [intDec_of_nonneg n hn]
  exact natBase_ne_nil 10 (· + 48) (by omega) _

theorem asmLoop_step_sc (ts : Int) (f : Nat) (to_ n o : Int) (hn : 1 ≤ n)
    (hlt : to_ < ts) (rest : List Nat) :
    readBlipAsmLoop ts (f + 1) to_ (renderAsmItem (.sourceCopy n o) ++ rest) =
      (readBlipAsmLoop ts f (to_ + n) rest).map
        (fun pr => (BlipItem.sourceCopy n o :: pr.1, pr.2)) := by
  have hw : ∀ c ∈ strBytes "source-copy" ++ [58, 32] ++ intDec n ++ [32] ++ intSignedDec o,
      c ≠ 10 := by
    intro c hc
    rcases List.mem_append.mp hc with h1 | h1
    · rcases List.mem_append.mp h1 with h2 | h2
      · rcases List.mem_append.mp h2 with h3 | h3
        · rcases List.mem_append.mp h3 with h4 | h4
          · have hall : ∀ c ∈ strBytes "source-copy", c ≠ 10 := by decide
            exact hall c h4
          · have hall : ∀ c ∈ ([58, 32] : List Nat), c ≠ 10 := by decide
            exact hall c h4
        · have := mem_intDec n (by omega) c h3
          omega
      · simp at h2
        omega
    · rcases mem_intSignedDec o c h1 with h2 | h2 | h2 <;> omega
  have hv58 : ∀ c ∈ 32 :: (intDec n ++ 32 :: (intSignedDec o ++ [10])), c ≠ 58 := by
    intro c hc
    rcases List.mem_cons.mp hc with h1 | h1
    · omega
    · rcases List.mem_append.mp h1 with h2 | h2
      · have := mem_intDec n (by omega) c h2
        omega
      · rcases List.mem_cons.mp h2 with h3 | h3
        · omega
        · rcases List.mem_append.mp h3 with h4 | h4
          · rcases mem_intSignedDec o c h4 with h5 | h5 | h5 <;> omega
          · simp at h4
            omega
  have hassoc : renderAsmItem (.sourceCopy n o) ++ rest
      = (strBytes "source-copy" ++ [58, 32] ++ intDec n ++ [32] ++ intSignedDec o)
        ++ 10 :: rest := by
    show (strBytes "source-copy" ++ [58, 32] ++ intDec n ++ [32] ++ intSignedDec o ++ [10])
      ++ rest = _
    simp
  have hline := readline_append _ rest hw
  have hsplit : splitColon
      ((strBytes "source-copy" ++ [58, 32] ++ intDec n ++ [32] ++ intSignedDec o) ++ [10])
      = some (strBytes "source-copy", 32 :: (intDec n ++ 32 :: (intSignedDec o ++ [10]))) := by
    rw [show (strBytes "source-copy" ++ [58, 32] ++ intDec n ++ [32] ++ intSignedDec o) ++ [10]
        = strBytes "source-copy" ++ 58 :: (32 :: (intDec n ++ 32 :: (intSignedDec o ++ [10])))
      by simp]
    exact splitColon_append _ _ (by decide) hv58
  have hwss : pyWsSplit (32 :: (intDec n ++ 32 :: (intSignedDec o ++ [10])))
      = [intDec n, intSignedDec o] :=
    pyWsSplit_two (intDec n) (intSignedDec o) (intDec_ne_nil n (by omega))
      (intSignedDec_ne_nil o)
      (fun c hc => isPyWs_false c (by have := mem_intDec n (by omega) c hc; omega))
      (fun c hc => isPyWs_false c
        (by rcases mem_intSignedDec o c hc with h | h | h <;> omega))
  rw [hassoc, readBlipAsmLoop.eq_def]
  dsimp only
  rw [if_pos hlt, hline]
  dsimp only
  rw [hsplit]
  dsimp only
  rw [if_neg (by decide), if_neg (by decide), if_pos rfl, hwss]
  dsimp only
  rw [pyInt_dec_token n (by omega), pyInt_signed_token o]

theorem asmLoop_step_tc (ts : Int) (f : Nat) (to_ n o : Int) (hn : 1 ≤ n)
    (hlt : to_ < ts) (rest : List Nat) :
    readBlipAsmLoop ts (f + 1) to_ (renderAsmItem (.targetCopy n o) ++ rest) =
      (readBlipAsmLoop ts f (to_ + n) rest).map
        (fun pr => (BlipItem.targetCopy n o :: pr.1, pr.2)) := by
  have hw : ∀ c ∈ strBytes "target-copy" ++ [58, 32] ++ intDec n ++ [32] ++ intSignedDec o,
      c ≠ 10 := by
    intro c hc
    rcases List.mem_append.mp hc with h1 | h1
    · rcases List.mem_append.mp h1 with h2 | h2
      · rcases List.mem_append.mp h2 with h3 | h3
        · rcases List.mem_append.mp h3 with h4 | h4
          · have hall : ∀ c ∈ strBytes "target-copy", c ≠ 10 := by decide
            exact hall c h4
          · have hall : ∀ c ∈ ([58, 32] : List Nat), c ≠ 10 := by decide
            exact hall c h4
        · have := mem_intDec n (by omega) c h3
          omega
      · simp at h2
        omega
    · rcases mem_intSignedDec o c h1 with h2 | h2 | h2 <;> omega
  have hv58 : ∀ c ∈ 32 :: (intDec n ++ 32 :: (intSignedDec o ++ [10])), c ≠ 58 := by
    intro c hc
    rcases List.mem_cons.mp hc with h1 | h1
    · omega
    · rcases List.mem_append.mp h1 with h2 | h2
      · have := mem_intDec n (by omega) c h2
        omega
      · rcases List.mem_cons.mp h2 with h3 | h3
        · omega
        · rcases List.mem_append.mp h3 with h4 | h4
          · rcases mem_intSignedDec o c h4 with h5 | h5 | h5 <;> omega
          · simp at h4
            omega
  have hassoc : renderAsmItem (.targetCopy n o) ++ rest
      = (strBytes "target-copy" ++ [58, 32] ++ intDec n ++ [32] ++ intSignedDec o)
        ++ 10 :: rest := by
    show (strBytes "target-copy" ++ [58, 32] ++ intDec n ++ [32] ++ intSignedDec o ++ [10])
      ++ rest = _
    simp
  have hline := readline_append _ rest hw
  have hsplit : splitColon
      ((strBytes "target-copy" ++ [58, 32] ++ intDec n ++ [32] ++ intSignedDec o) ++ [10])
      = some (strBytes "target-copy", 32 :: (intDec n ++ 32 :: (intSignedDec o ++ [10]))) := by
    rw [show (strBytes "target-copy" ++ [58, 32] ++ intDec n ++ [32] ++ intSignedDec o) ++ [10]
        = strBytes "target-copy" ++ 58 :: (32 :: (intDec n ++ 32 :: (intSignedDec o ++ [10])))
      by simp]
    exact splitColon_append _ _ (by decide) hv58
  have hwss : pyWsSplit (32 :: (intDec n ++ 32 :: (intSignedDec o ++ [10])))
      = [intDec n, intSignedDec o] :=
    pyWsSplit_two (intDec n) (intSignedDec o) (intDec_ne_nil n (by omega))
      (intSignedDec_ne_nil o)
      (fun c hc => isPyWs_false c (by have := mem_intDec n (by omega) c hc; omega))
      (fun c hc => isPyWs_false c
        (by rcases mem_intSignedDec o c hc with h | h | h <;> omega))
  rw [hassoc, readBlipAsmLoop.eq_def]
  dsimp only
  rw [if_pos hlt, hline]
  dsimp only
  rw [hsplit]
  dsimp only
  rw [if_neg (by decide), if_neg (by decide), if_neg (by decide), if_pos rfl, hwss]
  dsimp only
  rw [pyInt_dec_token n (by omega), pyInt_signed_token o]

theorem asmLoop_step_tr (ts : Int) (f : Nat) (to_ : Int) (data : List Nat)
    (hb : ∀ b ∈ data, b < 256) (hlt : to_ < ts) (rest : List Nat) :
    readBlipAsmLoop ts (f + 1) to_ (renderAsmItem (.targetRead data) ++ rest) =
      (readBlipAsmLoop ts f (to_ + data.length) rest).map
        (fun pr => (BlipItem.targetRead data :: pr.1, pr.2)) := by
  have hassoc : renderAsmItem (.targetRead data) ++ rest
      = (strBytes "target-read" ++ [58]) ++ 10 :: (hexChunksB data ++ rest) := by
    show (strBytes "target-read" ++ [58, 10] ++ hexChunksB data) ++ rest = _
    simp
  have hline := readline_append (strBytes "target-read" ++ [58])
    (hexChunksB data ++ rest) (by decide)
  have hsplit : splitColon ((strBytes "target-read" ++ [58]) ++ [10])
      = some (strBytes "target-read", [10]) := by
    rw [show (strBytes "target-read" ++ [58]) ++ [10]
        = strBytes "target-read" ++ 58 :: [10] by simp]
    exact splitColon_append _ _ (by decide) (by decide)
  obtain ⟨txt, htxt, hfil⟩ := readMulti_hexChunks data rest hb
  rw [hassoc, readBlipAsmLoop.eq_def]
  dsimp only
  rw [if_pos hlt, hline]
  dsimp only
  rw [hsplit]
  dsimp only
  rw [if_neg (by decide), if_pos rfl, htxt]
  dsimp only
  rw [hfil, a2bHex_flatMap data hb]

theorem asmLoop_render (ts : Int) :
    ∀ mids (fuel : Nat) (to_ : Int) (tail : List Nat),
      (∀ m ∈ mids, validMid m) →
      (∀ d, BlipItem.targetRead d ∈ mids → ∀ b ∈ d, b < 256) →
      to_ + middleSum mids = ts →
      mids.length ≤ fuel →
      readBlipAsmLoop ts fuel to_ ((mids.map renderAsmItem).flatten ++ tail)
        = .ok (mids, tail) := by
  intro mids
  induction mids with
  | nil =>
    intro fuel to_ tail _ _ hsum _
    have hms : middleSum [] = 0 := by simp [middleSum]
    have hts : ¬ to_ < ts := by omega
    rw [readBlipAsmLoop.eq_def]
    dsimp only
    rw [if_neg hts]
    simp
  | cons m rest ih =>
    intro fuel to_ tail hval hbytes hsum hfuel
    have hm := hval m (List.mem_cons_self _ _)
    have hrest : ∀ x ∈ rest, validMid x := fun x hx => hval x (List.mem_cons_of_mem _ hx)
    have hrbytes : ∀ d, BlipItem.targetRead d ∈ rest → ∀ b ∈ d, b < 256 :=
      fun d hd => hbytes d (List.mem_cons_of_mem _ hd)
    have hspan := validMid_bytespan hm
    have hsumr : middleSum (m :: rest) = bytespanItem m + middleSum rest := by
      simp [middleSum]
    have hnn := middleSum_nonneg rest hrest
    have hlt : to_ < ts := by omega
    cases fuel with
    | zero => simp at hfuel
    | succ f =>
      have hfuel' : rest.length ≤ f := by
        simp only [List.length_cons] at hfuel
        omega
      rw [List.map_cons, List.flatten_cons, List.append_assoc]
      cases m with
      | header a b c d => exact False.elim hm
      | sourceCRC32 v => exact False.elim hm
      | targetCRC32 v => exact False.elim hm
      | sourceRead n =>
        rw [asmLoop_step_sr ts f to_ n hm hlt]
        have hbs : bytespanItem (BlipItem.sourceRead n) = n := rfl
        rw [ih f (to_ + n) tail hrest hrbytes (by omega) hfuel']
        rfl
      | targetRead d =>
        rw [asmLoop_step_tr ts f to_ d (hbytes d (List.mem_cons_self _ _)) hlt]
        have hbs : bytespanItem (BlipItem.targetRead d) = (d.length : Int) := rfl
        rw [ih f (to_ + d.length) tail hrest hrbytes (by omega) hfuel']
        rfl
      | sourceCopy n o =>
        rw [asmLoop_step_sc ts f to_ n o hm hlt]
        have hbs : bytespanItem (BlipItem.sourceCopy n o) = n := rfl
        rw [ih f (to_ + n) tail hrest hrbytes (by omega) hfuel']
        rfl
      | targetCopy n o =>
        rw [asmLoop_step_tc ts f to_ n o hm hlt]
        have hbs : bytespanItem (BlipItem.targetCopy n o) = n := rfl
        rw [ih f (to_ + n) tail hrest hrbytes (by omega) hfuel']
        rfl

theorem mem_natHex8U_ne (v c : Nat) (h : c ∈ natHex8U v) : c ≠ 10 ∧ c ≠ 58 := by
  rcases mem_natHex8U v c h with h1 | h1 <;> omega

theorem readBlipAsm_writeBlipAsm (ss ts c1 c2 : Int) (md : List Nat)
    (mids : List BlipItem) (out : List BlipItem)
    (hchk : checkStream (.header BLIP_MAGIC ss ts md
        :: (mids ++ [BlipItem.sourceCRC32 c1, BlipItem.targetCRC32 c2])) = .ok out)
    (hss : 0 ≤ ss) (hts : 0 ≤ ts)
    (hval : ∀ m ∈ mids, validMid m)
    (hsum : middleSum mids = ts)
    (hc1 : 0 ≤ c1) (hc2 : 0 ≤ c2)
    (hbytes : ∀ d, BlipItem.targetRead d ∈ mids → ∀ b ∈ d, b < 256) :
    ∃ t, writeBlipAsm (.header BLIP_MAGIC ss ts md
          :: (mids ++ [BlipItem.sourceCRC32 c1, BlipItem.targetCRC32 c2])) = .ok t ∧
      readBlipAsm t = .ok (.header BLIP_MAGIC ss ts
          (if md = [] ∨ md.getLast? = some 10 then md else md ++ [10])
        :: (mids ++ [BlipItem.sourceCRC32 c1, BlipItem.targetCRC32 c2])) := by
  have hwb : writeBlipAsm (.header BLIP_MAGIC ss ts md
        :: (mids ++ [BlipItem.sourceCRC32 c1, BlipItem.targetCRC32 c2]))
      = .ok (BLIPASM_MAGIC
        ++ strBytes "source-size" ++ [58, 32] ++ intDec ss ++ [10]
        ++ strBytes "target-size" ++ [58, 32] ++ intDec ts ++ [10]
        ++ strBytes "metadata" ++ [58, 10]
        ++ writeMetaBlock md
        ++ ((mids ++ [BlipItem.sourceCRC32 c1, BlipItem.targetCRC32 c2]).map renderAsmItem).flatten) := by
    unfold writeBlipAsm
    rw [hchk]
  refine ⟨_, hwb, ?_⟩
  have hmagic : BLIPASM_MAGIC = strBytes "blip-asm" ++ [10] := by decide
  have hT : BLIPASM_MAGIC
        ++ strBytes "source-size" ++ [58, 32] ++ intDec ss ++ [10]
        ++ strBytes "target-size" ++ [58, 32] ++ intDec ts ++ [10]
        ++ strBytes "metadata" ++ [58, 10]
        ++ writeMetaBlock md
        ++ ((mids ++ [BlipItem.sourceCRC32 c1, BlipItem.targetCRC32 c2]).map renderAsmItem).flatten
      = strBytes "blip-asm" ++ 10 ::
        ((strBytes "source-size" ++ [58, 32] ++ intDec ss) ++ 10 ::
        ((strBytes "target-size" ++ [58, 32] ++ intDec ts) ++ 10 ::
        ((strBytes "metadata" ++ [58]) ++ 10 ::
        (writeMetaBlock md ++ ((mids.map renderAsmItem).flatten
          ++ (renderAsmItem (BlipItem.sourceCRC32 c1) ++ renderAsmItem (BlipItem.targetCRC32 c2))))))) := by
    rw [hmagic]
    simp [List.map_append]
  rw [hT]
  have h10s : ∀ n : Int, 0 ≤ n → ∀ lab : List Nat, (∀ c ∈ lab, c ≠ 10) →
      ∀ c ∈ lab ++ [58, 32] ++ intDec n, c ≠ 10 := by
    intro n hn lab hlab c hc
    rcases List.mem_append.mp hc with h1 | h1
    · rcases List.mem_append.mp h1 with h2 | h2
      · exact hlab c h2
      · simp at h2
        omega
    · have := mem_intDec n hn c h1
      omega
  have h58s : ∀ n : Int, 0 ≤ n → ∀ c ∈ 32 :: (intDec n ++ [10]), c ≠ 58 := by
    intro n hn c hc
    rcases List.mem_cons.mp hc with h1 | h1
    · omega
    · rcases List.mem_append.mp h1 with h2 | h2
      · have := mem_intDec n hn c h2
        omega
      · simp at h2
        omega
  unfold readBlipAsm
  rw [readline_append _ _ (by decide)]
  dsimp only
  rw [if_neg (not_not_intro (hmagic.symm))]
  rw [readline_append _ _ (h10s ss hss _ (by decide))]
  dsimp only
  rw [show (strBytes "source-size" ++ [58, 32] ++ intDec ss) ++ [10]
      = strBytes "source-size" ++ 58 :: (32 :: (intDec ss ++ [10])) by simp]
  rw [splitColon_append _ _ (by decide) (h58s ss hss)]
  dsimp only
  rw [if_neg (not_not_intro rfl), pyInt_intDec_line ss hss]
  dsimp only
  rw [readline_append _ _ (h10s ts hts _ (by decide))]
  dsimp only
  rw [show (strBytes "target-size" ++ [58, 32] ++ intDec ts) ++ [10]
      = strBytes "target-size" ++ 58 :: (32 :: (intDec ts ++ [10])) by simp]
  rw [splitColon_append _ _ (by decide) (h58s ts hts)]
  dsimp only
  rw [if_neg (not_not_intro rfl), pyInt_intDec_line ts hts]
  dsimp only
  rw [readline_append _ _ (by decide)]
  dsimp only
  rw [show (strBytes "metadata" ++ [58]) ++ [10]
      = strBytes "metadata" ++ 58 :: [10] by simp]
  rw [splitColon_append _ _ (by decide) (by decide)]
  dsimp only
  rw [if_neg (not_not_intro rfl)]
  rw [readMulti_writeMetaBlock md _]
  dsimp only
  have hloop := asmLoop_render ts mids
    (((mids.map renderAsmItem).flatten
      ++ (renderAsmItem (BlipItem.sourceCRC32 c1) ++ renderAsmItem (BlipItem.targetCRC32 c2))).length + 1)
    0 (renderAsmItem (BlipItem.sourceCRC32 c1) ++ renderAsmItem (BlipItem.targetCRC32 c2))
    hval hbytes (by omega)
    (by
      have := renderLen mids hval
      rw [List.length_append]
      omega)
  rw [hloop]
  dsimp only
  have hcx1 : ∀ c ∈ strBytes "source-crc32" ++ [58, 32] ++ natHex8U c1.toNat, c ≠ 10 := by
    intro c hc
    rcases List.mem_append.mp hc with h1 | h1
    · rcases List.mem_append.mp h1 with h2 | h2
      · have hall : ∀ c ∈ strBytes "source-crc32", c ≠ 10 := by decide
        exact hall c h2
      · simp at h2
        omega
    · exact (mem_natHex8U_ne _ c h1).1
  have hcx2 : ∀ c ∈ strBytes "target-crc32" ++ [58, 32] ++ natHex8U c2.toNat, c ≠ 10 := by
    intro c hc
    rcases List.mem_append.mp hc with h1 | h1
    · rcases List.mem_append.mp h1 with h2 | h2
      · have hall : ∀ c ∈ strBytes "target-crc32", c ≠ 10 := by decide
        exact hall c h2
      · simp at h2
        omega
    · exact (mem_natHex8U_ne _ c h1).1
  have h58x : ∀ v : Nat, ∀ c ∈ 32 :: (natHex8U v ++ [10]), c ≠ 58 := by
    intro v c hc
    rcases List.mem_cons.mp hc with h1 | h1
    · omega
    · rcases List.mem_append.mp h1 with h2 | h2
      · exact (mem_natHex8U_ne _ c h2).2
      · simp at h2
        omega
  have htail : renderAsmItem (BlipItem.sourceCRC32 c1) ++ renderAsmItem (BlipItem.targetCRC32 c2)
      = (strBytes "source-crc32" ++ [58, 32] ++ natHex8U c1.toNat) ++ 10 ::
        ((strBytes "target-crc32" ++ [58, 32] ++ natHex8U c2.toNat) ++ 10 :: []) := by
    show (strBytes "source-crc32" ++ [58, 32] ++ natHex8U c1.toNat ++ [10])
      ++ (strBytes "target-crc32" ++ [58, 32] ++ natHex8U c2.toNat ++ [10]) = _
    simp
  rw [htail, readline_append _ _ hcx1]
  dsimp only
  rw [show (strBytes "source-crc32" ++ [58, 32] ++ natHex8U c1.toNat) ++ [10]
      = strBytes "source-crc32" ++ 58 :: (32 :: (natHex8U c1.toNat ++ [10])) by simp]
  rw [splitColon_append _ _ (by decide) (h58x c1.toNat)]
  dsimp only
  rw [if_neg (not_not_intro rfl), pyInt_hex_line c1.toNat]
  dsimp only
  rw [readline_append _ _ hcx2]
  dsimp only
  rw [show (strBytes "target-crc32" ++ [58, 32] ++ natHex8U c2.toNat) ++ [10]
      = strBytes "target-crc32" ++ 58 :: (32 :: (natHex8U c2.toNat ++ [10])) by simp]
  rw [splitColon_append _ _ (by decide) (h58x c2.toNat)]
  dsimp only
  rw [if_neg (not_not_intro rfl), pyInt_hex_line c2.toNat]
  dsimp only
  rw [Int.toNat_of_nonneg hc1, Int.toNat_of_nonneg hc2]

theorem readVarIntAux_sub :
    ∀ (l : List Nat) (r s v : Nat) (rem : List Nat),
      readVarIntAux l r s = some (v, rem) → ∀ b ∈ rem, b ∈ l := by
  intro l
  induction l with
  | nil => intro r s v rem h; exact Option.noConfusion h
  | cons x rest ih =>
    intro r s v rem h
    rw [readVarIntAux] at h
    split_ifs at h with htb
    · injection h with h1
      rw [Prod.mk.injEq] at h1
      obtain ⟨-, h2⟩ := h1
      intro b hb
      exact List.mem_cons_of_mem _ (h2 ▸ hb)
    · intro b hb
      exact List.mem_cons_of_mem _ (ih _ _ _ _ h b hb)

theorem readBlipLoop_bytes (ts : Nat) :
    ∀ (fuel to_ : Nat) (rest : List Nat) (mids : List BlipItem) (r4 : List Nat),
      readBlipLoop ts fuel to_ rest = .ok (mids, r4) →
      ∀ d, BlipItem.targetRead d ∈ mids → ∀ b ∈ d, b ∈ rest := by
  intro fuel
  induction fuel with
  | zero =>
    intro to_ rest mids r4 h
    rw [readBlipLoop.eq_def] at h
    dsimp only at h
    split_ifs at h with hlt
    injection h with h1
    rw [Prod.mk.injEq] at h1
    obtain ⟨h2, -⟩ := h1
    intro d hd
    rw [← h2] at hd
    simp at hd
  | succ f ih =>
    intro to_ rest mids r4 h
    rw [readBlipLoop.eq_def] at h
    dsimp only at h
    split_ifs at h with hlt
    · cases hv : readVarInt rest with
      | none => rw [hv] at h; exact Except.noConfusion h
      | some pr =>
        obtain ⟨value, r1⟩ := pr
        rw [hv] at h
        dsimp only at h
        have hr1 : ∀ b ∈ r1, b ∈ rest := readVarIntAux_sub rest 0 1 value r1 hv
        split_ifs at h with h0 h1 h2 h3
        · obtain ⟨a, ha, hmap⟩ := exceptMap_ok _ _ _ h
          have hmap' : (BlipItem.sourceRead ((value / 4 + 1 : Nat) : Int) :: a.1, a.2)
              = (mids, r4) := hmap
          rw [Prod.mk.injEq] at hmap'
          obtain ⟨hm1, -⟩ := hmap'
          intro d hd b hb
          rw [← hm1] at hd
          rcases List.mem_cons.mp hd with hd1 | hd1
          · exact BlipItem.noConfusion hd1
          · exact hr1 b (ih _ _ _ _ ha d hd1 b hb)
        · obtain ⟨a, ha, hmap⟩ := exceptMap_ok _ _ _ h
          have hmap' : (BlipItem.targetRead (r1.take (value / 4 + 1)) :: a.1, a.2)
              = (mids, r4) := hmap
          rw [Prod.mk.injEq] at hmap'
          obtain ⟨hm1, -⟩ := hmap'
          intro d hd b hb
          rw [← hm1] at hd
          rcases List.mem_cons.mp hd with hd1 | hd1
          · have hdd : d = r1.take (value / 4 + 1) := by
              injection hd1
            rw [hdd] at hb
            exact hr1 b (List.mem_of_mem_take hb)
          · exact hr1 b (List.mem_of_mem_drop (ih _ _ _ _ ha d hd1 b hb))
        · cases hv2 : readVarInt r1 with
          | none => rw [hv2] at h; exact Except.noConfusion h
          | some pr2 =>
            obtain ⟨raw, r2⟩ := pr2
            rw [hv2] at h
            dsimp only at h
            have hr2 : ∀ b ∈ r2, b ∈ r1 := readVarIntAux_sub r1 0 1 raw r2 hv2
            obtain ⟨a, ha, hmap⟩ := exceptMap_ok _ _ _ h
            have hmap' : (BlipItem.sourceCopy ((value / 4 + 1 : Nat) : Int)
                (decodeSignedRaw raw) :: a.1, a.2) = (mids, r4) := hmap
            rw [Prod.mk.injEq] at hmap'
            obtain ⟨hm1, -⟩ := hmap'
            intro d hd b hb
            rw [← hm1] at hd
            rcases List.mem_cons.mp hd with hd1 | hd1
            · exact BlipItem.noConfusion hd1
            · exact hr1 b (hr2 b (ih _ _ _ _ ha d hd1 b hb))
        · cases hv2 : readVarInt r1 with
          | none => rw [hv2] at h; exact Except.noConfusion h
          | some pr2 =>
            obtain ⟨raw, r2⟩ := pr2
            rw [hv2] at h
            dsimp only at h
            have hr2 : ∀ b ∈ r2, b ∈ r1 := readVarIntAux_sub r1 0 1 raw r2 hv2
            obtain ⟨a, ha, hmap⟩ := exceptMap_ok _ _ _ h
            have hmap' : (BlipItem.targetCopy ((value / 4 + 1 : Nat) : Int)
                (decodeSignedRaw raw) :: a.1, a.2) = (mids, r4) := hmap
            rw [Prod.mk.injEq] at hmap'
            obtain ⟨hm1, -⟩ := hmap'
            intro d hd b hb
            rw [← hm1] at hd
            rcases List.mem_cons.mp hd with hd1 | hd1
            · exact BlipItem.noConfusion hd1
            · exact hr1 b (hr2 b (ih _ _ _ _ ha d hd1 b hb))
    · injection h with h1
      rw [Prod.mk.injEq] at h1
      obtain ⟨h2, -⟩ := h1
      intro d hd
      rw [← h2] at hd
      simp at hd

theorem readBlip_bytes {p : List Nat} {items : List BlipItem} {rem : List Nat}
    (h : readBlip p = .ok (items, rem)) :
    ∀ d, BlipItem.targetRead d ∈ items → ∀ b ∈ d, b ∈ p := by
  unfold readBlip at h
  split_ifs at h with hmg
  cases hv1 : readVarInt (p.drop 4) with
  | none => rw [hv1] at h; exact Except.noConfusion h
  | some pr1 =>
    obtain ⟨ss, r1⟩ := pr1
    rw [hv1] at h
    dsimp only at h
    cases hv2 : readVarInt r1 with
    | none => rw [hv2] at h; exact Except.noConfusion h
    | some pr2 =>
      obtain ⟨ts, r2⟩ := pr2
      rw [hv2] at h
      dsimp only at h
      cases hv3 : readVarInt r2 with
      | none => rw [hv3] at h; exact Except.noConfusion h
      | some pr3 =>
        obtain ⟨msize, r3⟩ := pr3
        rw [hv3] at h
        dsimp only at h
        split_ifs at h with hutf
        cases hloop : readBlipLoop ts ((r3.drop msize).length + 1) 0 (r3.drop msize) with
        | error e => rw [hloop] at h; exact Except.noConfusion h
        | ok pr4 =>
          obtain ⟨mids, r4⟩ := pr4
          rw [hloop] at h
          dsimp only at h
          split_ifs at h with hc1 hc2 hc3 hc4
          injection h with h1
          rw [Prod.mk.injEq] at h1
          obtain ⟨hitems, -⟩ := h1
          intro d hd b hb
          rw [← hitems] at hd
          rcases List.mem_cons.mp hd with hd1 | hd1
          · exact BlipItem.noConfusion hd1
          · rcases List.mem_append.mp hd1 with hd2 | hd2
            · have hbr3d : b ∈ r3.drop msize :=
                readBlipLoop_bytes ts _ _ _ _ _ hloop d hd2 b hb
              have hbr3 : b ∈ r3 := List.mem_of_mem_drop hbr3d
              have hbr2 : b ∈ r2 := readVarIntAux_sub r2 0 1 msize r3 hv3 b hbr3
              have hbr1 : b ∈ r1 := readVarIntAux_sub r1 0 1 ts r2 hv2 b hbr2
              have hbp4 : b ∈ p.drop 4 := readVarIntAux_sub (p.drop 4) 0 1 ss r1 hv1 b hbr1
              exact List.mem_of_mem_drop hbp4
            · simp at hd2

/-- C3 (amended): for a canonical binary patch — one that `read_blip`
parses exactly and that `write_blip` reproduces byte for byte from its own
operation stream — whose bytes are genuine bytes and whose metadata is
empty or newline-terminated, converting to blip-asm text and back yields
the original patch: `textToBinary (binaryToText p) = p`.  (The metadata
condition and the canonicity condition are both necessary: metadata
without a final newline gains one in the text round trip, and a
non-canonical `-0` copy offset re-encodes as `0`.) -/
theorem c3_text_binary_roundtrip (p : List Nat) (items : List BlipItem)
    (hr : readBlip p = .ok (items, []))
    (hw : writeBlip items = .ok p)
    (hb : ∀ b ∈ p, b < 256)
    (hmd : metadataOf items = [] ∨ (metadataOf items).getLast? = some 10) :
    ∃ t, binaryToText p = .ok t ∧ textToBinary t = .ok p := by
  obtain ⟨chk, hchk⟩ := writeBlip_ok_inv hw
  obtain ⟨ss, ts, md, rest, hshape, hss, hts, out', hout'⟩ := checkStream_ok_inv hchk
  obtain ⟨mids, c1, c2, hrest, hval, hb1, hb1', hb2, hb2'⟩ :=
    checkLoop_shape ss ts rest 0 0 0 out' hout'
  subst hrest
  subst hshape
  have hmd' : md = [] ∨ md.getLast? = some 10 := by
    simpa [metadataOf] using hmd
  have hsum0 := checkLoop_sum ss ts _ 0 0 0 out' hout' (by omega)
  have hsum : middleSum mids = ts := by
    have hmsa := middleSum_append_crcs mids c1 c2
    omega
  have hbytes : ∀ d, BlipItem.targetRead d ∈ mids → ∀ b ∈ d, b < 256 := by
    intro d hd b hbmem
    exact hb b (readBlip_bytes hr d
      (List.mem_cons_of_mem _ (List.mem_append.mpr (Or.inl hd))) b hbmem)
  obtain ⟨t, hwba, hrba⟩ := readBlipAsm_writeBlipAsm ss ts c1 c2 md mids chk hchk
    hss hts hval hsum hb1 hb2 hbytes
  refine ⟨t, ?_, ?_⟩
  · unfold binaryToText
    rw [hr]
    exact hwba
  · unfold textToBinary
    rw [hrba]
    dsimp only
    rw [if_pos hmd']
    exact hw

/-- C3 witness: the canonical empty patch (source size 0, target size 0,
no metadata) survives the text round trip unchanged. -/
theorem c3_text_binary_roundtrip_witness :
    ∃ t, binaryToText
        [98, 108, 105, 112, 128, 128, 128, 0, 0, 0, 0, 0, 0, 0, 0, 2, 132, 222, 193]
      = .ok t ∧
      textToBinary t
      = .ok [98, 108, 105, 112, 128, 128, 128, 0, 0, 0, 0, 0, 0, 0, 0, 2, 132, 222, 193] :=
  c3_text_binary_roundtrip
    [98, 108, 105, 112, 128, 128, 128, 0, 0, 0, 0, 0, 0, 0, 0, 2, 132, 222, 193]
    [BlipItem.header BLIP_MAGIC 0 0 [], BlipItem.sourceCRC32 0, BlipItem.targetCRC32 0]
    (by rfl) (by rfl) (by decide) (Or.inl rfl)

/-- C3 counterexample: the valid binary patch with metadata `"x"` (no
trailing newline) does not survive the text round trip: the metadata
block of the text form adds a final newline, so the re-encoded binary
patch differs from the original. -/
theorem c3_text_binary_roundtrip_counterexample :
    ∃ t, binaryToText
        [98, 108, 105, 112, 128, 128, 129, 120, 0, 0, 0, 0, 0, 0, 0, 0, 214, 90, 116, 152]
      = .ok t ∧
      textToBinary t
      ≠ .ok [98, 108, 105, 112, 128, 128, 129, 120, 0, 0, 0, 0, 0, 0, 0, 0, 214, 90, 116, 152] := by
  have hchk : checkStream (BlipItem.header BLIP_MAGIC 0 0 [120]
      :: ([] ++ [BlipItem.sourceCRC32 0, BlipItem.targetCRC32 0]))
      = .ok [BlipItem.header BLIP_MAGIC 0 0 [120],
          BlipItem.sourceCRC32 0, BlipItem.targetCRC32 0] := by rfl
  obtain ⟨t, hwba, hrba⟩ := readBlipAsm_writeBlipAsm 0 0 0 0 [120] [] _ hchk
    (by omega) (by omega) (by simp) (by simp [middleSum]) (by omega) (by omega)
    (by simp)
  refine ⟨t, ?_, ?_⟩
  · unfold binaryToText
    rw [show readBlip
        [98, 108, 105, 112, 128, 128, 129, 120, 0, 0, 0, 0, 0, 0, 0, 0, 214, 90, 116, 152]
      = .ok ([BlipItem.header BLIP_MAGIC 0 0 [120],
          BlipItem.sourceCRC32 0, BlipItem.targetCRC32 0], []) from rfl]
    exact hwba
  · have htb : textToBinary t
        = .ok [98, 108, 105, 112, 128, 128, 130, 120, 10, 0, 0, 0, 0, 0, 0, 0, 0,
            169, 0, 230, 177] := by
      unfold textToBinary
      rw [hrba]
      dsimp only
      rw [if_neg (by decide)]
      rfl
    rw [htb]
    intro hcontra
    injection hcontra with hx
    exact absurd hx (by decide)

theorem pySlice_length (xs : List Nat) (a b : Nat) :
    (pySlice xs a b).length = min (b - a) (xs.length - a) := by
  unfold pySlice
  rw [List.length_take, List.length_drop]

theorem pySlice_getD (xs : List Nat) (a b k : Nat)
    (hk : k < (pySlice xs a b).length) :
    (pySlice xs a b).getD k 0 = xs.getD (a + k) 0 := by
  have hk' : k < min (b - a) (xs.length - a) := by rw [← pySlice_length]; exact hk
  unfold pySlice
  rw [List.getD_eq_getElem?_getD, List.getD_eq_getElem?_getD,
    List.getElem?_take, if_pos (by omega), List.getElem?_drop]

theorem getD_take (xs : List Nat) (n k : Nat) (hk : k < n) :
    (xs.take n).getD k 0 = xs.getD k 0 := by
  rw [List.getD_eq_getElem?_getD, List.getD_eq_getElem?_getD,
    List.getElem?_take, if_pos hk]

theorem take_append_pySlice (xs : List Nat) (a b : Nat) (hab : a ≤ b) :
    xs.take a ++ pySlice xs a b = xs.take b := by
  conv_rhs => rw [show b = a + (b - a) by omega, List.take_add]
  rfl

theorem pySlice_eq_of_pointwise (xs ys : List Nat) (a c m : Nat)
    (hxa : a + m ≤ xs.length) (hyc : c + m ≤ ys.length)
    (h : ∀ k, k < m → xs.getD (a + k) 0 = ys.getD (c + k) 0) :
    pySlice xs a (a + m) = pySlice ys c (c + m) := by
  apply List.ext_getElem?
  intro n
  by_cases hn : n < m
  · have hl1 : n < (pySlice xs a (a + m)).length := by rw [pySlice_length]; omega
    have hl2 : n < (pySlice ys c (c + m)).length := by rw [pySlice_length]; omega
    rw [List.getElem?_eq_getElem hl1, List.getElem?_eq_getElem hl2]
    have h1 := pySlice_getD xs a (a + m) n hl1
    have h2 := pySlice_getD ys c (c + m) n hl2
    rw [List.getD_eq_getElem _ _ hl1] at h1
    rw [List.getD_eq_getElem _ _ hl2] at h2
    rw [h1, h2]
    exact congrArg some (h n hn)
  · rw [List.getElem?_eq_none (by rw [pySlice_length]; omega),
      List.getElem?_eq_none (by rw [pySlice_length]; omega)]

theorem rleCopy_take (t : List Nat) :
    ∀ (m u o : Nat), o < u → u + m ≤ t.length →
      (∀ k, k < m → t.getD (o + k) 0 = t.getD (u + k) 0) →
      rleCopy (t.take u) o m = t.take (u + m) := by
  intro m
  induction m with
  | zero =>
    intro u o _ _ _
    simp [rleCopy]
  | succ m ih =>
    intro u o ho hum hmatch
    rw [rleCopy]
    have hget : (t.take u).getD o 0 = t.getD u 0 := by
      rw [getD_take t u o ho]
      have := hmatch 0 (by omega)
      simpa using this
    rw [hget]
    have happ : t.take u ++ [t.getD u 0] = t.take (u + 1) := by
      rw [List.take_succ]
      congr 1
      rw [List.getD_eq_getElem _ _ (by omega), List.getElem?_eq_getElem (by omega)]
      rfl
    rw [happ]
    rw [ih (u + 1) (o + 1) (by omega) (by omega)
      (fun k hk => by
        have hm := hmatch (k + 1) (by omega)
        have e1 : o + (k + 1) = o + 1 + k := by omega
        have e2 : u + (k + 1) = u + 1 + k := by omega
        rw [e1, e2] at hm
        exact hm)]
    congr 1
    omega

theorem backspanOf_le (p : Nat) (bsrc : List Nat) (so : Nat) (tgt : List Nat) (to_ : Nat) :
    backspanOf p bsrc so tgt to_ ≤ p ∧ backspanOf p bsrc so tgt to_ ≤ so ∧
      backspanOf p bsrc so tgt to_ ≤ to_ := by
  unfold backspanOf pyForBreak
  cases hff : findFirst (fun b => decide (bsrc.getD (so - b - 1) 0 ≠ tgt.getD (to_ - b - 1) 0))
      (min so (min to_ (p + 1))) 0 with
  | some k =>
    dsimp only
    have := findFirst_bounds _ _ _ _ hff
    omega
  | none =>
    dsimp only
    omega

theorem backspanOf_match (p : Nat) (bsrc : List Nat) (so : Nat) (tgt : List Nat) (to_ : Nat) :
    ∀ b, b < backspanOf p bsrc so tgt to_ →
      bsrc.getD (so - b - 1) 0 = tgt.getD (to_ - b - 1) 0 := by
  intro b hb
  unfold backspanOf pyForBreak at hb
  cases hff : findFirst (fun b => decide (bsrc.getD (so - b - 1) 0 ≠ tgt.getD (to_ - b - 1) 0))
      (min so (min to_ (p + 1))) 0 with
  | some k =>
    rw [hff] at hb
    dsimp only at hb
    have hfb := (findFirst_bounds _ _ _ _ hff).2.2.2 b (by omega) hb
    simpa using hfb
  | none =>
    rw [hff] at hb
    dsimp only at hb
    have hfb := findFirst_none _ _ _ hff b (by omega) (by omega)
    simpa using hfb

theorem forespanOf_facts (bsrc : List Nat) (so : Nat) (tgt : List Nat) (to_ : Nat)
    (hmax : 1 ≤ min (bsrc.length - so) (tgt.length - to_))
    (h0 : bsrc.getD so 0 = tgt.getD to_ 0) :
    1 ≤ forespanOf bsrc so tgt to_ ∧
    forespanOf bsrc so tgt to_ ≤ min (bsrc.length - so) (tgt.length - to_) ∧
    ∀ k, k < forespanOf bsrc so tgt to_ →
      bsrc.getD (so + k) 0 = tgt.getD (to_ + k) 0 := by
  unfold forespanOf
  dsimp only
  cases hff : findFirst (fun k => decide (bsrc.getD (so + k) 0 ≠ tgt.getD (to_ + k) 0))
      (min (bsrc.length - so) (tgt.length - to_)) 0 with
  | some k =>
    dsimp only
    obtain ⟨-, hlt, hpred, hprev⟩ := findFirst_bounds _ _ _ _ hff
    refine ⟨?_, by omega, ?_⟩
    · rcases Nat.eq_zero_or_pos k with hk0 | hk0
      · subst hk0
        have hne : bsrc.getD (so + 0) 0 ≠ tgt.getD (to_ + 0) 0 := by simpa using hpred
        rw [Nat.add_zero, Nat.add_zero] at hne
        exact absurd h0 hne
      · exact hk0
    · intro j hj
      have hfb := hprev j (by omega) hj
      simpa using hfb
  | none =>
    dsimp only
    refine ⟨by omega, by omega, ?_⟩
    intro j hj
    have hfb := findFirst_none _ _ _ hff j (by omega) (by omega)
    simpa using hfb

theorem measureOp_correct (s t : List Nat) (bs p so tw : Nat) (kind : CopyKind)
    (bsrc : List Nat)
    (hkind : (kind = CopyKind.sourceCopyK ∧ bsrc = s) ∨
      (kind = CopyKind.targetCopyK ∧ bsrc = t ∧
        so + (pySlice bsrc so (so + bs)).length ≤ tw))
    (hB : pySlice bsrc so (so + bs) = pySlice t (tw + p) (tw + p + bs))
    (hBne : pySlice bsrc so (so + bs) ≠ []) :
    ∃ n, 1 ≤ n ∧ tw + n ≤ t.length ∧
      ((measureOp p bsrc so t (tw + p) kind).map bytespanB).sum = n ∧
      (∀ op ∈ measureOp p bsrc so t (tw + p) kind, validBOp op) ∧
      (measureOp p bsrc so t (tw + p) kind).foldlM
        (fun out op => applyOp s out op) (t.take tw) = some (t.take (tw + n)) := by
  have hsoLt : so < bsrc.length := by
    by_contra hc
    apply hBne
    unfold pySlice
    rw [List.drop_eq_nil_of_le (by omega)]
    exact List.take_nil
  have htpLt : tw + p < t.length := by
    by_contra hc
    apply hBne
    rw [hB]
    unfold pySlice
    rw [List.drop_eq_nil_of_le (by omega)]
    exact List.take_nil
  have hBlen : 1 ≤ (pySlice bsrc so (so + bs)).length :=
    Nat.pos_of_ne_zero (fun h => hBne (List.length_eq_zero.mp h))
  set backspan := backspanOf p bsrc so t (tw + p) with hbk
  obtain ⟨hbp, hbso, hbto⟩ := backspanOf_le p bsrc so t (tw + p)
  rw [← hbk] at hbp hbso hbto
  have h0 : bsrc.getD (so - backspan) 0 = t.getD (tw + p - backspan) 0 := by
    rcases Nat.eq_zero_or_pos backspan with hz | hpos
    · rw [hz, Nat.sub_zero, Nat.sub_zero]
      have h00 : (pySlice bsrc so (so + bs)).getD 0 0 = bsrc.getD so 0 := by
        have := pySlice_getD bsrc so (so + bs) 0 (by omega)
        simpa using this
      have h01 : (pySlice t (tw + p) (tw + p + bs)).getD 0 0 = t.getD (tw + p) 0 := by
        have := pySlice_getD t (tw + p) (tw + p + bs) 0 (by rw [← hB]; omega)
        simpa using this
      rw [← h00, ← h01, hB]
    · have hbm := backspanOf_match p bsrc so t (tw + p) (backspan - 1) (by omega)
      have e1 : so - (backspan - 1) - 1 = so - backspan := by omega
      have e2 : tw + p - (backspan - 1) - 1 = tw + p - backspan := by omega
      rw [e1, e2] at hbm
      exact hbm
  obtain ⟨hf1, hfmax, hfmatch⟩ := forespanOf_facts bsrc (so - backspan) t (tw + p - backspan)
    (by omega) h0
  set forespan := forespanOf bsrc (so - backspan) t (tw + p - backspan) with hfs
  have hM : measureOp p bsrc so t (tw + p) kind =
      (if p - backspan ≠ 0
        then [BOp.targetRead
          (pySlice t (tw + p - backspan - (p - backspan)) (tw + p - backspan))]
        else []) ++
      [if kind = CopyKind.sourceCopyK ∧ so - backspan = tw + p - backspan
        then BOp.sourceRead forespan
        else if kind = CopyKind.sourceCopyK then BOp.sourceCopy forespan (so - backspan)
        else BOp.targetCopy forespan (so - backspan)] := by
    cases kind <;> rfl
  rw [show tw + p - backspan - (p - backspan) = tw by omega] at hM
  -- the copy operation applied to the already-written prefix
  have hcop : ∀ cop, (cop = if kind = CopyKind.sourceCopyK ∧ so - backspan = tw + p - backspan
        then BOp.sourceRead forespan
        else if kind = CopyKind.sourceCopyK then BOp.sourceCopy forespan (so - backspan)
        else BOp.targetCopy forespan (so - backspan)) →
      validBOp cop ∧ bytespanB cop = forespan ∧
      applyOp s (t.take (tw + p - backspan)) cop
        = some (t.take (tw + p - backspan + forespan)) := by
    intro cop hcopdef
    have houtlen : (t.take (tw + p - backspan)).length = tw + p - backspan := by
      rw [List.length_take]
      omega
    have hslice : ∀ src2 : List Nat, bsrc = src2 →
        pySlice src2 (so - backspan) (so - backspan + forespan)
          = pySlice t (tw + p - backspan) (tw + p - backspan + forespan) := by
      intro src2 hsrc2
      subst hsrc2
      exact pySlice_eq_of_pointwise _ _ _ _ _ (by omega) (by omega) hfmatch
    rcases hkind with ⟨hk, hbsrc⟩ | ⟨hk, hbsrc, hsotw⟩
    · subst hk
      by_cases heq : so - backspan = tw + p - backspan
      · rw [if_pos ⟨rfl, heq⟩] at hcopdef
        subst hcopdef
        refine ⟨hf1, rfl, ?_⟩
        show (if (t.take (tw + p - backspan)).length + forespan ≤ s.length then
          some (t.take (tw + p - backspan) ++
            pySlice s (t.take (tw + p - backspan)).length
              ((t.take (tw + p - backspan)).length + forespan))
          else none) = _
        rw [houtlen, if_pos (by rw [← hbsrc]; omega)]
        rw [← heq, hslice s hbsrc, heq]
        rw [take_append_pySlice t _ _ (by omega)]
      · rw [if_neg (by intro hcc; exact heq hcc.2), if_pos rfl] at hcopdef
        subst hcopdef
        refine ⟨hf1, rfl, ?_⟩
        show (if so - backspan + forespan ≤ s.length then
          some (t.take (tw + p - backspan) ++
            pySlice s (so - backspan) (so - backspan + forespan))
          else none) = _
        rw [if_pos (by rw [← hbsrc]; omega)]
        rw [hslice s hbsrc, take_append_pySlice t _ _ (by omega)]
    · subst hk
      rw [if_neg (by intro hcc; exact CopyKind.noConfusion hcc.1),
        if_neg (by intro hcc; exact CopyKind.noConfusion hcc)] at hcopdef
      subst hcopdef
      refine ⟨hf1, rfl, ?_⟩
      have hsolt : so - backspan < tw + p - backspan := by omega
      show (if so - backspan < (t.take (tw + p - backspan)).length then
        some (rleCopy (t.take (tw + p - backspan)) (so - backspan) forespan)
        else none) = _
      rw [houtlen, if_pos hsolt]
      rw [rleCopy_take t forespan (tw + p - backspan) (so - backspan) hsolt (by omega)
        (fun k hk2 => by
          have := hfmatch k hk2
          rw [hbsrc] at this
          exact this)]
  by_cases hp' : p - backspan = 0
  · refine ⟨forespan, hf1, by omega, ?_, ?_, ?_⟩
    · rw [hM, if_neg (by omega)]
      simp only [List.nil_append, List.map_cons, List.map_nil, List.sum_cons, List.sum_nil]
      rw [(hcop _ rfl).2.1]
      omega
    · intro op hop
      rw [hM, if_neg (by omega)] at hop
      simp only [List.nil_append, List.mem_singleton] at hop
      subst hop
      exact (hcop _ rfl).1
    · rw [hM, if_neg (by omega)]
      simp only [List.nil_append, List.foldlM_cons, List.foldlM_nil]
      rw [show tw + p - backspan = tw from by omega]
      have happly := (hcop _ (by rw [show tw + p - backspan = tw from by omega])).2.2
      rw [show tw + p - backspan = tw from by omega] at happly
      rw [happly]
      simp only [Option.pure_def, Option.bind_eq_bind, Option.some_bind]
  · refine ⟨(p - backspan) + forespan, by omega, by omega, ?_, ?_, ?_⟩
    · rw [hM, if_pos hp']
      simp only [List.cons_append, List.nil_append, List.map_cons, List.map_nil,
        List.sum_cons, List.sum_nil]
      rw [(hcop _ rfl).2.1]
      have hbtr : bytespanB (BOp.targetRead (pySlice t tw (tw + p - backspan)))
          = p - backspan := by
        show (pySlice t tw (tw + p - backspan)).length = p - backspan
        rw [pySlice_length]
        omega
      rw [hbtr]
      omega
    · intro op hop
      rw [hM, if_pos hp'] at hop
      simp only [List.cons_append, List.nil_append, List.mem_cons,
        List.mem_singleton] at hop
      rcases hop with hop | hop
      · subst hop
        show pySlice t tw (tw + p - backspan) ≠ []
        intro hnil
        have := congrArg List.length hnil
        rw [pySlice_length] at this
        simp at this
        omega
      · rcases hop with hop | hop
        · subst hop
          exact (hcop _ rfl).1
        · simp at hop
    · rw [hM, if_pos hp']
      simp only [List.cons_append, List.nil_append, List.foldlM_cons, List.foldlM_nil]
      have hstep1 : applyOp s (t.take tw)
          (BOp.targetRead (pySlice t tw (tw + p - backspan)))
          = some (t.take (tw + p - backspan)) := by
        show some (t.take tw ++ pySlice t tw (tw + p - backspan)) = _
        rw [take_append_pySlice t _ _ (by omega)]
      rw [hstep1]
      simp only [Option.pure_def, Option.bind_eq_bind, Option.some_bind]
      have happly := (hcop _ rfl).2.2
      rw [happly]
      rw [show tw + p - backspan + forespan = tw + (p - backspan + forespan) from by omega]
      rfl

theorem pickBest_fold_mem (lsc ltc : Nat) :
    ∀ (cands : List (List BOp)) (acc : Option (List BOp) × ℚ) (l : List BOp),
      (cands.foldl
        (fun best cand =>
          if best.2 < opEfficiency cand lsc ltc then (some cand, opEfficiency cand lsc ltc)
          else best) acc).1 = some l →
      acc.1 = some l ∨ l ∈ cands := by
  intro cands
  induction cands with
  | nil => intro acc l h; exact Or.inl h
  | cons c rest ih =>
    intro acc l h
    rw [List.foldl_cons] at h
    rcases ih _ l h with h1 | h1
    · by_cases hc : acc.2 < opEfficiency c lsc ltc
      · rw [if_pos hc] at h1
        have h2 : some c = some l := h1
        injection h2 with h3
        exact Or.inr (by rw [← h3]; exact List.mem_cons_self _ _)
      · rw [if_neg hc] at h1
        exact Or.inl h1
    · exact Or.inr (List.mem_cons_of_mem _ h1)

theorem pickBest_some_mem (lsc ltc : Nat) (cands : List (List BOp)) (l : List BOp)
    (h : pickBest lsc ltc cands = some l) : l ∈ cands := by
  unfold pickBest at h
  rcases pickBest_fold_mem lsc ltc cands _ l h with h1 | h1
  · exact Option.noConfusion h1
  · exact h1

theorem getBlocks_mem (m : List (List Nat × Nat)) (b : List Nat) (off : Nat)
    (h : off ∈ getBlocks m b) : (b, off) ∈ m := by
  unfold getBlocks at h
  obtain ⟨e, he, hoff⟩ := List.mem_map.mp h
  have hf := List.mem_filter.mp he
  have hb : e.1 = b := by simpa using hf.2
  have he2 : e = (b, off) := by
    cases e with
    | mk e1 e2 =>
      simp only at hb hoff
      rw [hb, hoff]
  rw [← he2]
  exact hf.1

theorem scanCandidates_mem (bs : Nat) (smap tmap : List (List Nat × Nat)) (s t : List Nat)
    (base pending : Nat) (l : List BOp)
    (h : l ∈ scanCandidates bs smap tmap s t base pending) :
    ∃ eo, eo < bs ∧
      ((∃ so, (pySlice t (base + eo) (base + eo + bs), so) ∈ smap ∧
        l = measureOp (pending + eo) s so t (base + eo) CopyKind.sourceCopyK) ∨
      (∃ so, (pySlice t (base + eo) (base + eo + bs), so) ∈ tmap ∧
        l = measureOp (pending + eo) t so t (base + eo) CopyKind.targetCopyK)) := by
  unfold scanCandidates at h
  obtain ⟨eo, heo, hmem⟩ := List.mem_flatMap.mp h
  refine ⟨eo, List.mem_range.mp heo, ?_⟩
  rcases List.mem_append.mp hmem with h1 | h1
  · obtain ⟨so, hso, hl⟩ := List.mem_map.mp h1
    exact Or.inl ⟨so, getBlocks_mem _ _ _ hso, hl.symm⟩
  · obtain ⟨so, hso, hl⟩ := List.mem_map.mp h1
    exact Or.inr ⟨so, getBlocks_mem _ _ _ hso, hl.symm⟩

theorem iterBlocksGo_mem (bs : Nat) (t : List Nat) :
    ∀ (n off0 : Nat), (t.drop off0).length ≤ n →
      ∀ (b : List Nat) (off : Nat),
        (b, off) ∈ iterBlocksGo bs (t.drop off0) off0 →
        b = pySlice t off (off + bs) ∧ b ≠ [] ∧ off0 ≤ off := by
  intro n
  induction n with
  | zero =>
    intro off0 hlen b off hmem
    have hnil : t.drop off0 = [] := List.length_eq_zero.mp (by omega)
    rw [hnil] at hmem
    simp [iterBlocksGo] at hmem
  | succ n ih =>
    intro off0 hlen b off hmem
    cases hd : t.drop off0 with
    | nil =>
      rw [hd] at hmem
      simp [iterBlocksGo] at hmem
    | cons x rest =>
      rw [hd] at hmem
      cases bs with
      | zero => simp [iterBlocksGo] at hmem
      | succ bs' =>
        rw [iterBlocksGo] at hmem
        simp only [List.length_cons] at hmem
        rw [hd] at hlen
        simp only [List.length_cons] at hlen
        have hlent : rest.length + 1 = t.length - off0 := by
          have hcl := congrArg List.length hd
          rw [List.length_drop] at hcl
          simpa using hcl.symm
        rcases List.mem_cons.mp hmem with h1 | h1
        · rw [Prod.mk.injEq] at h1
          obtain ⟨hb, hoff⟩ := h1
          subst hoff
          refine ⟨?_, ?_, le_refl _⟩
          · rw [hb, ← hd]
            unfold pySlice
            congr 1
            omega
          · rw [hb]
            simp
        · have hdd : (x :: rest).drop (bs' + 1)
              = t.drop (off0 + min (bs' + 1) (rest.length + 1)) := by
            by_cases hc : bs' + 1 ≤ rest.length + 1
            · rw [← hd, List.drop_drop]
              congr 1
              omega
            · rw [List.drop_eq_nil_of_le (by simp only [List.length_cons]; omega),
                List.drop_eq_nil_of_le (by omega)]
          rw [hdd] at h1
          obtain ⟨hb2, hbne2, hle2⟩ := ih (off0 + min (bs' + 1) (rest.length + 1))
            (by rw [List.length_drop]; omega) b off h1
          exact ⟨hb2, hbne2, by omega⟩

theorem emitUpdate_tw :
    ∀ (l : List BOp) (tw lsc ltc : Nat),
      (emitUpdate l tw lsc ltc).1 = tw + (l.map bytespanB).sum := by
  intro l
  induction l with
  | nil =>
    intro tw lsc ltc
    simp [emitUpdate]
  | cons op rest ih =>
    intro tw lsc ltc
    cases op <;>
      (rw [emitUpdate, ih] <;>
        first
          | (simp only [List.map_cons, List.sum_cons]; omega)
          | (intro a b hco; exact BOp.noConfusion hco))

theorem buildMap_eq (es : List (List Nat × Nat)) : buildMap es = es := by
  have hgen : ∀ (es acc : List (List Nat × Nat)),
      es.foldl (fun m e => addBlock m e.1 e.2) acc = acc ++ es := by
    intro es
    induction es with
    | nil => intro acc; simp
    | cons e rest ih =>
      intro acc
      rw [List.foldl_cons, ih]
      unfold addBlock
      simp
  unfold buildMap
  rw [hgen]
  simp

theorem catchUp_inv (bs : Nat) (t : List Nat) :
    ∀ (tblocks tmap : List (List Nat × Nat)) (ntb tw : Nat),
      (∀ b off, (b, off) ∈ tmap →
        b = pySlice t off (off + bs) ∧ b ≠ [] ∧ off + b.length ≤ tw) →
      tblocks = iterBlocksGo bs (t.drop ntb) ntb →
      ntb ≤ tw →
      (∀ b off, (b, off) ∈ (catchUp bs tmap tblocks ntb tw).1 →
        b = pySlice t off (off + bs) ∧ b ≠ [] ∧ off + b.length ≤ tw) ∧
      (catchUp bs tmap tblocks ntb tw).2.1
        = iterBlocksGo bs (t.drop (catchUp bs tmap tblocks ntb tw).2.2)
            (catchUp bs tmap tblocks ntb tw).2.2 ∧
      (catchUp bs tmap tblocks ntb tw).2.2 ≤ tw := by
  intro tblocks
  induction tblocks with
  | nil =>
    intro tmap ntb tw hmap htb hntb
    rw [catchUp.eq_def]
    dsimp only
    split_ifs with hcond
    · exact ⟨hmap, htb, hntb⟩
    · exact ⟨hmap, htb, hntb⟩
  | cons e rest ih =>
    obtain ⟨b0, off0⟩ := e
    intro tmap ntb tw hmap htb hntb
    rw [catchUp.eq_def]
    dsimp only
    split_ifs with hcond
    · cases hd : t.drop ntb with
      | nil =>
        rw [hd] at htb
        simp [iterBlocksGo] at htb
      | cons x r2 =>
        rw [hd] at htb
        cases bs with
        | zero => simp [iterBlocksGo] at htb
        | succ bs' =>
          rw [iterBlocksGo] at htb
          simp only [List.length_cons] at htb
          rw [List.cons.injEq, Prod.mk.injEq] at htb
          obtain ⟨⟨hb0, hoff0⟩, hrest⟩ := htb
          have hlent : r2.length + 1 = t.length - ntb := by
            have hcl := congrArg List.length hd
            rw [List.length_drop] at hcl
            simpa using hcl.symm
          have hb0len : b0.length = min (bs' + 1) (r2.length + 1) := by
            rw [hb0, List.length_take]
            simp
          have hntb' : off0 + b0.length = ntb + min (bs' + 1) (r2.length + 1) := by
            rw [hoff0, hb0len]
          have hdd : (x :: r2).drop (bs' + 1)
              = t.drop (ntb + min (bs' + 1) (r2.length + 1)) := by
            by_cases hc : bs' + 1 ≤ r2.length + 1
            · rw [← hd, List.drop_drop]
              congr 1
              omega
            · rw [List.drop_eq_nil_of_le (by simp only [List.length_cons]; omega),
                List.drop_eq_nil_of_le (by omega)]
          have hrest' : rest = iterBlocksGo (bs' + 1) (t.drop (off0 + b0.length))
              (off0 + b0.length) := by
            rw [hntb', ← hdd]
            exact hrest
          have hmap' : ∀ b off, (b, off) ∈ addBlock tmap b0 off0 →
              b = pySlice t off (off + (bs' + 1)) ∧ b ≠ [] ∧ off + b.length ≤ tw := by
            intro b off hmem
            unfold addBlock at hmem
            rcases List.mem_append.mp hmem with h1 | h1
            · exact hmap b off h1
            · simp only [List.mem_singleton, Prod.mk.injEq] at h1
              obtain ⟨hb, hoff⟩ := h1
              subst hb
              subst hoff
              refine ⟨?_, ?_, ?_⟩
              · rw [hb0, hoff0, ← hd]
                unfold pySlice
                congr 1
                omega
              · rw [hb0]
                simp
              · rw [hoff0, hb0len]
                omega
          exact ih (addBlock tmap b0 off0) (off0 + b0.length) tw hmap' hrest'
            (by rw [hntb']; omega)
    · exact ⟨hmap, htb, hntb⟩

theorem diffMeasure_dec (L tw n pending : Nat) (hn : 1 ≤ n) (htwL : tw < L) :
    (L - (tw + n)) * (L + 1) + (L - (tw + n))
      < (L - tw) * (L + 1) + (L - tw - pending) := by
  have hA : 1 ≤ L - tw := by omega
  have hle : L - (tw + n) ≤ L - tw - 1 := by omega
  have h1 : (L - (tw + n)) * (L + 1) ≤ (L - tw - 1) * (L + 1) :=
    Nat.mul_le_mul_right _ hle
  have h2 : (L - tw - 1) * (L + 1) + (L + 1) = (L - tw) * (L + 1) := by
    rw [← Nat.succ_mul]
    congr 1
    omega
  have h3 : L - (tw + n) ≤ L := by omega
  omega

theorem diffLoop_correct (bs : Nat) (s t : List Nat) (smap : List (List Nat × Nat))
    (hbs : 1 ≤ bs)
    (hsmap : ∀ b off, (b, off) ∈ smap → b = pySlice s off (off + bs) ∧ b ≠ []) :
    ∀ (fuel tw lsc ltc : Nat) (tmap tblocks : List (List Nat × Nat)) (ntb pending : Nat),
      tw ≤ t.length →
      (∀ b off, (b, off) ∈ tmap →
        b = pySlice t off (off + bs) ∧ b ≠ [] ∧ off + b.length ≤ tw) →
      tblocks = iterBlocksGo bs (t.drop ntb) ntb →
      ntb ≤ tw →
      (t.length - tw) * (t.length + 1) + (t.length - tw - pending) < fuel →
      (∀ op ∈ diffLoop bs s t smap fuel tw lsc ltc tmap tblocks ntb pending, validBOp op) ∧
      ((diffLoop bs s t smap fuel tw lsc ltc tmap tblocks ntb pending).map bytespanB).sum
        = t.length - tw ∧
      (diffLoop bs s t smap fuel tw lsc ltc tmap tblocks ntb pending).foldlM
        (fun out op => applyOp s out op) (t.take tw) = some t := by
  intro fuel
  induction fuel with
  | zero =>
    intro tw lsc ltc tmap tblocks ntb pending htw hmap htb hntb hfuel
    exact absurd hfuel (Nat.not_lt_zero _)
  | succ f ih =>
    intro tw lsc ltc tmap tblocks ntb pending htw hmap htb hntb hfuel
    rw [diffLoop.eq_def]
    dsimp only
    by_cases hlt : tw + pending < t.length
    · rw [if_pos hlt]
      cases hpick : pickBest lsc ltc (scanCandidates bs smap tmap s t (tw + pending) pending) with
      | none =>
        dsimp only
        exact ih tw lsc ltc tmap tblocks ntb (pending + bs) htw hmap htb hntb (by omega)
      | some l =>
        dsimp only
        have hmem := pickBest_some_mem _ _ _ _ hpick
        obtain ⟨eo, heo, hcase⟩ :=
          scanCandidates_mem bs smap tmap s t (tw + pending) pending l hmem
        have hpack : ∃ n, 1 ≤ n ∧ tw + n ≤ t.length ∧
            (l.map bytespanB).sum = n ∧ (∀ op ∈ l, validBOp op) ∧
            l.foldlM (fun out op => applyOp s out op) (t.take tw)
              = some (t.take (tw + n)) := by
          rcases hcase with ⟨so, hin, hl⟩ | ⟨so, hin, hl⟩
          · rw [show tw + pending + eo = tw + (pending + eo) from by omega] at hl hin
            obtain ⟨hbv, hbne⟩ := hsmap _ _ hin
            have hB : pySlice s so (so + bs)
                = pySlice t (tw + (pending + eo)) (tw + (pending + eo) + bs) := hbv.symm
            obtain ⟨n, h1n, htwn, hsum, hvalid, happly⟩ :=
              measureOp_correct s t bs (pending + eo) so tw CopyKind.sourceCopyK s
                (Or.inl ⟨rfl, rfl⟩) hB (by rw [hB]; exact hbne)
            rw [← hl] at hsum hvalid happly
            exact ⟨n, h1n, htwn, hsum, hvalid, happly⟩
          · rw [show tw + pending + eo = tw + (pending + eo) from by omega] at hl hin
            obtain ⟨hbv, hbne, hblen⟩ := hmap _ _ hin
            have hB : pySlice t so (so + bs)
                = pySlice t (tw + (pending + eo)) (tw + (pending + eo) + bs) := hbv.symm
            obtain ⟨n, h1n, htwn, hsum, hvalid, happly⟩ :=
              measureOp_correct s t bs (pending + eo) so tw CopyKind.targetCopyK t
                (Or.inr ⟨rfl, rfl, by rw [← hbv]; exact hblen⟩) hB
                (by rw [hB]; exact hbne)
            rw [← hl] at hsum hvalid happly
            exact ⟨n, h1n, htwn, hsum, hvalid, happly⟩
        obtain ⟨n, h1n, htwn, hsum, hvalid, happly⟩ := hpack
        have hst1 : (emitUpdate l tw lsc ltc).1 = tw + n := by
          rw [emitUpdate_tw, hsum]
        rw [hst1]
        have hmap' : ∀ b off, (b, off) ∈ tmap →
            b = pySlice t off (off + bs) ∧ b ≠ [] ∧ off + b.length ≤ tw + n := by
          intro b off hm
          obtain ⟨hx, hy, hz⟩ := hmap b off hm
          exact ⟨hx, hy, by omega⟩
        obtain ⟨hcmap, hctb, hcntb⟩ :=
          catchUp_inv bs t tblocks tmap ntb (tw + n) hmap' htb (by omega)
        obtain ⟨hrecv, hrecsum, hrecapp⟩ :=
          ih (tw + n) (emitUpdate l tw lsc ltc).2.1 (emitUpdate l tw lsc ltc).2.2
            (catchUp bs tmap tblocks ntb (tw + n)).1
            (catchUp bs tmap tblocks ntb (tw + n)).2.1
            (catchUp bs tmap tblocks ntb (tw + n)).2.2 0
            htwn hcmap hctb hcntb
            (by
              have hdec := diffMeasure_dec t.length tw n pending h1n (by omega)
              omega)
        refine ⟨?_, ?_, ?_⟩
        · intro op hop
          rcases List.mem_append.mp hop with h1 | h1
          · exact hvalid op h1
          · exact hrecv op h1
        · rw [List.map_append, List.sum_append, hsum, hrecsum]
          omega
        · rw [List.foldlM_append, happly]
          simpa using hrecapp
    · rw [if_neg hlt]
      by_cases htw2 : tw < t.length
      · rw [if_pos htw2]
        have hdne : t.drop tw ≠ [] := by
          intro hnil
          have := congrArg List.length hnil
          rw [List.length_drop] at this
          simp at this
          omega
        refine ⟨?_, ?_, ?_⟩
        · intro op hop
          simp only [List.mem_singleton] at hop
          subst hop
          exact hdne
        · simp only [List.map_cons, List.map_nil, List.sum_cons, List.sum_nil]
          show (t.drop tw).length + 0 = t.length - tw
          rw [List.length_drop]
          omega
        · simp only [List.foldlM_cons, List.foldlM_nil]
          show (some (t.take tw ++ t.drop tw)).bind (fun b => some b) = some t
          rw [List.take_append_drop]
          rfl
      · rw [if_neg htw2]
        have htweq : tw = t.length := by omega
        refine ⟨by intro op hop; simp at hop, by simp; omega, ?_⟩
        simp only [List.foldlM_nil]
        rw [htweq, List.take_length]
        rfl

/-- C1: for every pair of byte strings, applying the operation stream
produced by `diff_bytearrays(source, target)` to `source` reconstructs
`target` exactly: every candidate the scan keeps comes from a block-map
hit, so its forward span is at least one and its operations copy exactly
the bytes of `target` from the current write offset onward, and the final
flush covers the remainder. -/
theorem c1_diff_apply_roundtrip (s t md : List Nat) :
    applyOps (diffBytearrays s t md) s = some t := by
  set bs := (s.length + t.length) / 1000000 + 1 with hbsdef
  have hbs : 1 ≤ bs := by omega
  have hsmap : ∀ b off, (b, off) ∈ buildMap (iterBlocks s bs) →
      b = pySlice s off (off + bs) ∧ b ≠ [] := by
    intro b off hmem
    rw [buildMap_eq] at hmem
    unfold iterBlocks at hmem
    rw [← List.drop_zero s] at hmem
    obtain ⟨h1, h2, -⟩ := iterBlocksGo_mem bs s s.length 0 (by simp) b off hmem
    exact ⟨h1, h2⟩
  obtain ⟨-, -, happ⟩ := diffLoop_correct bs s t (buildMap (iterBlocks s bs)) hbs hsmap
    ((t.length + 1) * (t.length + 1)) 0 0 0 [] (iterBlocks t bs) 0 0
    (by omega) (by intro b off h; simp at h)
    (by unfold iterBlocks; rw [List.drop_zero])
    (by omega)
    (by
      simp only [Nat.sub_zero]
      have hr : (t.length + 1) * (t.length + 1)
          = t.length * (t.length + 1) + (t.length + 1) := by ring
      omega)
  unfold diffBytearrays applyOps
  rw [← hbsdef]
  rw [List.foldlM_cons]
  show (some [] >>= fun out => List.foldlM (fun out op => applyOp s out op) out
    (diffLoop bs s t (buildMap (iterBlocks s bs))
        ((t.length + 1) * (t.length + 1)) 0 0 0 [] (iterBlocks t bs) 0 0
      ++ [BOp.sourceCRC32 (crc32Bytes s), BOp.targetCRC32 (crc32Bytes t)])) = some t
  simp only [Option.bind_eq_bind, Option.some_bind]
  rw [List.foldlM_append]
  rw [show ([] : List Nat) = t.take 0 from rfl, happ]
  simp only [Option.bind_eq_bind, Option.some_bind]
  rfl

/-- C2: the stream produced by `diff_bytearrays(source, target, metadata)`
starts with `Header(len(source), len(target), metadata)`; after the header,
every TargetRead carries non-empty data and every SourceRead, SourceCopy
and TargetCopy has length at least one (`validBOp`), and the bytespans of
the operations after the header (the CRC32 trailers contribute zero) sum
exactly to `len(target)`, the header's targetSize. -/
theorem c2_diff_stream_invariants (s t md : List Nat) :
    (diffBytearrays s t md).head? = some (BOp.header s.length t.length md) ∧
    (∀ op ∈ (diffBytearrays s t md).tail, validBOp op) ∧
    ((diffBytearrays s t md).tail.map bytespanB).sum = t.length := by
  set bs := (s.length + t.length) / 1000000 + 1 with hbsdef
  have hbs : 1 ≤ bs := by omega
  have hsmap : ∀ b off, (b, off) ∈ buildMap (iterBlocks s bs) →
      b = pySlice s off (off + bs) ∧ b ≠ [] := by
    intro b off hmem
    rw [buildMap_eq] at hmem
    unfold iterBlocks at hmem
    rw [← List.drop_zero s] at hmem
    obtain ⟨h1, h2, -⟩ := iterBlocksGo_mem bs s s.length 0 (by simp) b off hmem
    exact ⟨h1, h2⟩
  obtain ⟨hval, hsum, -⟩ := diffLoop_correct bs s t (buildMap (iterBlocks s bs)) hbs hsmap
    ((t.length + 1) * (t.length + 1)) 0 0 0 [] (iterBlocks t bs) 0 0
    (by omega) (by intro b off h; simp at h)
    (by unfold iterBlocks; rw [List.drop_zero])
    (by omega)
    (by
      simp only [Nat.sub_zero]
      have hr : (t.length + 1) * (t.length + 1)
          = t.length * (t.length + 1) + (t.length + 1) := by ring
      omega)
  unfold diffBytearrays
  rw [← hbsdef]
  refine ⟨rfl, ?_, ?_⟩
  · intro op hop
    simp only [List.tail_cons] at hop
    rcases List.mem_append.mp hop with h1 | h1
    · exact hval op h1
    · rcases List.mem_cons.mp h1 with h2 | h2
      · subst h2; trivial
      · rcases List.mem_cons.mp h2 with h3 | h3
        · subst h3; trivial
        · simp at h3
  · simp only [List.tail_cons, List.map_append, List.sum_append]
    rw [hsum]
    simp [bytespanB]
